import Mathlib

/-!
# License Service Reporter / Scanner operators: reconcile engine and equality predicates

A shallow embedding of the reconcile engine of the License Service Reporter operator
(`controllers/resources/reconcile_resource.go` and the resource packages built on it) and of
the label checks of the License Service Scanner operator
(`internal/controller/resources/core.go`), followed by theorems about them.

Conventions of the embedding:

* a Go `map[K]V` is an `AList`: a finite association with pairwise distinct keys; a nil map
  and an empty map are both `∅` (the code only reads or ranges over maps that may be nil);
* a Go `string` and a `[]byte` are both a `String`;
* a client call is a function of an explicit cluster state; every function that talks to the
  cluster returns its error (or `none`), the state after the call and the list of client
  calls it issued, oldest first;
* objects are values: where the Go code writes through a pointer (labels stamped on an
  object, thresholds defaulted in a probe), the embedding passes the changed value on;
* loggers are dropped: logging has no effect on the result.
-/

set_option autoImplicit false

/-! ## Go maps -/

/-- A Go map with keys `K` and values `V`. -/
abbrev GoMap (K V : Type) := AList (fun _ : K => V)

namespace GoMap

variable {K V : Type} [DecidableEq K]

/-- The map literal with the given entries; a later entry of the list is shadowed by an
earlier one with the same key. -/
def ofList (l : List (K × V)) : GoMap K V :=
  l.foldr (fun e m => m.insert e.1 e.2) ∅

/-- Equality of two maps is decided on their entries. -/
instance (priority := 2000) decEq [DecidableEq V] : DecidableEq (GoMap K V) :=
  fun a b => decidable_of_iff (a.entries = b.entries) AList.ext_iff.symm

end GoMap

/-! ## Reporter: `collection_operations.go` -/

namespace Reporter

variable {K V : Type} [DecidableEq K] [DecidableEq V]

/-- The embedding of `MapHasAllPairsFromOther`: range over `allNeededPairs`, return false at
the first key that `checked` lacks or maps to another value. -/
def MapHasAllPairsFromOther (checked allNeededPairs : GoMap K V) : Bool :=
  allNeededPairs.entries.all fun e =>
    match checked.lookup e.1 with
    | some foundValue => decide (foundValue = e.2)
    | none => false

/-- The embedding of `MapHasAllKeysFromOther`: every key of `mapWithNeededKeys` is a key of
`checked`. -/
def MapHasAllKeysFromOther {V1 V2 : Type} (checked : GoMap K V1)
    (mapWithNeededKeys : GoMap K V2) : Bool :=
  mapWithNeededKeys.entries.all fun e => (checked.lookup e.1).isSome

/-- The embedding of `MergeMaps` (`reconcile_resource.go`): a copy of `original` into which
every pair of `new` is then written. -/
def MergeMaps (original new : GoMap K V) : GoMap K V :=
  new.entries.foldl (fun originalCopy e => originalCopy.insert e.1 e.2) original

end Reporter

/-! ## Kubernetes object metadata -/

/-- The fields of `metav1.OwnerReference` the embedding keeps. -/
structure OwnerReference where
  UID : String
  Controller : Bool
  deriving DecidableEq, Repr

/-- The fields of `metav1.ObjectMeta` read or written by the operators. -/
structure ObjectMeta where
  Name : String
  Namespace : String
  Labels : GoMap String String
  Annotations : GoMap String String
  ResourceVersion : String
  OwnerReferences : List OwnerReference
  deriving DecidableEq

/-- A `client.Object`: metadata and the kind-specific remainder `S` of the object. -/
structure Object (S : Type) where
  ObjectMeta : ObjectMeta
  Body : S
  deriving DecidableEq

namespace Object

variable {S : Type}

/-- The Go method `GetName`. -/
def GetName (o : Object S) : String := o.ObjectMeta.Name

/-- The Go method `GetNamespace`. -/
def GetNamespace (o : Object S) : String := o.ObjectMeta.Namespace

/-- The Go method `GetLabels`. -/
def GetLabels (o : Object S) : GoMap String String := o.ObjectMeta.Labels

/-- The Go method `GetAnnotations`. -/
def GetAnnotations (o : Object S) : GoMap String String := o.ObjectMeta.Annotations

/-- The Go method `GetResourceVersion`. -/
def GetResourceVersion (o : Object S) : String := o.ObjectMeta.ResourceVersion

/-- The Go method `GetOwnerReferences`. -/
def GetOwnerReferences (o : Object S) : List OwnerReference := o.ObjectMeta.OwnerReferences

/-- The Go method `SetLabels`. -/
def SetLabels (o : Object S) (labels : GoMap String String) : Object S :=
  { o with ObjectMeta := { o.ObjectMeta with Labels := labels } }

/-- The Go method `SetAnnotations`. -/
def SetAnnotations (o : Object S) (annotations : GoMap String String) : Object S :=
  { o with ObjectMeta := { o.ObjectMeta with Annotations := annotations } }

end Object

/-! ## Scanner: label and annotation checks of `core.go` -/

namespace Scanner

/-- The two objects of a `BaseReconcilableResource` that its checks compare. -/
structure BaseReconcilableResource (S : Type) where
  Name : String
  ExpectedResource : Object S
  ActualResource : Object S

variable {S : Type}

/-- The embedding of `(*BaseReconcilableResource).labelsEqual`. -/
def BaseReconcilableResource.labelsEqual (b : BaseReconcilableResource S) : Bool :=
  let actualResourceLabels := b.ActualResource.GetLabels
  b.ExpectedResource.GetLabels.entries.all fun e =>
    match actualResourceLabels.lookup e.1 with
    | some actualValue => decide (e.2 = actualValue)
    | none => false

/-- The embedding of `(*BaseReconcilableResource).annotationsEqual`. -/
def BaseReconcilableResource.annotationsEqual (b : BaseReconcilableResource S) : Bool :=
  let actualResourceAnnotations := b.ActualResource.GetAnnotations
  b.ExpectedResource.GetAnnotations.entries.all fun e =>
    match actualResourceAnnotations.lookup e.1 with
    | some actualValue => decide (e.2 = actualValue)
    | none => false

end Scanner

/-! ## Errors and the cluster client -/

/-- A Go `error` value: an API status error (`apierrors`), an `errors.New` text, or a
`fmt.Errorf` text wrapping another error with `%w`. -/
inductive Err where
  | StatusNotFound
  | StatusAlreadyExists
  | Status (reason : String)
  | New (text : String)
  | Errorf (text : String) (wrapped : Err)
  deriving DecidableEq, Repr

namespace apierrors

/-- The library test `apierrors.IsNotFound`; it looks through `%w` wrappers. -/
def IsNotFound : Err → Bool
  | .StatusNotFound => true
  | .Errorf _ e => IsNotFound e
  | _ => false

/-- The library test `apierrors.IsAlreadyExists`; it looks through `%w` wrappers. -/
def IsAlreadyExists : Err → Bool
  | .StatusAlreadyExists => true
  | .Errorf _ e => IsAlreadyExists e
  | _ => false

end apierrors

/-- The key `types.NamespacedName` of a `Get`. -/
structure NamespacedName where
  Name : String
  Namespace : String
  deriving DecidableEq, Repr

/-- One call on the cluster client; `O` is the object type, `P` the patch type. `List` and
`DeletePod` are the two calls the reporter makes on pods. -/
inductive Call (O P : Type) where
  | Get (key : NamespacedName)
  | Create (obj : O)
  | Update (obj : O)
  | Patch (obj : O) (patch : P)
  | Delete (obj : O)
  | List (selector : GoMap String String)
  | DeletePod (pod : ObjectMeta)
  deriving DecidableEq

namespace Call

variable {O P : Type}

/-- Whether the call is a `Create`. -/
def isCreate : Call O P → Bool
  | .Create _ => true
  | _ => false

/-- Whether the call is an `Update`. -/
def isUpdate : Call O P → Bool
  | .Update _ => true
  | _ => false

/-- Whether the call is a `Patch`. -/
def isPatch : Call O P → Bool
  | .Patch _ _ => true
  | _ => false

/-- Whether the call is a `Delete` (of the reconciled kind or of a pod). -/
def isDelete : Call O P → Bool
  | .Delete _ => true
  | .DeletePod _ => true
  | _ => false

/-- Whether the call changes the cluster: every call but `Get` and `List`. -/
def isMutating (c : Call O P) : Bool :=
  c.isCreate || c.isUpdate || c.isPatch || c.isDelete

end Call

/-- The part of `client.Client` the operators use, over an explicit cluster state `σ`. A
writing call returns its error and the state it leaves. -/
structure Client (σ O P : Type) where
  Get : σ → NamespacedName → Except Err O
  Create : σ → O → Option Err × σ
  Update : σ → O → Option Err × σ
  Patch : σ → O → P → Option Err × σ
  Delete : σ → O → Option Err × σ
  List : σ → GoMap String String → Except Err (List ObjectMeta)
  DeletePod : σ → ObjectMeta → Option Err × σ

/-- What a function that talks to the cluster leaves behind: its Go `error` result, the
cluster state and the client calls it issued, oldest first. -/
structure Outcome (σ O P : Type) where
  err : Option Err
  state : σ
  calls : List (Call O P)

/-! ## Reporter: `names.go` and `reconcile_resource.go` -/

namespace Reporter

/-- The constant `LicenseReporterReleaseName`. -/
def LicenseReporterReleaseName : String := "ibm-license-service-reporter"

/-- The constant `LicenseReporterResourceBase`. -/
def LicenseReporterResourceBase : String := LicenseReporterReleaseName

/-- The constant `LicenseReporterComponentName`. -/
def LicenseReporterComponentName : String := LicenseReporterReleaseName ++ "-svc"

/-- The constant `CachingLabelKey`. -/
def CachingLabelKey : String := "app.kubernetes.io/instance"

/-- The constant `CachingLabelValue`. -/
def CachingLabelValue : String := LicenseReporterReleaseName

/-- The fields of the custom resource `IBMLicenseServiceReporter` read by the functions
embedded here: its name, namespace, UID, `Spec.Labels` and `Spec.Annotations`. -/
structure IBMLicenseServiceReporter where
  Name : String
  Namespace : String
  UID : String
  SpecLabels : GoMap String String
  SpecAnnotations : GoMap String String

/-- The embedding of `IBMLicenseServiceReporterConfig`. `SetControllerReference` stands for
`controllerutil.SetControllerReference` with the configuration's scheme: given the owner and
an object it returns the object with the owner reference set, or an error. -/
structure IBMLicenseServiceReporterConfig (σ S P : Type) where
  Instance : IBMLicenseServiceReporter
  Client : Client σ (Object S) P
  SetControllerReference : IBMLicenseServiceReporter → Object S → Except Err (Object S)
  IsServiceCAAPI : Bool
  IsRouteAPI : Bool

/-- The embedding of `ResourceUpdateStatus`. -/
structure ResourceUpdateStatus where
  IsInDesiredState : Bool
  IsPatchSufficient : Bool
  deriving DecidableEq, Repr

variable {σ S P : Type}

/-- The function type `IsFoundInDesiredStateIfExistsFunc`; Go returns the status and the
error side by side. -/
abbrev IsFoundInDesiredStateIfExistsFunc (σ S P : Type) :=
  IBMLicenseServiceReporterConfig σ S P → Object S → Object S → ResourceUpdateStatus × Option Err

/-- The function type `ApplyPatchToFoundObjectFunc`. -/
abbrev ApplyPatchToFoundObjectFunc (σ S P : Type) :=
  IBMLicenseServiceReporterConfig σ S P → Object S → Except Err P

/-- The function type `MergeIntoFoundAsNewObjectFunc`: merged object and
`shouldIgnoreUpdateErr`, or an error. -/
abbrev MergeIntoFoundAsNewObjectFunc (S : Type) :=
  Object S → Object S → Except Err (Object S × Bool)

/-- The function type `NotFoundExpectedOverrideFunc`. -/
abbrev NotFoundExpectedOverrideFunc (S : Type) := Object S → Except Err (Object S)

/-- The function type `RunActionsAfterReconcile`. -/
abbrev RunActionsAfterReconcile (σ S P : Type) :=
  Bool → IBMLicenseServiceReporterConfig σ S P → σ → Outcome σ (Object S) P

/-- The embedding of `FoundIsAlwaysInDesiredStateWhenExists`. -/
def FoundIsAlwaysInDesiredStateWhenExists : IsFoundInDesiredStateIfExistsFunc σ S P :=
  fun _ _ _ => (⟨true, false⟩, none)

/-- The embedding of `OverrideFoundWithExpected`. -/
def OverrideFoundWithExpected : MergeIntoFoundAsNewObjectFunc S :=
  fun _ expected =>
    let shouldIgnoreUpdateErr := true
    .ok (expected, shouldIgnoreUpdateErr)

/-- The embedding of `GetSpecLabels`: the spec's labels, the empty map when they are nil. -/
def GetSpecLabels (inst : IBMLicenseServiceReporter) : GoMap String String :=
  inst.SpecLabels

/-- The embedding of `GetSpecAnnotations`: the spec's annotations, the empty map when they
are nil. -/
def GetSpecAnnotations (inst : IBMLicenseServiceReporter) : GoMap String String :=
  inst.SpecAnnotations

/-- The embedding of `EnsureCachingLabel`: write the caching label into the object's labels
(created empty when nil). -/
def EnsureCachingLabel (o : Object S) : Object S :=
  o.SetLabels (o.GetLabels.insert CachingLabelKey CachingLabelValue)

/-- The embedding of `CreateResource`: set the controller reference, then `Create`. -/
def CreateResource (config : IBMLicenseServiceReporterConfig σ S P) (st : σ)
    (expected : Object S) : Outcome σ (Object S) P :=
  match config.SetControllerReference config.Instance expected with
  | .error err =>
    ⟨some (.Errorf "failed to set controller reference on expected resource" err), st, []⟩
  | .ok expected =>
    match config.Client.Create st expected with
    | (some err, st) => ⟨some (.Errorf "failed to create new resource" err), st, [.Create expected]⟩
    | (none, st) => ⟨none, st, [.Create expected]⟩

/-- The embedding of `DeleteResource`: `Delete`, where a not-found answer is no error. -/
def DeleteResource (config : IBMLicenseServiceReporterConfig σ S P) (st : σ)
    (res : Object S) : Outcome σ (Object S) P :=
  match config.Client.Delete st res with
  | (some err, st) =>
    if !apierrors.IsNotFound err then
      ⟨some (.Errorf "failed to delete resource" err), st, [.Delete res]⟩
    else
      ⟨none, st, [.Delete res]⟩
  | (none, st) => ⟨none, st, [.Delete res]⟩

/-- The embedding of `TryUpdateOrRecreateResource`: set the controller reference when the
object has no owner reference, `Update`, and on an update error delete and create again.
`ignoreUpdateErr` only decides whether the update error is logged. -/
def TryUpdateOrRecreateResource (config : IBMLicenseServiceReporterConfig σ S P) (st : σ)
    (res : Object S) (ignoreUpdateErr : Bool) : Outcome σ (Object S) P :=
  let _ := ignoreUpdateErr
  let withOwner : Except Err (Object S) :=
    if res.GetOwnerReferences.length = 0 then
      config.SetControllerReference config.Instance res
    else
      .ok res
  match withOwner with
  | .error err =>
    ⟨some (.Errorf "failed to set controller reference on expected resource" err), st, []⟩
  | .ok res =>
    match config.Client.Update st res with
    | (none, st) => ⟨none, st, [.Update res]⟩
    | (some _, st) =>
      let deleted := DeleteResource config st res
      match deleted.err with
      | some err => ⟨some err, deleted.state, .Update res :: deleted.calls⟩
      | none =>
        let created := CreateResource config deleted.state res
        match created.err with
        | some err => ⟨some err, created.state, .Update res :: (deleted.calls ++ created.calls)⟩
        | none => ⟨none, created.state, .Update res :: (deleted.calls ++ created.calls)⟩

/-- The embedding of `ReconcileResource`. The Go parameter `found`, an empty object that
`Get` fills, is the result of `Get` here. -/
def ReconcileResource (config : IBMLicenseServiceReporterConfig σ S P) (st : σ)
    (expected : Object S)
    (shouldCreateIfNotExists : Bool)
    (overrideExpected : Option (NotFoundExpectedOverrideFunc S))
    (checkFound : IsFoundInDesiredStateIfExistsFunc σ S P)
    (patchFound : Option (ApplyPatchToFoundObjectFunc σ S P))
    (mergeIntoNew : Option (MergeIntoFoundAsNewObjectFunc S))
    (runAdditionalActions : Option (RunActionsAfterReconcile σ S P)) :
    Outcome σ (Object S) P :=
  let expected := EnsureCachingLabel expected
  let expectedNamespacedName : NamespacedName :=
    { Name := expected.GetName, Namespace := expected.GetNamespace }
  match config.Client.Get st expectedNamespacedName with
  | .error err =>
    if apierrors.IsNotFound err then
      if shouldCreateIfNotExists then
        let overridden : Except Err (Object S) :=
          match overrideExpected with
          | some overrideExpected =>
            match overrideExpected expected with
            | .error err => .error err
            | .ok expected =>
              if expected.GetNamespace ≠ expectedNamespacedName.Namespace ∨
                  expected.GetName ≠ expectedNamespacedName.Name then
                .error (.New "overrideExpected cannot change the name or namespace of expected")
              else
                .ok expected
          | none => .ok expected
        match overridden with
        | .error err => ⟨some err, st, [.Get expectedNamespacedName]⟩
        | .ok expected =>
          let created := CreateResource config st expected
          match created.err with
          | some err =>
            if apierrors.IsAlreadyExists err then
              ⟨some (.Errorf "failed to create resource: %w. Most likely configured client has such caching that does not allow reading this resource, check k8s client configuration" err),
                created.state, .Get expectedNamespacedName :: created.calls⟩
            else
              ⟨some err, created.state, .Get expectedNamespacedName :: created.calls⟩
          | none => ⟨none, created.state, .Get expectedNamespacedName :: created.calls⟩
      else
        ⟨none, st, [.Get expectedNamespacedName]⟩
    else
      ⟨some (.Errorf "failed to get resource" err), st, [.Get expectedNamespacedName]⟩
  | .ok found =>
    let (updateStatus, err) := checkFound config found expected
    let shouldRunAdditionalActions := !updateStatus.IsInDesiredState
    match err with
    | some err => ⟨some err, st, [.Get expectedNamespacedName]⟩
    | none =>
      let updateStatus : ResourceUpdateStatus :=
        if updateStatus.IsInDesiredState then
          if found.GetLabels.lookup CachingLabelKey ≠ some CachingLabelValue then
            { IsInDesiredState := false, IsPatchSufficient := false }
          else
            updateStatus
        else
          updateStatus
      if !updateStatus.IsInDesiredState then
        match (if updateStatus.IsPatchSufficient then patchFound else none) with
        | some patchFound =>
          match patchFound config found with
          | .error err => ⟨some err, st, [.Get expectedNamespacedName]⟩
          | .ok patch =>
            match config.Client.Patch st found patch with
            | (some err, st) =>
              ⟨some err, st, [.Get expectedNamespacedName, .Patch found patch]⟩
            | (none, st) => ⟨none, st, [.Get expectedNamespacedName, .Patch found patch]⟩
        | none =>
          match mergeIntoNew with
          | some mergeIntoNew =>
            match mergeIntoNew found expected with
            | .error err => ⟨some err, st, [.Get expectedNamespacedName]⟩
            | .ok (merged, ignoreUpdateErr) =>
              let merged := EnsureCachingLabel merged
              let updated := TryUpdateOrRecreateResource config st merged ignoreUpdateErr
              match updated.err with
              | some err => ⟨some err, updated.state, .Get expectedNamespacedName :: updated.calls⟩
              | none =>
                match runAdditionalActions with
                | some runAdditionalActions =>
                  let ran := runAdditionalActions shouldRunAdditionalActions config updated.state
                  ⟨ran.err, ran.state, .Get expectedNamespacedName :: (updated.calls ++ ran.calls)⟩
                | none => ⟨none, updated.state, .Get expectedNamespacedName :: updated.calls⟩
          | none => ⟨none, st, [.Get expectedNamespacedName]⟩
      else
        ⟨none, st, [.Get expectedNamespacedName]⟩

end Reporter

/-! ## Semantic equality of maps (`apieq.Semantic.DeepEqual`) -/

namespace GoMap

variable {K V : Type} [DecidableEq K] [DecidableEq V]

/-- The answer of `apieq.Semantic.DeepEqual` on two maps: equally many keys, and every key of
the first has an equal value in the second. A nil map equals an empty one. -/
def DeepEqual (a b : GoMap K V) : Bool :=
  decide (a.entries.length = b.entries.length) &&
    a.entries.all fun e =>
      match b.lookup e.1 with
      | some v => decide (v = e.2)
      | none => false

end GoMap

/-! ## Reporter: slices of `collection_operations.go` -/

namespace Reporter

section Slices

variable {T : Type} [DecidableEq T]

/-- The second loop of `UnorderedEqualSlice`: walk `b`, fail on an element whose count in
`elementMap` is zero, else decrement it. The Go `map[T]int` is read and written only
through `elementMap[elem]`, which is zero for a missing key, so it is a function here. -/
def countDown (elementMap : T → Nat) : List T → Bool
  | [] => true
  | elem :: rest =>
    if elementMap elem = 0 then false
    else countDown (Function.update elementMap elem (elementMap elem - 1)) rest

/-- The embedding of `UnorderedEqualSlice`. -/
def UnorderedEqualSlice (a b : List T) : Bool :=
  if a.length ≠ b.length then false
  else
    let elementMap : T → Nat :=
      a.foldl (fun elementMap elem => Function.update elementMap elem (elementMap elem + 1))
        (fun _ => 0)
    countDown elementMap b

/-- The embedding of `UnorderedContainsSliceWithHashFunc`: every hash of a needed element is
the hash of some checked element. -/
def UnorderedContainsSliceWithHashFunc (checked allNeededFields : List T)
    (hashFunc : T → String) : Bool :=
  let neededMap : GoMap String Bool :=
    allNeededFields.foldl (fun neededMap elem => neededMap.insert (hashFunc elem) false) ∅
  let neededMap : GoMap String Bool :=
    checked.foldl
      (fun neededMap elem =>
        if (neededMap.lookup (hashFunc elem)).isSome then neededMap.insert (hashFunc elem) true
        else neededMap)
      neededMap
  neededMap.entries.all fun e => e.2

end Slices

end Reporter

/-! ## Reporter: container comparison of `deployments/deployments.go` -/

/-- The fields of `corev1.EnvVar`: name, value and the (uninterpreted) `ValueFrom` source. -/
structure EnvVar where
  Name : String
  Value : String
  ValueFrom : Option String
  deriving DecidableEq, Repr

/-- The fields of `corev1.ContainerPort` the embedding keeps. -/
structure ContainerPort where
  Name : String
  ContainerPort : Int
  Protocol : String
  deriving DecidableEq, Repr

/-- The fields of `corev1.VolumeMount` the embedding keeps. -/
structure VolumeMount where
  Name : String
  MountPath : String
  ReadOnly : Bool
  deriving DecidableEq, Repr

/-- The fields of `corev1.SecurityContext` the embedding keeps. -/
structure SecurityContext where
  Privileged : Option Bool
  RunAsNonRoot : Option Bool
  ReadOnlyRootFilesystem : Option Bool
  AllowPrivilegeEscalation : Option Bool
  deriving DecidableEq, Repr

/-- The fields of `corev1.Probe`; `Handler` stands for the probe's handler. -/
structure Probe where
  Handler : String
  InitialDelaySeconds : Int
  TimeoutSeconds : Int
  PeriodSeconds : Int
  SuccessThreshold : Int
  FailureThreshold : Int
  deriving DecidableEq, Repr

/-- The embedding of `corev1.ResourceRequirements`: each list is nil (`none`) or a map from
resource name to quantity, a quantity being its numeric value. -/
structure ResourceRequirements where
  Limits : Option (GoMap String Int)
  Requests : Option (GoMap String Int)
  deriving DecidableEq

/-- The fields of `corev1.Container` that `equalContainerLists` reads. -/
structure Container where
  Name : String
  Image : String
  ImagePullPolicy : String
  Command : List String
  Args : List String
  Ports : List ContainerPort
  VolumeMounts : List VolumeMount
  Env : List EnvVar
  SecurityContext : Option SecurityContext
  Resources : ResourceRequirements
  ReadinessProbe : Option Probe
  LivenessProbe : Option Probe
  deriving DecidableEq

namespace Reporter

/-- The embedding of `equalProbes`: thresholds left at zero on one side are taken from the
other side before the two probes are compared. The Go function writes the thresholds into
the probes it is given; the embedding compares the defaulted copies and returns the answer
only. -/
def equalProbes (probe1 probe2 : Option Probe) : Bool :=
  match probe1, probe2 with
  | none, none => true
  | none, some _ => false
  | some _, none => false
  | some probe1, some probe2 =>
    let (probe1, probe2) :=
      if probe1.SuccessThreshold = 0 then
        ({ probe1 with SuccessThreshold := probe2.SuccessThreshold }, probe2)
      else if probe2.SuccessThreshold = 0 then
        (probe1, { probe2 with SuccessThreshold := probe1.SuccessThreshold })
      else (probe1, probe2)
    let (probe1, probe2) :=
      if probe1.FailureThreshold = 0 then
        ({ probe1 with FailureThreshold := probe2.FailureThreshold }, probe2)
      else if probe2.FailureThreshold = 0 then
        (probe1, { probe2 with FailureThreshold := probe1.FailureThreshold })
      else (probe1, probe2)
    decide (probe1 = probe2)

/-- The embedding of `equalEnvVars`. -/
def equalEnvVars (envVarArr1 envVarArr2 : List EnvVar) : Bool :=
  if envVarArr1.length ≠ envVarArr2.length then false
  else
    envVarArr1.all fun env1 =>
      envVarArr2.any fun env2 => decide (env1.Name = env2.Name ∧ env1.Value = env2.Value)

/-- The first loop of `equalContainerLists`: pair every container of `containers1` with the
first container of `containers2` that has its name; `none` when some container has no
partner. -/
def containersToBeChecked (containers2 : List Container) :
    List Container → Option (List (Container × Container))
  | [] => some []
  | container1 :: rest =>
    match containers2.find? (fun container2 => decide (container1.Name = container2.Name)) with
    | none => none
    | some container2 =>
      match containersToBeChecked containers2 rest with
      | none => none
      | some pairs => some ((container1, container2) :: pairs)

/-- The chain of comparisons in the second loop of `equalContainerLists`: true when the found
container differs from the expected one in a compared field, or has nil limits or requests. -/
def potentialDifference (foundContainer expectedContainer : Container) : Bool :=
  if foundContainer.Image ≠ expectedContainer.Image then true
  else if foundContainer.ImagePullPolicy ≠ expectedContainer.ImagePullPolicy then true
  else if foundContainer.Command ≠ expectedContainer.Command then true
  else if foundContainer.Ports ≠ expectedContainer.Ports then true
  else if foundContainer.VolumeMounts ≠ expectedContainer.VolumeMounts then true
  else if !equalEnvVars foundContainer.Env expectedContainer.Env then true
  else if !UnorderedEqualSlice foundContainer.Args expectedContainer.Args then true
  else if foundContainer.SecurityContext ≠ expectedContainer.SecurityContext then true
  else if foundContainer.Resources.Limits = none ∨ foundContainer.Resources.Requests = none then
    true
  else if !GoMap.DeepEqual (expectedContainer.Resources.Limits.getD ∅)
      (foundContainer.Resources.Limits.getD ∅) then true
  else if !GoMap.DeepEqual (expectedContainer.Resources.Requests.getD ∅)
      (foundContainer.Resources.Requests.getD ∅) then true
  else if !equalProbes foundContainer.ReadinessProbe expectedContainer.ReadinessProbe then true
  else if !equalProbes foundContainer.LivenessProbe expectedContainer.LivenessProbe then true
  else false

/-- The embedding of `equalContainerLists`. The second loop ranges over the pairs and stops
at the first pair with a difference; its result does not depend on the order of the range. -/
def equalContainerLists (containers1 containers2 : List Container) : Bool :=
  if containers1.length ≠ containers2.length then false
  else if containers1.length = 0 then true
  else
    match containersToBeChecked containers2 containers1 with
    | none => false
    | some pairs =>
      let difference :=
        pairs.foldl
          (fun difference pair =>
            if difference then true else potentialDifference pair.1 pair.2)
          false
      !difference

end Reporter

/-! ## Reporter: patches of `reconcile_resource.go` -/

/-- The JSON merge patch that `MarshalAndPatch` builds from the data of
`PatchFoundWithSpecLabelsAndAnnotations`: `metadata.labels`, `metadata.annotations` and
`metadata.resourceVersion`, and nothing else. -/
structure MergePatch where
  Labels : GoMap String String
  Annotations : GoMap String String
  ResourceVersion : String
  deriving DecidableEq

namespace Reporter

variable {σ S : Type}

/-- The embedding of `MarshalAndPatch` for data whose `metadata` holds labels and
annotations: the resource version is written into `metadata`. Marshalling maps of strings
does not fail. -/
def MarshalAndPatch (labels annotations : GoMap String String) (resourceVersion : String) :
    Except Err MergePatch :=
  .ok { Labels := labels, Annotations := annotations, ResourceVersion := resourceVersion }

/-- The embedding of `PatchFoundWithSpecLabelsAndAnnotations`. -/
def PatchFoundWithSpecLabelsAndAnnotations : ApplyPatchToFoundObjectFunc σ S MergePatch :=
  fun config found =>
    MarshalAndPatch (GetSpecLabels config.Instance) (GetSpecAnnotations config.Instance)
      found.GetResourceVersion

/-- The embedding of `LabelsForSelector`. -/
def LabelsForSelector (instanceName : String) : GoMap String String :=
  GoMap.ofList
    [("app", LicenseReporterResourceBase ++ "-" ++ instanceName),
     ("component", LicenseReporterComponentName),
     ("licensing_cr", instanceName)]

/-- The embedding of `GetDefaultResourceName`. -/
def GetDefaultResourceName (instanceName : String) : String :=
  LicenseReporterResourceBase ++ "-" ++ instanceName

/-- The embedding of `LabelsForMeta`. -/
def LabelsForMeta (inst : IBMLicenseServiceReporter) : GoMap String String :=
  let metaLabels : GoMap String String :=
    GoMap.ofList
      [("app.kubernetes.io/name", GetDefaultResourceName inst.Name),
       ("app.kubernetes.io/component", LicenseReporterComponentName),
       ("app.kubernetes.io/managed-by", "operator"),
       (CachingLabelKey, CachingLabelValue),
       ("release", LicenseReporterReleaseName)]
  MergeMaps metaLabels (GetSpecLabels inst)

/-- The embedding of `RestartReporterOperandPod`: list the operand pods and delete the first
one; a not-found answer of either call is no error. -/
def RestartReporterOperandPod {P : Type} : RunActionsAfterReconcile σ S P :=
  fun shouldRun config st =>
    if !shouldRun then ⟨none, st, []⟩
    else
      let selector := LabelsForSelector config.Instance.Name
      match config.Client.List st selector with
      | .error err =>
        if apierrors.IsNotFound err then ⟨none, st, [.List selector]⟩
        else
          ⟨some (.Errorf "could not list License Service Reporter pods for restart" err), st,
            [.List selector]⟩
      | .ok items =>
        match items with
        | [] => ⟨none, st, [.List selector]⟩
        | reporterPod :: _ =>
          match config.Client.DeletePod st reporterPod with
          | (some err, st) =>
            if apierrors.IsNotFound err then ⟨none, st, [.List selector, .DeletePod reporterPod]⟩
            else
              ⟨some (.Errorf ("could not delete " ++ reporterPod.Name ++ " pod") err), st,
                [.List selector, .DeletePod reporterPod]⟩
          | (none, st) => ⟨none, st, [.List selector, .DeletePod reporterPod]⟩

end Reporter

/-! ## Reporter: `services/services.go` -/

/-- The embedding of `intstr.IntOrString`. -/
inductive IntOrString where
  | FromInt (intVal : Int)
  | FromString (strVal : String)
  deriving DecidableEq, Repr

/-- The method `IntOrString.String`: the string, or the integer in decimal. -/
def IntOrString.toGoString : IntOrString → String
  | .FromInt intVal => toString intVal
  | .FromString strVal => strVal

/-- The fields of `corev1.ServicePort`. -/
structure ServicePort where
  Name : String
  Protocol : String
  AppProtocol : Option String
  Port : Int
  TargetPort : IntOrString
  NodePort : Int
  deriving DecidableEq, Repr

/-- The fields of `corev1.ServiceSpec` that the reporter sets or compares (`Type_` is the Go
field `Type`). -/
structure ServiceSpec where
  Type_ : String
  Ports : List ServicePort
  Selector : GoMap String String
  deriving DecidableEq

namespace Reporter

namespace services

variable {σ : Type}

/-- The constant `InternalCertSecretName`. -/
def InternalCertSecretName : String := "ibm-license-service-reporter-cert-internal"

/-- The constant `OcpCertSecretNameTag`. -/
def OcpCertSecretNameTag : String := "service.beta.openshift.io/serving-cert-secret-name"

/-- The embedding of `getServiceSpec`. -/
def getServiceSpec (instanceName : String) : ServiceSpec :=
  { Type_ := "ClusterIP",
    Ports :=
      [{ Name := "receiver-port", Port := 8080, TargetPort := .FromInt 8080, Protocol := "TCP",
         AppProtocol := none, NodePort := 0 },
       { Name := "proxy", Port := 8888, TargetPort := .FromInt 8888, Protocol := "TCP",
         AppProtocol := none, NodePort := 0 }],
    Selector := LabelsForSelector instanceName }

/-- The embedding of `GetService`. -/
def GetService {P : Type} (config : IBMLicenseServiceReporterConfig σ ServiceSpec P) :
    Object ServiceSpec :=
  let inst := config.Instance
  let metaLabels := LabelsForMeta inst
  let annotations : GoMap String String :=
    if config.IsServiceCAAPI then GoMap.ofList [(OcpCertSecretNameTag, InternalCertSecretName)]
    else ∅
  { ObjectMeta :=
      { Name := LicenseReporterResourceBase, Namespace := inst.Namespace, Labels := metaLabels,
        Annotations := MergeMaps annotations (GetSpecAnnotations inst),
        ResourceVersion := "", OwnerReferences := [] },
    Body := getServiceSpec inst.Name }

/-- The embedding of `hashPort`: `fmt.Sprintf("%s:%d:%s:%s", ...)` of the port's name, port,
target port and protocol. -/
def hashPort (port : ServicePort) : String :=
  port.Name ++ ":" ++ toString port.Port ++ ":" ++ port.TargetPort.toGoString ++ ":" ++
    port.Protocol

/-- The embedding of `IsServiceInDesiredState`. -/
def IsServiceInDesiredState {P : Type} : IsFoundInDesiredStateIfExistsFunc σ ServiceSpec P :=
  fun config foundService expectedService =>
    if foundService.Body.Type_ ≠ expectedService.Body.Type_ then
      (⟨false, false⟩, none)
    else if !UnorderedContainsSliceWithHashFunc foundService.Body.Ports
        expectedService.Body.Ports hashPort then
      (⟨false, false⟩, none)
    else if !GoMap.DeepEqual foundService.Body.Selector expectedService.Body.Selector then
      (⟨false, false⟩, none)
    else if !MapHasAllPairsFromOther foundService.GetLabels (GetSpecLabels config.Instance) then
      (⟨false, true⟩, none)
    else if !MapHasAllPairsFromOther foundService.GetAnnotations
        expectedService.GetAnnotations then
      (⟨false, true⟩, none)
    else
      (⟨true, false⟩, none)

/-- The embedding of `ReconcileService`. -/
def ReconcileService (config : IBMLicenseServiceReporterConfig σ ServiceSpec MergePatch)
    (st : σ) : Outcome σ (Object ServiceSpec) MergePatch :=
  let expectedService := GetService config
  ReconcileResource config st expectedService true none IsServiceInDesiredState
    (some PatchFoundWithSpecLabelsAndAnnotations) (some OverrideFoundWithExpected) none

end services

end Reporter

/-! ## Reporter: `secrets/auth.go` -/

/-- The fields of `corev1.Secret` besides its metadata (`Type_` is the Go field `Type`). -/
structure SecretBody where
  Type_ : String
  Data : GoMap String String
  deriving DecidableEq

namespace strings

/-- The pieces of a list of characters between the occurrences of `sep`. -/
def splitOnChar (sep : Char) : List Char → List (List Char)
  | [] => [[]]
  | c :: cs =>
    if c = sep then [] :: splitOnChar sep cs
    else
      match splitOnChar sep cs with
      | [] => [[c]]
      | piece :: pieces => (c :: piece) :: pieces

/-- The library function `strings.Split` for a separator of one character. -/
def Split (s : String) (sep : Char) : List String :=
  (splitOnChar sep s.data).map String.mk

end strings

namespace Reporter

namespace secrets

variable {σ : Type}

/-- The constant `ReporterCredentialsSecretName`. -/
def ReporterCredentialsSecretName : String := "ibm-license-service-reporter-credentials"

/-- The constant `ReporterHtpasswdSecretName`. -/
def ReporterHtpasswdSecretName : String := "ibm-license-service-reporter-credentials-htpasswd"

/-- What `secrets/auth.go` takes from outside the program: the user name that
`GetReporterUsername` reads from a file, the base64 text of the 16 bytes that `rand.Read`
draws, and the two `bcrypt` functions (`CompareHashAndPassword` is true when the library
returns nil). -/
structure Sources where
  ReporterUsername : Except Err String
  RandomPassword : Except Err String
  GenerateFromPassword : String → Except Err String
  CompareHashAndPassword : String → String → Bool

/-- The embedding of `generateUserAndPassword`. -/
def generateUserAndPassword (src : Sources) : Except Err (String × String) :=
  match src.ReporterUsername with
  | .error err => .error err
  | .ok username =>
    match src.RandomPassword with
    | .error err => .error err
    | .ok randStringPasswd => .ok (username, randStringPasswd)

/-- The embedding of `generateHtpasswd`: `fmt.Sprintf("%s:%s\n", username, hash)`. -/
def generateHtpasswd (src : Sources) (username password : String) : Except Err String :=
  match src.GenerateFromPassword password with
  | .error err => .error err
  | .ok hashedPassword => .ok (username ++ ":" ++ hashedPassword ++ "\n")

/-- The embedding of `GetReporterCredentialsSecret`. -/
def GetReporterCredentialsSecret (src : Sources) (namespace_ : String)
    (metaLabels metaAnnotations : GoMap String String) : Except Err (Object SecretBody) :=
  match generateUserAndPassword src with
  | .error err => .error err
  | .ok (username, password) =>
    .ok
      { ObjectMeta :=
          { Name := ReporterCredentialsSecretName, Namespace := namespace_,
            Labels := metaLabels, Annotations := metaAnnotations, ResourceVersion := "",
            OwnerReferences := [] },
        Body :=
          { Type_ := "kubernetes.io/basic-auth",
            Data := GoMap.ofList [("username", username), ("password", password)] } }

/-- The embedding of `GetReporterHtpasswdSecret`. A key missing from the credentials data
reads as the empty string. -/
def GetReporterHtpasswdSecret (src : Sources) (namespace_ : String)
    (metaLabels metaAnnotations : GoMap String String) (credsSecret : Object SecretBody) :
    Except Err (Object SecretBody) :=
  let rawUsername := (credsSecret.Body.Data.lookup "username").getD ""
  let rawPassword := (credsSecret.Body.Data.lookup "password").getD ""
  match generateHtpasswd src rawUsername rawPassword with
  | .error err => .error err
  | .ok htpasswd =>
    .ok
      { ObjectMeta :=
          { Name := ReporterHtpasswdSecretName, Namespace := namespace_,
            Labels := metaLabels, Annotations := metaAnnotations, ResourceVersion := "",
            OwnerReferences := [] },
        Body := { Type_ := "Opaque", Data := GoMap.ofList [("data", htpasswd)] } }

/-- The state check that `ReconcileCredentialsSecrets` passes for the credentials secret (an
anonymous function in the source). -/
def credentialsCheckFound {P : Type} : IsFoundInDesiredStateIfExistsFunc σ SecretBody P :=
  fun config foundSecret _ =>
    if (match foundSecret.Body.Data.lookup "username" with
        | some val => decide (val = "")
        | none => true) then
      (⟨false, false⟩, none)
    else if (match foundSecret.Body.Data.lookup "password" with
        | some val => decide (val = "")
        | none => true) then
      (⟨false, false⟩, none)
    else if !MapHasAllPairsFromOther foundSecret.GetLabels (GetSpecLabels config.Instance) then
      (⟨false, true⟩, none)
    else if !MapHasAllPairsFromOther foundSecret.GetAnnotations
        (GetSpecAnnotations config.Instance) then
      (⟨false, true⟩, none)
    else
      (⟨true, false⟩, none)

/-- The state check that `ReconcileCredentialsSecrets` passes for the htpasswd secret (an
anonymous function in the source that closes over `expectedUsername`, `expectedPassword`). -/
def htpasswdCheckFound {P : Type} (src : Sources) (expectedUsername expectedPassword : String) :
    IsFoundInDesiredStateIfExistsFunc σ SecretBody P :=
  fun config foundSecret expectedSecret =>
    if foundSecret.Body.Type_ ≠ expectedSecret.Body.Type_ then
      (⟨false, false⟩, none)
    else if !MapHasAllKeysFromOther foundSecret.Body.Data expectedSecret.Body.Data then
      (⟨false, false⟩, none)
    else
      let data := (foundSecret.Body.Data.lookup "data").getD ""
      let splitData := strings.Split data ':'
      match splitData with
      | [foundUsername, hashedPassword] =>
        if foundUsername ≠ expectedUsername then
          (⟨false, false⟩, none)
        else if !src.CompareHashAndPassword hashedPassword expectedPassword then
          (⟨false, false⟩, none)
        else if !MapHasAllPairsFromOther foundSecret.GetLabels
            (GetSpecLabels config.Instance) then
          (⟨false, true⟩, none)
        else if !MapHasAllPairsFromOther foundSecret.GetAnnotations
            (GetSpecAnnotations config.Instance) then
          (⟨false, true⟩, none)
        else
          (⟨true, false⟩, none)
      | _ => (⟨false, false⟩, none)

/-- The wait loop of `ReconcileCredentialsSecrets`: up to `retry` reads of the credentials
secret, repeated while the answer is not-found (the sleep between two reads is dropped).
The result is the secret read or the last error, with the `Get` calls issued; the flag tells
whether the error left the loop at once (it is not a not-found answer). -/
def waitForCredentialsSecret {P : Type}
    (config : IBMLicenseServiceReporterConfig σ SecretBody P) (st : σ) (key : NamespacedName) :
    Nat → Except (Err × Bool) (Object SecretBody) × List (Call (Object SecretBody) P)
  | 0 => (.error (.StatusNotFound, false), [])
  | retry + 1 =>
    match config.Client.Get st key with
    | .ok foundCredsSecret => (.ok foundCredsSecret, [.Get key])
    | .error err =>
      if apierrors.IsNotFound err then
        match retry with
        | 0 => (.error (err, false), [.Get key])
        | _ + 1 =>
          let later := waitForCredentialsSecret config st key retry
          (later.1, .Get key :: later.2)
      else (.error (err, true), [.Get key])

/-- The embedding of `ReconcileCredentialsSecrets`. -/
def ReconcileCredentialsSecrets (src : Sources)
    (config : IBMLicenseServiceReporterConfig σ SecretBody MergePatch) (st : σ) :
    Outcome σ (Object SecretBody) MergePatch :=
  let inst := config.Instance
  match GetReporterCredentialsSecret src inst.Namespace (LabelsForMeta inst)
      (GetSpecAnnotations inst) with
  | .error err => ⟨some err, st, []⟩
  | .ok expectedCredsSecret =>
    let creds :=
      ReconcileResource config st expectedCredsSecret true none credentialsCheckFound
        (some PatchFoundWithSpecLabelsAndAnnotations) (some OverrideFoundWithExpected) none
    match creds.err with
    | some err => ⟨some err, creds.state, creds.calls⟩
    | none =>
      let waited :=
        waitForCredentialsSecret config creds.state
          { Name := ReporterCredentialsSecretName, Namespace := inst.Namespace } 3
      match waited.1 with
      | .error (err, true) =>
        ⟨some (.Errorf ("could not get " ++ ReporterCredentialsSecretName ++ " secret") err),
          creds.state, creds.calls ++ waited.2⟩
      | .error (err, false) =>
        ⟨some (.Errorf ("could not create " ++ ReporterCredentialsSecretName ++
            " secret after 3 retires") err), creds.state, creds.calls ++ waited.2⟩
      | .ok foundCredsSecret =>
        let expectedPassword := (foundCredsSecret.Body.Data.lookup "password").getD ""
        let expectedUsername := (foundCredsSecret.Body.Data.lookup "username").getD ""
        match GetReporterHtpasswdSecret src inst.Namespace (LabelsForMeta inst)
            (GetSpecAnnotations inst) foundCredsSecret with
        | .error err => ⟨some err, creds.state, creds.calls ++ waited.2⟩
        | .ok expectedHtpasswdSecret =>
          let htpasswd :=
            ReconcileResource config creds.state expectedHtpasswdSecret true none
              (htpasswdCheckFound src expectedUsername expectedPassword)
              (some PatchFoundWithSpecLabelsAndAnnotations) (some OverrideFoundWithExpected)
              (some RestartReporterOperandPod)
          ⟨htpasswd.err, htpasswd.state, creds.calls ++ waited.2 ++ htpasswd.calls⟩

end secrets

end Reporter

/-! ## A reference cluster

The API server and `controllerutil` are libraries outside the repository. The definitions
below are a small in-memory cluster in their place; concrete runs of the reconcile functions
are evaluated against it. -/

/-- The state of the reference cluster: the stored objects of the reconciled kind by
namespace and name, and the pods. -/
structure Cluster (S : Type) where
  objects : GoMap NamespacedName (Object S)
  pods : List ObjectMeta

namespace Cluster

variable {S : Type}

/-- The key under which the cluster stores an object. -/
def keyOf (o : Object S) : NamespacedName :=
  { Name := o.GetName, Namespace := o.GetNamespace }

/-- An object after a JSON merge patch of its metadata: the patch's labels and annotations
are written over the object's. -/
def applyPatch (o : Object S) (patch : MergePatch) : Object S :=
  (o.SetLabels (Reporter.MergeMaps o.GetLabels patch.Labels)).SetAnnotations
    (Reporter.MergeMaps o.GetAnnotations patch.Annotations)

/-- The client of the reference cluster. `Create` refuses an existing object, `Update`,
`Patch` and `Delete` a missing one; `Update` and `Patch` refuse a resource version that is
set and differs from the stored one. -/
def client : Client (Cluster S) (Object S) MergePatch where
  Get st key :=
    match st.objects.lookup key with
    | some o => .ok o
    | none => .error .StatusNotFound
  Create st o :=
    match st.objects.lookup (keyOf o) with
    | some _ => (some .StatusAlreadyExists, st)
    | none => (none, { st with objects := st.objects.insert (keyOf o) o })
  Update st o :=
    match st.objects.lookup (keyOf o) with
    | none => (some .StatusNotFound, st)
    | some stored =>
      if o.GetResourceVersion ≠ "" ∧ o.GetResourceVersion ≠ stored.GetResourceVersion then
        (some (.Status "Conflict"), st)
      else (none, { st with objects := st.objects.insert (keyOf o) o })
  Patch st o patch :=
    match st.objects.lookup (keyOf o) with
    | none => (some .StatusNotFound, st)
    | some stored =>
      if patch.ResourceVersion ≠ "" ∧ patch.ResourceVersion ≠ stored.GetResourceVersion then
        (some (.Status "Conflict"), st)
      else (none, { st with objects := st.objects.insert (keyOf o) (applyPatch stored patch) })
  Delete st o :=
    match st.objects.lookup (keyOf o) with
    | none => (some .StatusNotFound, st)
    | some _ => (none, { st with objects := st.objects.erase (keyOf o) })
  List st selector :=
    .ok (st.pods.filter fun pod => Reporter.MapHasAllPairsFromOther pod.Labels selector)
  DeletePod st pod :=
    if st.pods.any (fun p => decide (p.Name = pod.Name ∧ p.Namespace = pod.Namespace)) then
      let remaining :=
        st.pods.filter fun p => !decide (p.Name = pod.Name ∧ p.Namespace = pod.Namespace)
      (none, { st with pods := remaining })
    else (some .StatusNotFound, st)

/-- The behaviour of `controllerutil.SetControllerReference` in the reference cluster: it
refuses an owner in another namespace and an object that another controller owns, and
otherwise makes the owner the object's controller reference. -/
def SetControllerReference (owner : Reporter.IBMLicenseServiceReporter) (o : Object S) :
    Except Err (Object S) :=
  if owner.Namespace ≠ o.GetNamespace then
    .error (.New "cross-namespace owner references are disallowed")
  else if o.GetOwnerReferences.any (fun r => r.Controller && decide (r.UID ≠ owner.UID)) then
    .error (.New "object is already owned by another controller")
  else
    let others := o.GetOwnerReferences.filter fun r => decide (r.UID ≠ owner.UID)
    let ownerReference : OwnerReference := { UID := owner.UID, Controller := true }
    .ok { o with ObjectMeta := { o.ObjectMeta with OwnerReferences := ownerReference :: others } }

/-- The reporter configuration that runs against the reference cluster. -/
def config (inst : Reporter.IBMLicenseServiceReporter) (isServiceCAAPI isRouteAPI : Bool) :
    Reporter.IBMLicenseServiceReporterConfig (Cluster S) S MergePatch where
  Instance := inst
  Client := client
  SetControllerReference := SetControllerReference
  IsServiceCAAPI := isServiceCAAPI
  IsRouteAPI := isRouteAPI

end Cluster

/-! ## Concrete inputs -/

namespace Example

/-- A custom resource `instance` in namespace `test`, without spec labels or annotations. -/
def reporter : Reporter.IBMLicenseServiceReporter :=
  { Name := "instance", Namespace := "test", UID := "reporter-uid",
    SpecLabels := ∅, SpecAnnotations := ∅ }

/-- An object without content, named `ibm-license-service-reporter` in namespace `test`, with
the given labels, resource version and owner references. -/
def object (labels : GoMap String String) (resourceVersion : String)
    (owners : List OwnerReference) : Object Unit :=
  { ObjectMeta :=
      { Name := "ibm-license-service-reporter", Namespace := "test", Labels := labels,
        Annotations := ∅, ResourceVersion := resourceVersion, OwnerReferences := owners },
    Body := () }

/-- A cluster that stores exactly the given object and has no pods. -/
def clusterWith {S : Type} (o : Object S) : Cluster S :=
  { objects := GoMap.ofList [(Cluster.keyOf o, o)], pods := [] }

/-- The labels that hold the caching label only. -/
def cachingLabels : GoMap String String :=
  GoMap.ofList [(Reporter.CachingLabelKey, Reporter.CachingLabelValue)]

end Example

namespace Example

/-- A stand-in for the sources of `secrets/auth.go`: a fixed user name and random password,
and in place of `bcrypt` a hash that is the password behind a fixed prefix, accepted with or
without the newline that ends an htpasswd entry. -/
def sources : Reporter.secrets.Sources :=
  { ReporterUsername := .ok "license-administrator"
    RandomPassword := .ok "cmFuZG9tLXBhc3N3b3JkIQ=="
    GenerateFromPassword := fun password => .ok ("$2a$10$" ++ password)
    CompareHashAndPassword := fun hashedPassword password =>
      decide (hashedPassword = "$2a$10$" ++ password ∨
        hashedPassword = "$2a$10$" ++ password ++ "\n") }

/-- A credentials secret in namespace `test` with the given labels, user name and password. -/
def credentialsSecret (labels : GoMap String String) (username password : String) :
    Object SecretBody :=
  { ObjectMeta :=
      { Name := Reporter.secrets.ReporterCredentialsSecretName, Namespace := "test",
        Labels := labels, Annotations := ∅, ResourceVersion := "1", OwnerReferences := [] },
    Body :=
      { Type_ := "kubernetes.io/basic-auth",
        Data := GoMap.ofList [("username", username), ("password", password)] } }

end Example

namespace Example

/-- An htpasswd secret as the reporter builds it in namespace `test` for the custom resource
`reporter`, with the given entry as its data. -/
def htpasswdSecret (entry : String) : Object SecretBody :=
  { ObjectMeta :=
      { Name := Reporter.secrets.ReporterHtpasswdSecretName, Namespace := "test",
        Labels := Reporter.LabelsForMeta reporter,
        Annotations := Reporter.GetSpecAnnotations reporter,
        ResourceVersion := "", OwnerReferences := [] },
    Body := { Type_ := "Opaque", Data := GoMap.ofList [("data", entry)] } }

end Example

namespace Cluster

/-- The cluster stores under `key` an object whose content (all but the metadata) is `body`. -/
def holdsBody {S : Type} (key : NamespacedName) (body : S) (st : Cluster S) : Prop :=
  ∃ o, st.objects.lookup key = some o ∧ o.Body = body

end Cluster

namespace Example

/-- The custom resource `reporter` with the spec label `team = a`. -/
def reporterWithSpecLabel : Reporter.IBMLicenseServiceReporter :=
  { reporter with SpecLabels := GoMap.ofList [("team", "a")] }

end Example

/-! ## The reporter's container type and its image reference (`api/v1alpha1/container.go`) -/

namespace strings

/-- The library function `strings.Contains` (and `strings.ContainsAny`) for a one-character
argument: the character occurs in the text. -/
def Contains (s : String) (c : Char) : Bool :=
  decide (c ∈ s.data)

/-- The library function `strings.Join`. -/
def Join (elems : List String) (sep : String) : String :=
  ⟨sep.data.intercalate (elems.map String.data)⟩

/-- The library function `strings.HasSuffix` for a one-character suffix. -/
def HasSuffix (s : String) (c : Char) : Bool :=
  decide (s.data.getLast? = some c)

end strings

namespace v1alpha1

/-- The embedding of the reporter's `Container` type. -/
structure Container where
  ImageRegistry : String
  ImageName : String
  ImageTagPostfix : String
  Resources : ResourceRequirements
  ImagePullPolicy : String
  deriving DecidableEq

namespace Container

/-- The zero value of `Container` (the Go declaration `var temp api.Container`). -/
def zero : Container :=
  { ImageRegistry := "", ImageName := "", ImageTagPostfix := "",
    Resources := { Limits := none, Requests := none }, ImagePullPolicy := "" }

/-- The embedding of `GetFullImage`. -/
def GetFullImage (container : Container) : String :=
  if strings.Contains container.ImageTagPostfix ':' then
    container.ImageRegistry ++ "/" ++ container.ImageName ++ "@" ++ container.ImageTagPostfix
  else
    container.ImageRegistry ++ "/" ++ container.ImageName ++ ":" ++ container.ImageTagPostfix

/-- The embedding of `GetImageParametersFromEnv`: the container after the call, and the
error. `Getenv` is the process environment (`os.Getenv`). -/
def GetImageParametersFromEnv (Getenv : String → String) (container : Container)
    (envVariableName : String) : Container × Option Err :=
  let fullImageName := Getenv envVariableName
  let imagePathSplitted := strings.Split fullImageName '/'
  if imagePathSplitted.length < 2 then
    (container, some (.New ("ENV variable: " ++ envVariableName ++
      " should have registry and image separated with \"/\" symbol")))
  else
    let imageWithTag := imagePathSplitted.getLast?.getD ""
    let imageWithTagSplitted : Except Err (List String) :=
      if strings.Contains imageWithTag '@' then
        let imageWithTagSplitted := strings.Split imageWithTag '@'
        if imageWithTagSplitted.length ≠ 2 then
          .error (.New ("ENV variable: " ++ envVariableName ++
            " in operator deployment should have digest and image name separated by only one \"@\" symbol"))
        else .ok imageWithTagSplitted
      else
        let imageWithTagSplitted := strings.Split imageWithTag ':'
        if imageWithTagSplitted.length ≠ 2 then
          .error (.New ("ENV variable: " ++ envVariableName ++
            " in operator deployment should have image tag and image name separated by only one \":\" symbol"))
        else .ok imageWithTagSplitted
    match imageWithTagSplitted with
    | .error err => (container, some err)
    | .ok imageWithTagSplitted =>
      ({ container with
          ImageTagPostfix := imageWithTagSplitted.getD 1 "",
          ImageName := imageWithTagSplitted.getD 0 "",
          ImageRegistry := strings.Join imagePathSplitted.dropLast "/" }, none)

end Container

end v1alpha1

namespace Reporter

namespace deployments

/-- The embedding of `SetContainerFromEnv`. -/
def SetContainerFromEnv (Getenv : String → String) (container : v1alpha1.Container)
    (envVar : String) : v1alpha1.Container × Option Err :=
  let temp : v1alpha1.Container := v1alpha1.Container.zero
  match temp.GetImageParametersFromEnv Getenv envVar with
  | (temp, some err) => (temp, some err)
  | (temp, none) =>
    let container :=
      if container.ImageName = "" then { container with ImageName := temp.ImageName }
      else container
    let container :=
      if container.ImageRegistry = "" then { container with ImageRegistry := temp.ImageRegistry }
      else container
    let container :=
      if container.ImageTagPostfix = "" then
        { container with ImageTagPostfix := temp.ImageTagPostfix }
      else container
    (container, none)

end deployments

end Reporter

/-! ### The image reference in the specification's words -/

namespace strings

/-- The text before and the text after the last occurrence of `sep`, when there is one. -/
def cutLast (sep : Char) : List Char → Option (List Char × List Char)
  | [] => none
  | c :: cs =>
    match cutLast sep cs with
    | some (before, after) => some (c :: before, after)
    | none => if c = sep then some ([], cs) else none

end strings

namespace v1alpha1

/-- The image reference as the specification words it: the registry is everything before the
last `/`; the last segment is cut at `@` when it holds one, else at `:`, and must hold that
separator exactly once; the name is the part before the separator and the tag or digest the
part after it. The result is registry, name, tag; `none` is a rejected reference. -/
def imageReferenceSpec (s : String) : Option (String × String × String) :=
  match strings.cutLast '/' s.data with
  | none => none
  | some (registry, segment) =>
    let sep : Char := if '@' ∈ segment then '@' else ':'
    if segment.count sep = 1 then
      some (⟨registry⟩, ⟨segment.takeWhile (· ≠ sep)⟩, ⟨(segment.dropWhile (· ≠ sep)).tail⟩)
    else none

end v1alpha1

/-! ## The reporter's ingress state check (`ingress/ingress.go`) -/

/-- The fields of `networkingv1.IngressTLS`. -/
structure IngressTLS where
  Hosts : List String
  SecretName : String
  deriving DecidableEq, Repr

/-- The fields of `networkingv1.HTTPIngressPath` that the reporter sets; the backend is a
service, given by its name and port number. -/
structure HTTPIngressPath where
  Path : String
  PathType : String
  ServiceName : String
  ServicePortNumber : Int
  deriving DecidableEq, Repr

/-- The fields of `networkingv1.IngressRule` that the reporter sets. -/
structure IngressRule where
  Host : String
  Paths : List HTTPIngressPath
  deriving DecidableEq, Repr

/-- The fields of `networkingv1.IngressSpec` that the reporter sets. `apieq.Semantic.DeepEqual`
of two specs is their equality: it treats nil and empty lists alike and compares the class
name behind its pointer. -/
structure IngressSpec where
  TLS : List IngressTLS
  IngressClassName : Option String
  Rules : List IngressRule
  deriving DecidableEq, Repr

namespace Reporter

namespace ingress

variable {σ P : Type}

/-- The embedding of `isIngressInDesiredState`. -/
def isIngressInDesiredState : IsFoundInDesiredStateIfExistsFunc σ IngressSpec P :=
  fun _config foundIngress expectedIngress =>
    if foundIngress.ObjectMeta.Name ≠ expectedIngress.ObjectMeta.Name then
      (⟨false, false⟩, none)
    else if !MapHasAllPairsFromOther foundIngress.ObjectMeta.Labels
        expectedIngress.ObjectMeta.Labels then
      (⟨false, false⟩, none)
    else if !GoMap.DeepEqual foundIngress.ObjectMeta.Annotations
        expectedIngress.ObjectMeta.Annotations then
      (⟨false, false⟩, none)
    else if !decide (foundIngress.Body = expectedIngress.Body) then
      (⟨false, false⟩, none)
    else
      (⟨true, false⟩, none)

end ingress

/-- The embedding of `LabelsForPod`: the labels of `LabelsForMeta` into which every selector
label is then written. -/
def LabelsForPod (inst : IBMLicenseServiceReporter) : GoMap String String :=
  let podLabels := LabelsForMeta inst
  let selectorLabels := LabelsForSelector inst.Name
  selectorLabels.entries.foldl (fun podLabels e => podLabels.insert e.1 e.2) podLabels

end Reporter

namespace Example

/-- An ingress of the reporter in namespace `test`, with the given labels and annotations. -/
def ingress (labels annotations : GoMap String String) : Object IngressSpec :=
  { ObjectMeta :=
      { Name := "ibm-license-service-reporter-api-ingress", Namespace := "test",
        Labels := labels, Annotations := annotations,
        ResourceVersion := "", OwnerReferences := [] },
    Body :=
      { TLS := [], IngressClassName := none,
        Rules :=
          [{ Host := "reporter.example.com",
             Paths :=
               [{ Path := "/", PathType := "ImplementationSpecific",
                  ServiceName := "ibm-license-service-reporter",
                  ServicePortNumber := 8080 }] }] } }

end Example

/-! ## Resource defaults (`api/v1alpha1/container.go`, `scanner_controller.go`) -/

namespace v1alpha1

namespace Container

/-- The value of `ResourceList.Cpu()`, `.Memory()` or `.StorageEphemeral()`: the quantity
stored under the resource name, zero when the list is nil or lacks the name. -/
def quantity (list : Option (GoMap String Int)) (resourceName : String) : Int :=
  ((list.getD ∅).lookup resourceName).getD 0

/-- The Go assignment `list[resourceName] = value`; it panics (`none`) on a nil list. -/
def assign (list : Option (GoMap String Int)) (resourceName : String) (value : Int) :
    Option (GoMap String Int) :=
  list.map fun m => m.insert resourceName value

/-- The embedding of `InitResourcesIfNil`. -/
def InitResourcesIfNil (container : Container) : Container :=
  let container :=
    if container.Resources.Limits = none then
      { container with Resources := { container.Resources with Limits := some ∅ } }
    else container
  if container.Resources.Requests = none then
    { container with Resources := { container.Resources with Requests := some ∅ } }
  else container

/-- The embedding of `SetResourceLimitCPUIfNotSet`; `none` is the panic of writing into a nil
list. -/
def SetResourceLimitCPUIfNotSet (container : Container) (value : Int) : Option Container :=
  if quantity container.Resources.Limits "cpu" = 0 then
    (assign container.Resources.Limits "cpu" value).map fun limits =>
      { container with Resources := { container.Resources with Limits := some limits } }
  else some container

/-- The embedding of `SetResourceRequestCPUIfNotSet`. -/
def SetResourceRequestCPUIfNotSet (container : Container) (value : Int) : Option Container :=
  if quantity container.Resources.Requests "cpu" = 0 then
    (assign container.Resources.Requests "cpu" value).map fun requests =>
      { container with Resources := { container.Resources with Requests := some requests } }
  else some container

/-- The embedding of `SetResourceLimitMemoryIfNotSet`. -/
def SetResourceLimitMemoryIfNotSet (container : Container) (value : Int) : Option Container :=
  if quantity container.Resources.Limits "memory" = 0 then
    (assign container.Resources.Limits "memory" value).map fun limits =>
      { container with Resources := { container.Resources with Limits := some limits } }
  else some container

/-- The embedding of `SetResourceRequestMemoryIfNotSet`. -/
def SetResourceRequestMemoryIfNotSet (container : Container) (value : Int) :
    Option Container :=
  if quantity container.Resources.Requests "memory" = 0 then
    (assign container.Resources.Requests "memory" value).map fun requests =>
      { container with Resources := { container.Resources with Requests := some requests } }
  else some container

/-- The embedding of `SetResourceRequestEphemeralStorageIfNotSet`. -/
def SetResourceRequestEphemeralStorageIfNotSet (container : Container) (value : Int) :
    Option Container :=
  if quantity container.Resources.Requests "ephemeral-storage" = 0 then
    (assign container.Resources.Requests "ephemeral-storage" value).map fun requests =>
      { container with Resources := { container.Resources with Requests := some requests } }
  else some container

end Container

end v1alpha1

/-! ## The scanner's custom resource, defaults and labels -/

namespace operatorv1

/-- The embedding of the scanner's `Container` type; a quantity is its numeric value
(millicores for CPU, bytes for memory and storage). -/
structure Container where
  Resources : ResourceRequirements
  ImagePullPolicy : String
  ImagePullSecrets : List String
  ImagePullPrefix : String
  deriving DecidableEq

/-- The fields of `IBMLicenseServiceScanner` that the embedded functions read: the spec's
labels, container (a pointer, `none` when nil) and scan namespaces. -/
structure IBMLicenseServiceScanner where
  SpecLabels : GoMap String String
  SpecContainer : Option Container
  SpecScanNamespaces : List String
  deriving DecidableEq

end operatorv1

namespace Scanner

/-- The constant `defaultImagePullPolicy`. -/
def defaultImagePullPolicy : String := "IfNotPresent"

/-- The embedding of `getDefaultContainerResourceRequests`: 200m of CPU, 128Mi of memory and
5Gi of ephemeral storage. -/
def getDefaultContainerResourceRequests : GoMap String Int :=
  GoMap.ofList [("cpu", 200), ("memory", 134217728), ("ephemeral-storage", 5368709120)]

/-- The embedding of `getDefaultContainerResourceLimits`: 500m of CPU, 512Mi of memory and
5Gi of ephemeral storage. -/
def getDefaultContainerResourceLimits : GoMap String Int :=
  GoMap.ofList [("cpu", 500), ("memory", 536870912), ("ephemeral-storage", 5368709120)]

/-- The embedding of `setContainerIfEmpty`: the scanner instance after the call. -/
def setContainerIfEmpty (scannerInstance : operatorv1.IBMLicenseServiceScanner) :
    operatorv1.IBMLicenseServiceScanner :=
  match scannerInstance.SpecContainer with
  | none =>
    { scannerInstance with
      SpecContainer := some
        { Resources :=
            { Requests := some getDefaultContainerResourceRequests,
              Limits := some getDefaultContainerResourceLimits },
          ImagePullPolicy := defaultImagePullPolicy,
          ImagePullSecrets := [], ImagePullPrefix := "" } }
  | some container =>
    let container :=
      if container.Resources.Requests = none then
        { container with
          Resources :=
            { container.Resources with Requests := some getDefaultContainerResourceRequests } }
      else container
    let container :=
      if container.Resources.Limits = none then
        { container with
          Resources :=
            { container.Resources with Limits := some getDefaultContainerResourceLimits } }
      else container
    let container :=
      if container.ImagePullPolicy = "" then
        { container with ImagePullPolicy := defaultImagePullPolicy }
      else container
    { scannerInstance with SpecContainer := some container }

/-- The constant `applicationName`. -/
def applicationName : String := "ibm-licensing-scanner"

/-- The constant `operatorResourceName`. -/
def operatorResourceName : String := "ibm-licensing-scanner-operator"

/-- The embedding of `GetBaseLabels` for the resource named `Name` of the scanner instance
`scanner`; `Version` is the operator's version (`version.Version`). -/
def GetBaseLabels (Version Name : String) (scanner : operatorv1.IBMLicenseServiceScanner) :
    GoMap String String :=
  let labels : GoMap String String :=
    GoMap.ofList
      [("app.kubernetes.io/name", applicationName),
       ("app.kubernetes.io/version", Version),
       ("app.kubernetes.io/component", Name),
       ("app.kubernetes.io/managed-by", operatorResourceName)]
  scanner.SpecLabels.entries.foldl (fun labels e => labels.insert e.1 e.2) labels

end Scanner

/-! ## The scanner's scan namespaces (`resources/cron_job.go`) -/

namespace strings

/-- The Go comparison `a < b` of two texts, on their characters: the first differing
character decides, and a proper prefix is smaller. (Go compares the bytes; for UTF-8 texts
this is the same order.) -/
def lessChars : List Char → List Char → Bool
  | [], [] => false
  | [], _ :: _ => true
  | _ :: _, [] => false
  | a :: as, b :: bs =>
    if a.toNat < b.toNat then true
    else if b.toNat < a.toNat then false
    else lessChars as bs

/-- The Go comparison `a < b` of two strings. -/
def Less (a b : String) : Bool :=
  lessChars a.data b.data

end strings

/-- The library function `slices.Sort` on strings: the list in ascending order. -/
def slices.Sort (x : List String) : List String :=
  x.insertionSort fun a b => strings.Less b a = false

/-- A Go slice of which it matters whether it is nil: `none` is the nil slice. -/
abbrev GoSlice (α : Type) := Option (List α)

/-- The Go builtin `append(s, elems...)`: a nil slice stays nil when nothing is appended. -/
def GoSlice.append {α : Type} (s : GoSlice α) (elems : List α) : GoSlice α :=
  match s, elems with
  | none, [] => none
  | none, e :: es => some (e :: es)
  | some l, elems => some (l ++ elems)

namespace regexp

/-- The answer of `FindString` on `s` for the pattern `"^" + regexp.QuoteMeta(literal) + ".*"`:
when `s` starts with `literal`, the literal and what follows it up to the first line feed
(which `.` does not match); the empty text otherwise. Such a pattern always compiles. -/
def FindStringLiteralPrefix (literal s : String) : String :=
  if literal.data.isPrefixOf s.data then
    ⟨literal.data ++ (s.data.drop literal.data.length).takeWhile (· ≠ '\n')⟩
  else ""

end regexp

namespace Scanner

/-- The embedding of `getAllMapKeys` on a map used as a set. Go ranges over a map in no fixed
order; the embedding takes the keys in the order of the entries. -/
def getAllMapKeys (m : GoMap String Unit) : GoSlice String :=
  m.keys.foldl (fun keys k => GoSlice.append keys [k]) none

/-- The embedding of `getNamespacesFromWildcards`; `client` is the answer of `client.List` for
the cluster's namespaces, their names. Every wildcard ends with `*`, which is cut off. -/
def getNamespacesFromWildcards (client : Except Err (List String)) (wildcards : List String) :
    GoSlice String × Option Err :=
  match client with
  | .error err => (some [], some (.Errorf "could not list namespaces from the cluster" err))
  | .ok namespaces =>
    let scanNamespacesSet : GoMap String Unit :=
      wildcards.foldl
        (fun scanNamespacesSet wildcard =>
          namespaces.foldl
            (fun scanNamespacesSet namespaceName =>
              if regexp.FindStringLiteralPrefix ⟨wildcard.data.dropLast⟩ namespaceName ≠ "" then
                scanNamespacesSet.insert namespaceName ()
              else scanNamespacesSet)
            scanNamespacesSet)
        ∅
    (getAllMapKeys scanNamespacesSet, none)

/-- The first loop of `getScanNamespaces`: the wildcards and the set of plain namespaces, or
the first entry with an unsupported wildcard. -/
def separateNamespaces :
    List String → List String → GoMap String Unit → Except String (List String × GoMap String Unit)
  | [], wildcards, scanNamespacesSet => .ok (wildcards, scanNamespacesSet)
  | ns :: rest, wildcards, scanNamespacesSet =>
    if strings.Contains ns '*' then
      if !strings.HasSuffix ns '*' || decide (ns.data.count '*' > 1) then .error ns
      else separateNamespaces rest (wildcards ++ [ns]) scanNamespacesSet
    else separateNamespaces rest wildcards (scanNamespacesSet.insert ns ())

/-- The embedding of `getScanNamespaces` for the scan namespaces `namespaces` of the custom
resource; `client` is the answer of `client.List` for the cluster's namespaces. -/
def getScanNamespaces (namespaces : List String) (client : Except Err (List String)) :
    GoSlice String × Option Err :=
  if namespaces.length = 0 then (none, none)
  else
    match separateNamespaces namespaces [] ∅ with
    | .error ns => (some [], some (.New ("unsupported wildcard detected: " ++ ns)))
    | .ok (wildcards, scanNamespacesSet) =>
      let (scanNamespaces, err) : GoSlice String × Option Err :=
        if wildcards.length > 0 then getNamespacesFromWildcards client wildcards
        else (none, none)
      match err with
      | some err =>
        (none, some (.Errorf
          "could not obtain namespaces to scan, based on provided wildcards" err))
      | none =>
        let scanNamespaces :=
          GoSlice.append scanNamespaces ((getAllMapKeys scanNamespacesSet).getD [])
        (scanNamespaces.map slices.Sort, none)

end Scanner

namespace Example

/-- The namespaces of the cluster in the repository's tests of `getScanNamespaces`. -/
def clusterNamespaces : List String :=
  ["default", "kube-system", "my-ns", "my-ns-2", "ns-1", "ns-2", "ns-3"]

end Example

/-! ## Reporter: `secrets/db.go` -/

/-- The fields of `corev1.Secret` besides its metadata that the database secret uses
(`Type_` is the Go field `Type`). -/
structure DatabaseSecretBody where
  Type_ : String
  Data : GoMap String String
  StringData : GoMap String String
  deriving DecidableEq

namespace Reporter

namespace secrets

variable {σ P : Type}

/-- The constant `DatabaseConfigSecretName`. -/
def DatabaseConfigSecretName : String := "license-service-reporter-hub-db-config"

/-- The constant `PostgresPasswordKey`. -/
def PostgresPasswordKey : String := "POSTGRES_PASSWORD"

/-- The constant `PostgresUserKey`. -/
def PostgresUserKey : String := "POSTGRES_USER"

/-- The constant `PostgresDatabaseNameKey`. -/
def PostgresDatabaseNameKey : String := "POSTGRES_DB"

/-- The constant `PostgresPgDataKey`. -/
def PostgresPgDataKey : String := "POSTGRES_PGDATA"

/-- The constant `DatabaseName`. -/
def DatabaseName : String := "postgres"

/-- The constant `PgData`. -/
def PgData : String := "/var/lib/postgresql" ++ "/pgdata"

/-- The embedding of `GetDatabaseSecret`; `RandString` is the answer of `RandString(8)` and
`GetDatabaseUsername` the answer of the function of that name, which reads a file. -/
def GetDatabaseSecret (RandString GetDatabaseUsername : Except Err String)
    (inst : IBMLicenseServiceReporter) : Except Err (Object DatabaseSecretBody) :=
  let metaLabels := LabelsForMeta inst
  match RandString with
  | .error err => .error err
  | .ok randString =>
    match GetDatabaseUsername with
    | .error err => .error err
    | .ok dbUser =>
      .ok
        { ObjectMeta :=
            { Name := DatabaseConfigSecretName, Namespace := inst.Namespace,
              Labels := metaLabels, Annotations := GetSpecAnnotations inst,
              ResourceVersion := "", OwnerReferences := [] },
          Body :=
            { Type_ := "Opaque", Data := ∅,
              StringData :=
                GoMap.ofList
                  [(PostgresPasswordKey, randString), (PostgresUserKey, dbUser),
                   (PostgresDatabaseNameKey, DatabaseName), (PostgresPgDataKey, PgData)] } }

/-- The embedding of `IsDatabaseSecretInDesiredState`. -/
def IsDatabaseSecretInDesiredState :
    IsFoundInDesiredStateIfExistsFunc σ DatabaseSecretBody P :=
  fun config foundSecret expectedSecret =>
    if foundSecret.Body.Type_ ≠ expectedSecret.Body.Type_ then
      (⟨false, false⟩, none)
    else if !MapHasAllKeysFromOther foundSecret.Body.Data expectedSecret.Body.StringData then
      (⟨false, false⟩, none)
    else
      let shouldReturnPatchSufficientAfterAnnotationsCheck := false
      if !MapHasAllPairsFromOther foundSecret.GetLabels expectedSecret.GetLabels then
        let _shouldReturnPatchSufficientAfterAnnotationsCheck :=
          if MapHasAllPairsFromOther
              (MergeMaps foundSecret.GetLabels (GetSpecLabels config.Instance))
              expectedSecret.GetLabels then true
          else shouldReturnPatchSufficientAfterAnnotationsCheck
        (⟨false, false⟩, none)
      else if !MapHasAllPairsFromOther foundSecret.GetAnnotations
          expectedSecret.GetAnnotations then
        if MapHasAllPairsFromOther
            (MergeMaps foundSecret.GetAnnotations (GetSpecAnnotations config.Instance))
            expectedSecret.GetAnnotations then
          (⟨false, true⟩, none)
        else (⟨false, false⟩, none)
      else if shouldReturnPatchSufficientAfterAnnotationsCheck then
        (⟨false, true⟩, none)
      else (⟨true, false⟩, none)

/-- The embedding of `ReconcileDatabaseSecret`. -/
def ReconcileDatabaseSecret (RandString GetDatabaseUsername : Except Err String)
    (config : IBMLicenseServiceReporterConfig σ DatabaseSecretBody MergePatch) (st : σ) :
    Outcome σ (Object DatabaseSecretBody) MergePatch :=
  let inst := config.Instance
  match GetDatabaseSecret RandString GetDatabaseUsername inst with
  | .error err => ⟨some err, st, []⟩
  | .ok expectedSecret =>
    ReconcileResource config st expectedSecret true none IsDatabaseSecretInDesiredState
      (some PatchFoundWithSpecLabelsAndAnnotations) (some OverrideFoundWithExpected) none

end secrets

end Reporter

namespace Example

/-- The database secret as the cluster stores it in namespace `test`: the labels built for
the custom resource `reporter` (which has no spec labels), and the four data keys with the
password `stored-password`. -/
def databaseSecret : Object DatabaseSecretBody :=
  { ObjectMeta :=
      { Name := Reporter.secrets.DatabaseConfigSecretName, Namespace := "test",
        Labels := Reporter.LabelsForMeta reporter, Annotations := ∅,
        ResourceVersion := "", OwnerReferences := [] },
    Body :=
      { Type_ := "Opaque",
        Data :=
          GoMap.ofList
            [("POSTGRES_PASSWORD", "stored-password"), ("POSTGRES_USER", "postgres"),
             ("POSTGRES_DB", "postgres"), ("POSTGRES_PGDATA", "/var/lib/postgresql/pgdata")],
        StringData := ∅ } }

end Example

/-! ## The scanner's cron job: comparison (`resources/cron_job.go`, `resources/core.go`) -/

/-- A non-nil Go pointer: the address it holds and the value stored there. A pointer field
is an `Option` of this, `none` being nil. -/
structure Pointer (α : Type) where
  addr : Nat
  val : α
  deriving DecidableEq, Repr

/-- The Go comparison `p == q` of two pointers: both are nil or both hold the same address.
The values pointed to are not looked at. -/
def Pointer.equal {α : Type} (p q : Option (Pointer α)) : Bool :=
  decide (p.map Pointer.addr = q.map Pointer.addr)

/-- The library function `ptr.To`: a pointer to a newly allocated copy of `v`; `addr` is the
address of the allocation. -/
def ptr.To {α : Type} (addr : Nat) (v : α) : Option (Pointer α) :=
  some { addr := addr, val := v }

/-- The volume sources of `corev1.VolumeSource` that the scanner uses. The default modes are
pointers in Go; they are only ever compared by `equality.Semantic.DeepEqual`, which looks at
the values, so the values stand here. -/
inductive VolumeSource where
  | Secret (SecretName : String) (DefaultMode : Option Int) (Items : List (String × String))
  | EmptyDir
  | ConfigMap (Name : String) (DefaultMode : Option Int)
  deriving DecidableEq, Repr

/-- The fields of `corev1.Volume`. -/
structure Volume where
  Name : String
  VolumeSource : VolumeSource
  deriving DecidableEq, Repr

/-- The fields of `batchv1.CronJobSpec` and of the pod spec of its job template that the
scanner sets (`Suspend` and `StartingDeadlineSeconds` are pointers). -/
structure CronJobSpec where
  Schedule : String
  Suspend : Option (Pointer Bool)
  StartingDeadlineSeconds : Option (Pointer Int)
  ConcurrencyPolicy : String
  Volumes : List Volume
  Containers : List Container
  InitContainers : List Container
  RestartPolicy : String
  ServiceAccountName : String
  ImagePullSecrets : List String
  deriving DecidableEq

namespace Scanner

/-- The embedding of `ReconcileStatus`. -/
structure ReconcileStatus where
  ShouldCreate : Bool
  ShouldUpdate : Bool
  deriving DecidableEq, Repr

/-- The embedding of `(*BaseReconcilableResource).MarkShouldUpdate`: the status after the
call (the call returns no error). -/
def BaseReconcilableResource.MarkShouldUpdate {S : Type} (b : BaseReconcilableResource S)
    (status : ReconcileStatus) : ReconcileStatus :=
  if !b.labelsEqual || !b.annotationsEqual then { status with ShouldUpdate := true }
  else status

namespace ScannerCronJob

/-- The embedding of `schedulesEqual`. -/
def schedulesEqual (j : BaseReconcilableResource CronJobSpec) : Bool :=
  let expected := j.ExpectedResource
  let actual := j.ActualResource
  decide (actual.Body.Schedule = expected.Body.Schedule)

/-- The embedding of `suspendsEqual`: the Go `==` of the two `*bool` fields. -/
def suspendsEqual (j : BaseReconcilableResource CronJobSpec) : Bool :=
  let expected := j.ExpectedResource
  let actual := j.ActualResource
  Pointer.equal actual.Body.Suspend expected.Body.Suspend

/-- The embedding of `expiresEqual`: the Go `==` of the two `*int64` fields. -/
def expiresEqual (j : BaseReconcilableResource CronJobSpec) : Bool :=
  let expected := j.ExpectedResource
  let actual := j.ActualResource
  Pointer.equal actual.Body.StartingDeadlineSeconds expected.Body.StartingDeadlineSeconds

/-- The embedding of `containersDeepEqual`; `equality.Semantic.DeepEqual` of two resource
requirements treats a nil list as an empty one. -/
def containersDeepEqual (actual expected : Container) : Bool :=
  decide (expected.Env = actual.Env) &&
    decide (expected.VolumeMounts = actual.VolumeMounts) &&
    (GoMap.DeepEqual (expected.Resources.Limits.getD ∅) (actual.Resources.Limits.getD ∅) &&
      GoMap.DeepEqual (expected.Resources.Requests.getD ∅)
        (actual.Resources.Requests.getD ∅)) &&
    decide (expected.ImagePullPolicy = actual.ImagePullPolicy)

/-- The embedding of `findContainerByName`. -/
def findContainerByName (name : String) (containers : List Container) : Option Container :=
  containers.find? fun c => decide (c.Name = name)

/-- The embedding of `containersEqual`. -/
def containersEqual (expectedContainers actualContainers : List Container) : Bool :=
  if expectedContainers.length ≠ actualContainers.length then false
  else
    expectedContainers.all fun expectedContainer =>
      match findContainerByName expectedContainer.Name actualContainers with
      | none => false
      | some actualContainer => containersDeepEqual actualContainer expectedContainer

/-- The embedding of `volumesDeepEqual`. -/
def volumesDeepEqual (actual expected : Volume) : Bool :=
  decide (actual.VolumeSource = expected.VolumeSource)

/-- The embedding of `findActualVolumeByName`. -/
def findActualVolumeByName (j : BaseReconcilableResource CronJobSpec) (name : String) :
    Option Volume :=
  j.ActualResource.Body.Volumes.find? fun v => decide (v.Name = name)

/-- The embedding of `volumesEqual`. -/
def volumesEqual (j : BaseReconcilableResource CronJobSpec) : Bool :=
  let expectedVolumes := j.ExpectedResource.Body.Volumes
  let actualVolumes := j.ActualResource.Body.Volumes
  if expectedVolumes.length ≠ actualVolumes.length then false
  else
    expectedVolumes.all fun expectedVolume =>
      match findActualVolumeByName j expectedVolume.Name with
      | none => false
      | some actualVolume => volumesDeepEqual actualVolume expectedVolume

/-- The embedding of `(*ScannerCronJob).MarkShouldUpdate`: the status after the call (the
call returns no error, as the base class returns none). -/
def MarkShouldUpdate (j : BaseReconcilableResource CronJobSpec) (status : ReconcileStatus) :
    ReconcileStatus :=
  let expectedContainers := j.ExpectedResource.Body.Containers
  let actualContainers := j.ActualResource.Body.Containers
  let expectedInitContainers := j.ExpectedResource.Body.InitContainers
  let actualInitContainers := j.ActualResource.Body.InitContainers
  let status := BaseReconcilableResource.MarkShouldUpdate j status
  if status.ShouldUpdate then status
  else if !schedulesEqual j || !volumesEqual j || !suspendsEqual j || !expiresEqual j ||
      !containersEqual expectedContainers actualContainers ||
      !containersEqual expectedInitContainers actualInitContainers then
    { status with ShouldUpdate := true }
  else status

end ScannerCronJob

end Scanner

/-! ## The scanner's cron job: construction (`(*ScannerCronJob).Init`) -/

namespace operatorv1

/-- The embedding of `VaultDetails`. -/
structure VaultDetails where
  LoginURL : String
  SecretURL : String
  Key : String
  Cert : String
  Role : String
  ServiceAccount : String
  deriving DecidableEq, Repr

/-- The embedding of `RegistryDetails`. -/
structure RegistryDetails where
  Name : String
  Host : String
  Username : String
  AuthMethod : String
  VaultDetails : VaultDetails
  deriving DecidableEq, Repr

/-- The fields of the custom resource `IBMLicenseServiceScanner` that the cron job reads and
that the structure `IBMLicenseServiceScanner` above does not keep: its namespace and UID, and
of its spec the annotations, the log level, the scan frequency, suspend flag and starting
deadline, the Instana switch, the two secret names and the registries. -/
structure ScannerCronJobSettings where
  Namespace : String
  UID : String
  SpecAnnotations : GoMap String String
  SpecLogLevel : String
  SpecScanFrequency : String
  SpecScanSuspend : Bool
  SpecScanStartingDeadlineSeconds : Int
  SpecEnableInstanaMetricCollection : Bool
  SpecLicenseServiceUploadSecret : String
  SpecRegistryPullSecret : String
  SpecRegistries : List RegistryDetails

end operatorv1

namespace Scanner

/-- The constant `ScannerCronJobName`. -/
def ScannerCronJobName : String := "ibm-licensing-scanner-" ++ "cron-job"

/-- The constant `scannerCronJobServiceAccountName`. -/
def scannerCronJobServiceAccountName : String :=
  "ibm-licensing-scanner-" ++ "operand-service-account"

/-- The constant `scannerCronJobContainerName`. -/
def scannerCronJobContainerName : String := "ibm-licensing-scanner-" ++ "operand-container"

/-- The constant `scannerCronJobInitContainerName`. -/
def scannerCronJobInitContainerName : String := scannerCronJobContainerName ++ "-init-container"

/-- The constant `VaultAuthenticationMethodName`. -/
def VaultAuthenticationMethodName : String := "VAULT"

/-- The constant `registryPullSecretVolumeName`. -/
def registryPullSecretVolumeName : String := "auth"

/-- The constant `registryPullSecretVolumeMountPath`. -/
def registryPullSecretVolumeMountPath : String := "/opt/scanner/auth"

/-- The constant `licenseServiceUploadSecretVolumeName`. -/
def licenseServiceUploadSecretVolumeName : String := "sender"

/-- The constant `licenseServiceUploadSecretVolumeMountPath`. -/
def licenseServiceUploadSecretVolumeMountPath : String := "/opt/scanner/sender"

/-- The constant `tempDirectoryVolumeName`. -/
def tempDirectoryVolumeName : String := "temp"

/-- The constant `tempDirectoryVolumeMountPath`. -/
def tempDirectoryVolumeMountPath : String := "/tmp"

/-- The constant `vaultVolumeMountPathPrefix`. -/
def vaultVolumeMountPathPrefix : String := "/opt/scanner/vault/"

/-- The constant `vaultAuthVolumeMountName`. -/
def vaultAuthVolumeMountName : String := "vault-auth"

/-- The constant `vaultScriptVolumeMountName`. -/
def vaultScriptVolumeMountName : String := "vault-script"

/-- The constant `vaultAuthVolumeMountPath`. -/
def vaultAuthVolumeMountPath : String := vaultVolumeMountPathPrefix ++ "auth"

/-- The constant `vaultScriptVolumeMountPath`. -/
def vaultScriptVolumeMountPath : String := vaultVolumeMountPathPrefix ++ "script"

/-- The constant `vaultScriptExecPath`. -/
def vaultScriptExecPath : String := vaultScriptVolumeMountPath ++ "/script.sh"

/-- The constant `defaultSecretMode` (octal 644). -/
def defaultSecretMode : Int := 420

/-- The constant `defaultScriptMode` (octal 0555). -/
def defaultScriptMode : Int := 365

/-- The constant `ScriptConfigMapName`. -/
def ScriptConfigMapName : String := "ibm-licensing-scanner-" ++ "vault"

/-- The embedding of `getVaultVolumes`; the maps are used as sets, and Go ranges over them in
no fixed order: the embedding takes the order of the entries. -/
def getVaultVolumes (serviceAccounts certificates : GoMap String Bool) : List Volume :=
  if serviceAccounts.entries.length = 0 ∧ certificates.entries.length = 0 then []
  else
    let volumes : List Volume :=
      [{ Name := vaultAuthVolumeMountName, VolumeSource := .EmptyDir },
       { Name := vaultScriptVolumeMountName,
         VolumeSource := .ConfigMap ScriptConfigMapName (some defaultScriptMode) }]
    let volumes :=
      certificates.keys.foldl
        (fun volumes certificate =>
          volumes ++
            [{ Name := certificate,
               VolumeSource := .Secret certificate (some defaultSecretMode) [] }])
        volumes
    serviceAccounts.keys.foldl
      (fun volumes serviceAccount =>
        volumes ++
          [{ Name := serviceAccount,
             VolumeSource := .Secret serviceAccount (some defaultScriptMode) [] }])
      volumes

/-- The embedding of `getVolumes`. -/
def getVolumes (settings : operatorv1.ScannerCronJobSettings)
    (serviceAccounts certificates : GoMap String Bool) : List Volume :=
  let volumes : List Volume :=
    [{ Name := licenseServiceUploadSecretVolumeName,
       VolumeSource :=
        .Secret settings.SpecLicenseServiceUploadSecret (some defaultSecretMode) [] },
     { Name := registryPullSecretVolumeName,
       VolumeSource :=
        .Secret settings.SpecRegistryPullSecret (some defaultSecretMode)
          [(".dockerconfigjson", "config.json")] },
     { Name := tempDirectoryVolumeName, VolumeSource := .EmptyDir }]
  volumes ++ getVaultVolumes serviceAccounts certificates

/-- The embedding of `getContainerVolumeMounts`. -/
def getContainerVolumeMounts (settings : operatorv1.ScannerCronJobSettings) :
    List VolumeMount :=
  let volumeMounts : List VolumeMount :=
    [{ Name := registryPullSecretVolumeName, MountPath := registryPullSecretVolumeMountPath,
       ReadOnly := true },
     { Name := licenseServiceUploadSecretVolumeName,
       MountPath := licenseServiceUploadSecretVolumeMountPath, ReadOnly := true },
     { Name := tempDirectoryVolumeName, MountPath := tempDirectoryVolumeMountPath,
       ReadOnly := false }]
  if settings.SpecRegistries.length ≠ 0 then
    volumeMounts ++
      [{ Name := vaultAuthVolumeMountName, MountPath := vaultAuthVolumeMountPath,
         ReadOnly := true }]
  else volumeMounts

/-- The embedding of `getInitContainersVolumeMounts`. -/
def getInitContainersVolumeMounts (serviceAccounts certificates : GoMap String Bool) :
    List VolumeMount :=
  let mounts : List VolumeMount :=
    [{ Name := vaultAuthVolumeMountName, MountPath := vaultAuthVolumeMountPath,
       ReadOnly := false },
     { Name := vaultScriptVolumeMountName, MountPath := vaultScriptVolumeMountPath,
       ReadOnly := true },
     { Name := registryPullSecretVolumeName, MountPath := registryPullSecretVolumeMountPath,
       ReadOnly := true }]
  let mounts :=
    certificates.keys.foldl
      (fun mounts certificate =>
        mounts ++
          [{ Name := certificate, MountPath := vaultVolumeMountPathPrefix ++ certificate,
             ReadOnly := true }])
      mounts
  serviceAccounts.keys.foldl
    (fun mounts serviceAccount =>
      mounts ++
        [{ Name := serviceAccount, MountPath := vaultVolumeMountPathPrefix ++ serviceAccount,
           ReadOnly := true }])
    mounts

end Scanner

namespace Scanner

/-- The embedding of `getLogLevel`. -/
def getLogLevel (settings : operatorv1.ScannerCronJobSettings) : String :=
  if settings.SpecLogLevel = "DEBUG" then "DEBUG" else "INFO"

/-- The embedding of `getOperandImage`; `LookupEnv` is the process environment
(`os.LookupEnv`). The outer `none` is the panic of reading through the nil container of the
spec. -/
def getOperandImage (LookupEnv : String → Option String)
    (scanner : operatorv1.IBMLicenseServiceScanner) : Option (Except Err String) :=
  let operandImageEnvVar := "IBM_LICENSE_SERVICE_SCANNER_OPERAND_IMAGE"
  match LookupEnv operandImageEnvVar with
  | none => some (.error (.New (operandImageEnvVar ++ " env var must be set and not empty")))
  | some image =>
    if image = "" then
      some (.error (.New (operandImageEnvVar ++ " env var must be set and not empty")))
    else
      match scanner.SpecContainer with
      | none => none
      | some container =>
        if container.ImagePullPrefix ≠ "" then
          let parts := strings.Split image '/'
          let parts := container.ImagePullPrefix :: parts.tail
          some (.ok (strings.Join parts "/"))
        else some (.ok image)

/-- The embedding of `getContainers`; `client` is the answer of `client.List` for the
cluster's namespaces. -/
def getContainers (LookupEnv : String → Option String) (client : Except Err (List String))
    (scanner : operatorv1.IBMLicenseServiceScanner)
    (settings : operatorv1.ScannerCronJobSettings) : Option (Except Err (List Container)) :=
  match getOperandImage LookupEnv scanner with
  | none => none
  | some (.error err) => some (.error (.Errorf "failed getting operand image" err))
  | some (.ok image) =>
    let dockerConfigMountPath :=
      if settings.SpecRegistries.length ≠ 0 then vaultAuthVolumeMountPath
      else registryPullSecretVolumeMountPath
    match getScanNamespaces scanner.SpecScanNamespaces client with
    | (_, some err) =>
      some (.error (.Errorf "could not process scan namespaces from the CR" err))
    | (scanNamespaces, none) =>
      if (scanNamespaces.getD []).length = 0 then
        some (.error (.New "no valid namespaces to scan found"))
      else
        let containerEnvVars : List EnvVar :=
          [{ Name := "LOG_LEVEL", Value := getLogLevel settings, ValueFrom := none },
           { Name := "SCAN_NAMESPACES", Value := strings.Join (scanNamespaces.getD []) ",",
             ValueFrom := none },
           { Name := "DOCKER_CONFIG", Value := dockerConfigMountPath, ValueFrom := none }]
        let containerEnvVars :=
          if settings.SpecEnableInstanaMetricCollection then
            containerEnvVars ++
              [{ Name := "INSTANA_AGENT_HOST", Value := "", ValueFrom := some "status.hostIP" }]
          else containerEnvVars
        match scanner.SpecContainer with
        | none => none
        | some container =>
          some (.ok
            [{ Name := scannerCronJobContainerName, Image := image, Env := containerEnvVars,
               SecurityContext := some
                { AllowPrivilegeEscalation := some false, Privileged := some false,
                  ReadOnlyRootFilesystem := some true, RunAsNonRoot := some true },
               Resources :=
                { Requests := container.Resources.Requests,
                  Limits := container.Resources.Limits },
               VolumeMounts := getContainerVolumeMounts settings,
               ImagePullPolicy := container.ImagePullPolicy,
               Command := [], Args := [], Ports := [],
               ReadinessProbe := none, LivenessProbe := none }])

/-- The embedding of `getInitContainerEnvVars`. -/
def getInitContainerEnvVars (registries : List operatorv1.RegistryDetails) : List EnvVar :=
  registries.enum.foldl
    (fun envVars entry =>
      let index := toString entry.1
      let registry := entry.2
      let saTokenPath := vaultVolumeMountPathPrefix ++ registry.VaultDetails.ServiceAccount
      let caCertPath := vaultVolumeMountPathPrefix ++ registry.VaultDetails.Cert
      envVars ++
        [{ Name := "REGISTRY_NAME_" ++ index, Value := registry.Host, ValueFrom := none },
         { Name := "REGISTRY_USER_" ++ index, Value := registry.Username, ValueFrom := none },
         { Name := "VAULT_LOGIN_ADDR_" ++ index, Value := registry.VaultDetails.LoginURL,
           ValueFrom := none },
         { Name := "VAULT_SECRET_ADDR_" ++ index, Value := registry.VaultDetails.SecretURL,
           ValueFrom := none },
         { Name := "SA_TOKEN_" ++ index, Value := saTokenPath, ValueFrom := none },
         { Name := "VAULT_ROLE_" ++ index, Value := registry.VaultDetails.Role,
           ValueFrom := none },
         { Name := "CERT_PATH_" ++ index, Value := caCertPath, ValueFrom := none },
         { Name := "SECRET_KEY_" ++ index, Value := registry.VaultDetails.Key,
           ValueFrom := none }])
    []

/-- The embedding of `getResourcesRequest`: 50m of CPU, 32Mi of memory and 10Mi of ephemeral
storage. -/
def getResourcesRequest : GoMap String Int :=
  GoMap.ofList [("cpu", 50), ("memory", 33554432), ("ephemeral-storage", 10485760)]

/-- The embedding of `getResourcesLimits`: 100m of CPU, 128Mi of memory and 10Mi of ephemeral
storage. -/
def getResourcesLimits : GoMap String Int :=
  GoMap.ofList [("cpu", 100), ("memory", 134217728), ("ephemeral-storage", 10485760)]

/-- The embedding of `getScannerInitContainer`. -/
def getScannerInitContainer (LookupEnv : String → Option String)
    (scanner : operatorv1.IBMLicenseServiceScanner)
    (settings : operatorv1.ScannerCronJobSettings)
    (serviceAccounts certificates : GoMap String Bool) :
    Option (Except Err (List Container)) :=
  if serviceAccounts.entries.length = 0 ∧ certificates.entries.length = 0 then some (.ok [])
  else
    match getOperandImage LookupEnv scanner with
    | none => none
    | some (.error err) => some (.error (.Errorf "failed getting operand image" err))
    | some (.ok image) =>
      match scanner.SpecContainer with
      | none => none
      | some container =>
        some (.ok
          [{ Name := scannerCronJobInitContainerName, Image := image,
             SecurityContext := some
              { Privileged := some false, RunAsNonRoot := some true,
                ReadOnlyRootFilesystem := some true, AllowPrivilegeEscalation := some false },
             Resources :=
              { Requests := some getResourcesRequest, Limits := some getResourcesLimits },
             Command := [vaultScriptExecPath],
             VolumeMounts := getInitContainersVolumeMounts serviceAccounts certificates,
             ImagePullPolicy := container.ImagePullPolicy,
             Env := getInitContainerEnvVars settings.SpecRegistries,
             Args := [], Ports := [], ReadinessProbe := none, LivenessProbe := none }])

/-- The zero value of `VaultDetails`. -/
def zeroVaultDetails : operatorv1.VaultDetails :=
  { LoginURL := "", SecretURL := "", Key := "", Cert := "", Role := "", ServiceAccount := "" }

/-- The first loop of `Init`: the certificates and the service accounts of the registries
that authenticate with Vault, or the name of the first such registry without Vault
details. -/
def collectVaultReferences :
    List operatorv1.RegistryDetails → GoMap String Bool → GoMap String Bool →
      Except String (GoMap String Bool × GoMap String Bool)
  | [], certificates, serviceAccounts => .ok (certificates, serviceAccounts)
  | registry :: rest, certificates, serviceAccounts =>
    if registry.AuthMethod = VaultAuthenticationMethodName then
      if registry.VaultDetails = zeroVaultDetails then .error registry.Name
      else
        collectVaultReferences rest (certificates.insert registry.VaultDetails.Cert true)
          (serviceAccounts.insert registry.VaultDetails.ServiceAccount true)
    else collectVaultReferences rest certificates serviceAccounts

/-- The embedding of `GetBaseAnnotations`. -/
def GetBaseAnnotations (settings : operatorv1.ScannerCronJobSettings) : GoMap String String :=
  let annotations : GoMap String String :=
    GoMap.ofList
      [("productID", "105fa377cada4660a213f99e02c53782"),
       ("productName", "IBM License Service Scanner"), ("productMetric", "FREE")]
  settings.SpecAnnotations.entries.foldl
    (fun annotations e => annotations.insert e.1 e.2) annotations

/-- The embedding of `(*ScannerCronJob).Init`: the expected cron job, or the error. `Name` is
the name of the resource, `Version` the operator's version, `heap` the first free address
(`ptr.To` allocates the two flags there), and the outer `none` is the panic of reading
through the nil container of the spec. -/
def ScannerCronJob.Init (Name Version : String) (LookupEnv : String → Option String)
    (client : Except Err (List String)) (heap : Nat)
    (scanner : operatorv1.IBMLicenseServiceScanner)
    (settings : operatorv1.ScannerCronJobSettings) :
    Option (Except Err (Object CronJobSpec)) :=
  match collectVaultReferences settings.SpecRegistries ∅ ∅ with
  | .error registryName =>
    some (.error (.New ("missing property spec.registries.vault in registry: " ++
      registryName ++ ". Please add missing data in Custom Resource YAML")))
  | .ok (certificates, serviceAccounts) =>
    match getContainers LookupEnv client scanner settings with
    | none => none
    | some (.error err) => some (.error (.Errorf "failed getting containers" err))
    | some (.ok containers) =>
      match getScannerInitContainer LookupEnv scanner settings serviceAccounts
          certificates with
      | none => none
      | some (.error err) => some (.error (.Errorf "failed getting init containers" err))
      | some (.ok initContainers) =>
        match scanner.SpecContainer with
        | none => none
        | some container =>
          some (.ok
            { ObjectMeta :=
                { Name := Name, Namespace := settings.Namespace,
                  OwnerReferences := [{ UID := settings.UID, Controller := true }],
                  Labels := GetBaseLabels Version Name scanner,
                  Annotations := GetBaseAnnotations settings, ResourceVersion := "" },
              Body :=
                { Schedule := settings.SpecScanFrequency,
                  Suspend := ptr.To heap settings.SpecScanSuspend,
                  StartingDeadlineSeconds :=
                    ptr.To (heap + 1) settings.SpecScanStartingDeadlineSeconds,
                  ConcurrencyPolicy := "Forbid",
                  Volumes := getVolumes settings serviceAccounts certificates,
                  Containers := containers, InitContainers := initContainers,
                  RestartPolicy := "OnFailure",
                  ServiceAccountName := scannerCronJobServiceAccountName,
                  ImagePullSecrets := container.ImagePullSecrets } })

end Scanner

namespace Example

/-- The process environment with the operand image of the scanner set. -/
def scannerEnv : String → Option String :=
  fun name =>
    if name = "IBM_LICENSE_SERVICE_SCANNER_OPERAND_IMAGE" then
      some "icr.io/cpopen/ibm-licensing-scanner:4.2.0"
    else none

/-- A scanner custom resource after the controller's defaulting: no custom labels, the
default container, and the scan namespace `default`. -/
def scanner : operatorv1.IBMLicenseServiceScanner :=
  Scanner.setContainerIfEmpty
    { SpecLabels := ∅, SpecContainer := none, SpecScanNamespaces := ["default"] }

/-- The further fields of the scanner custom resource, with the given registries. -/
def scannerSettings (registries : List operatorv1.RegistryDetails) :
    operatorv1.ScannerCronJobSettings :=
  { Namespace := "ibm-licensing-scanner", UID := "scanner-uid", SpecAnnotations := ∅,
    SpecLogLevel := "INFO", SpecScanFrequency := "10 0 * * *", SpecScanSuspend := false,
    SpecScanStartingDeadlineSeconds := 3600, SpecEnableInstanaMetricCollection := false,
    SpecLicenseServiceUploadSecret := "upload-secret",
    SpecRegistryPullSecret := "pull-secret", SpecRegistries := registries }

/-- A registry that authenticates with Vault, with the given certificate and service
account. -/
def vaultRegistry (cert serviceAccount : String) : operatorv1.RegistryDetails :=
  { Name := "registry", Host := "registry.example.com", Username := "scanner",
    AuthMethod := "VAULT",
    VaultDetails :=
      { LoginURL := "https://vault.example.com/v1/auth/kubernetes/login",
        SecretURL := "https://vault.example.com/v1/secret/data/registry", Key := "password",
        Cert := cert, Role := "scanner", ServiceAccount := serviceAccount } }

/-- The cron job that `Init` builds for `scanner` with the given registries, its two pointer
fields allocated at the addresses 100 and 101; `none` when `Init` does not succeed. -/
def expectedCronJob (registries : List operatorv1.RegistryDetails) :
    Option (Object CronJobSpec) :=
  match Scanner.ScannerCronJob.Init Scanner.ScannerCronJobName "4.2.0" scannerEnv
      (.ok clusterNamespaces) 100 scanner (scannerSettings registries) with
  | some (.ok cronJob) => some cronJob
  | _ => none

/-- The cron job as read from the cluster: the given one with the same suspend flag and
starting deadline stored at other addresses (7 and 8), where decoding the API server's answer
has allocated them. -/
def actualCronJob (cronJob : Object CronJobSpec) : Object CronJobSpec :=
  { cronJob with
    Body :=
      { cronJob.Body with
        Suspend := cronJob.Body.Suspend.map fun p => { p with addr := 7 },
        StartingDeadlineSeconds :=
          cronJob.Body.StartingDeadlineSeconds.map fun p => { p with addr := 8 } } }

end Example

/-! ## Reporter: the arguments of the OAuth proxy (`deployments/auth.go`) -/

/-- The text of an error (`err.Error()`), as the verb `%v` prints it. A status error prints
the API server's message; the embedding takes its reason. -/
def Err.Error : Err → String
  | .StatusNotFound => "not found"
  | .StatusAlreadyExists => "already exists"
  | .Status reason => reason
  | .New text => text
  | .Errorf text wrapped => text ++ ": " ++ wrapped.Error

namespace v1alpha1

/-- The embedding of `IBMLicenseServiceReporterIngressCommonOptions`; both fields are
pointers. -/
structure IBMLicenseServiceReporterIngressCommonOptions where
  Host : Option String
  IngressClassName : Option String
  deriving DecidableEq, Repr

/-- The embedding of `IBMLicenseServiceReporterIngressSpecificOptions`. -/
structure IBMLicenseServiceReporterIngressSpecificOptions where
  Path : Option String
  Annotations : GoMap String String
  TLS : List IngressTLS
  deriving DecidableEq

/-- The embedding of `IBMLicenseServiceReporterIngressOptions`; the three fields are
pointers. -/
structure IBMLicenseServiceReporterIngressOptions where
  CommonOptions : Option IBMLicenseServiceReporterIngressCommonOptions
  ApiOptions : Option IBMLicenseServiceReporterIngressSpecificOptions
  ConsoleOptions : Option IBMLicenseServiceReporterIngressSpecificOptions
  deriving DecidableEq

/-- The embedding of `auth.OAuth`. -/
structure OAuth where
  Enabled : Bool
  Parameters : List String
  deriving DecidableEq, Repr

/-- Modelled from the spec: the declaration of the type `Authentication` is not among the
sources. It holds the authentication mode flags that the code reads: whether basic
authentication is on (`Useradmin.Enabled`), and the OAuth settings (`OAuth`). -/
structure Authentication where
  UseradminEnabled : Bool
  OAuth : OAuth
  deriving DecidableEq, Repr

/-- The fields of `IBMLicenseServiceReporterSpec` that the OAuth proxy arguments and the
ingresses are built from (`RouteEnabled` and `IngressOptions` are pointers). The embedded
custom resource keeps the spec's labels and annotations only, so these fields travel
beside it. -/
structure IBMLicenseServiceReporterSpec where
  Authentication : Authentication
  RouteEnabled : Option Bool
  IngressEnabled : Bool
  IngressOptions : Option IBMLicenseServiceReporterIngressOptions
  deriving DecidableEq

namespace IBMLicenseServiceReporterSpec

/-- The embedding of `IsBasicAuthEnabled`. -/
def IsBasicAuthEnabled (spec : IBMLicenseServiceReporterSpec) : Bool :=
  spec.Authentication.UseradminEnabled

/-- The embedding of `IsOAuthEnabled`. -/
def IsOAuthEnabled (spec : IBMLicenseServiceReporterSpec) : Bool :=
  spec.Authentication.OAuth.Enabled

/-- The embedding of `IsRouteEnabled`. -/
def IsRouteEnabled (spec : IBMLicenseServiceReporterSpec) : Bool :=
  match spec.RouteEnabled with
  | none => false
  | some enabled => enabled

end IBMLicenseServiceReporterSpec

end v1alpha1

/-- The fields of `routev1.RouteSpec` that the reporter reads. -/
structure RouteSpec where
  Host : String
  Path : String
  deriving DecidableEq, Repr

namespace Reporter

namespace routes

/-- The constant `ReporterConsoleRouteName`. -/
def ReporterConsoleRouteName : String := "ibm-lsr-console"

/-- The embedding of `GetExistingRoute`; `get` is the answer of `client.Get` for the route. -/
def GetExistingRoute (get : Except Err RouteSpec) (routeName : String) :
    RouteSpec × Option Err :=
  match get with
  | .error err =>
    ({ Host := "", Path := "" },
      some (.New ("could not retrieve route " ++ routeName ++ ": " ++ err.Error)))
  | .ok foundRoute => (foundRoute, none)

end routes

namespace ingress

/-- The constant `defaultApiPath`. -/
def defaultApiPath : String := "/"

/-- The constant `apiIngressName`. -/
def apiIngressName : String := LicenseReporterResourceBase ++ "-api-ingress"

/-- The constant `DefaultConsolePath`. -/
def DefaultConsolePath : String := "/license-service-reporter"

/-- The constant `ConsoleIngressName`. -/
def ConsoleIngressName : String := LicenseReporterResourceBase ++ "-console-ingress"

/-- The embedding of `GetExistingIngress`; `get` is the answer of `client.Get` for the
ingress. The pointer it returns is never nil. -/
def GetExistingIngress (get : Except Err IngressSpec) : IngressSpec × Option Err :=
  match get with
  | .error err =>
    ({ TLS := [], IngressClassName := none, Rules := [] },
      some (.New ("could not retrieve ingress " ++ ConsoleIngressName ++ ": " ++ err.Error)))
  | .ok foundIngress => (foundIngress, none)

end ingress

namespace deployments

variable {σ S P : Type}

/-- The constant `HtpasswdFilePath`. -/
def HtpasswdFilePath : String := "/opt/oauth2-proxy" ++ "/htpasswd"

/-- The constant `OAuth2ProxyBasicTemplatesPath`. -/
def OAuth2ProxyBasicTemplatesPath : String := "/opt/oauth2-proxy" ++ "/templates/useradmin"

/-- The constant `OAuth2ProxyOAuthBasicTemplatesPath`. -/
def OAuth2ProxyOAuthBasicTemplatesPath : String :=
  "/opt/oauth2-proxy" ++ "/templates/oauth_useradmin"

/-- The constant `OAuth2ProxyClientSecretFilePath`. -/
def OAuth2ProxyClientSecretFilePath : String := "/opt/oauth2-proxy" ++ "/config/client-secret"

/-- The constant `OAuth2ProxyProviderCAFilePath`. -/
def OAuth2ProxyProviderCAFilePath : String := "/opt/oauth2-proxy" ++ "/config/provider-ca"

/-- The embedding of `getRedirectUrl`; `getRoute` and `getIngress` are the answers of
`config.Client.Get` for the console route and for the console ingress. The result is the URL
and the error; the outer `none` is the panic of reading through a nil `CommonOptions`. -/
def getRedirectUrl (config : IBMLicenseServiceReporterConfig σ S P)
    (getRoute : Except Err RouteSpec) (getIngress : Except Err IngressSpec)
    (spec : v1alpha1.IBMLicenseServiceReporterSpec) : Option (String × Option Err) :=
  if config.IsRouteAPI && spec.IsRouteEnabled then
    match routes.GetExistingRoute getRoute routes.ReporterConsoleRouteName with
    | (_, some err) =>
      some ("", some (.New ("cannot parse oauth2-proxy parameters due to missing " ++
        routes.ReporterConsoleRouteName ++ " route: " ++ err.Error)))
    | (consoleRoute, none) =>
      some ("https://" ++ consoleRoute.Host ++ consoleRoute.Path ++ "/oauth2/callback", none)
  else if spec.IngressEnabled then
    match spec.IngressOptions with
    | none =>
      some ("", some (.New ("ingress is enabled but it does not have host configured. " ++
        "Configure ingress host in IBMLicenseServiceReporter")))
    | some ingressOptions =>
      match ingressOptions.CommonOptions with
      | none => none
      | some commonOptions =>
        match commonOptions.Host with
        | some host =>
          some ("https://" ++ host ++ ingress.DefaultConsolePath ++ "/oauth2/callback", none)
        | none =>
          some ("", some (.New ("ingress is enabled but it does not have host configured. " ++
            "Configure ingress host in IBMLicenseServiceReporter")))
  else
    match ingress.GetExistingIngress getIngress with
    | (_, some err) =>
      some ("", some (.New ("cannot get the customer created ingress " ++
        ingress.ConsoleIngressName ++
        " - make sure it's created or enable automatic ingress creation: " ++ err.Error)))
    | (consoleIngress, none) =>
      match consoleIngress.Rules with
      | [] =>
        some ("", some (.New ("customer created ingress should specify exactly one rule " ++
          "in the spec and it needs to contain the host value")))
      | rule :: _ =>
        if rule.Host = "" then
          some ("", some (.New ("customer created ingress should specify exactly one rule " ++
            "in the spec and it needs to contain the host value")))
        else
          some ("https://" ++ rule.Host ++ ingress.DefaultConsolePath ++ "/oauth2/callback",
            none)

end deployments

end Reporter

namespace Reporter

namespace deployments

variable {σ S P : Type}

/-- The embedding of `getCoreParams`. -/
def getCoreParams : GoMap String String :=
  GoMap.ofList
    [("--https-address", ""), ("--proxy-prefix", ""), ("--upstream", ""),
     ("--tls-cert-file", ""), ("--tls-key-file", ""), ("--htpasswd-file", ""),
     ("--display-htpasswd-form", ""), ("--custom-templates-dir", ""), ("--redirect-url", ""),
     ("--client-secret-file", ""), ("--provider-ca-file", "")]

/-- The embedding of `getExtSecretsMountPaths`. -/
def getExtSecretsMountPaths : GoMap String String :=
  GoMap.ofList
    [("--client-secret-name", "--client-secret-file=" ++ OAuth2ProxyClientSecretFilePath),
     ("--provider-ca-secret-name", "--provider-ca-file=" ++ OAuth2ProxyProviderCAFilePath)]

/-- The embedding of `getTrueDefaultParams`. -/
def getTrueDefaultParams : GoMap String String :=
  GoMap.ofList [("--email-domain", "*")]

/-- The loop of `parseOauth2ProxyArgs` over the user's parameters: the arguments and the
defaults that are left, or the first parameter of a wrong format. -/
def appendOAuthParameters :
    List String → List String → GoMap String String →
      Except String (List String × GoMap String String)
  | [], containerArgs, trueDefaultParams => .ok (containerArgs, trueDefaultParams)
  | param :: rest, containerArgs, trueDefaultParams =>
    let splitParam := strings.Split param '='
    if splitParam.length ≠ 2 then .error param
    else
      let paramName := splitParam.headD ""
      if (getCoreParams.lookup paramName).isSome then
        appendOAuthParameters rest containerArgs trueDefaultParams
      else
        match getExtSecretsMountPaths.lookup paramName with
        | some path => appendOAuthParameters rest (containerArgs ++ [path]) trueDefaultParams
        | none =>
          appendOAuthParameters rest (containerArgs ++ [param])
            (trueDefaultParams.erase paramName)

/-- The embedding of `parseOauth2ProxyArgs`; `spec` is `config.Instance.Spec`, and `getRoute`
and `getIngress` are the answers of `config.Client.Get` for the console route and for the
console ingress. The result is the arguments and the error; the outer `none` is a panic of
`getRedirectUrl`. -/
def parseOauth2ProxyArgs (config : IBMLicenseServiceReporterConfig σ S P)
    (getRoute : Except Err RouteSpec) (getIngress : Except Err IngressSpec)
    (spec : v1alpha1.IBMLicenseServiceReporterSpec) : Option (List String × Option Err) :=
  match getRedirectUrl config getRoute getIngress spec with
  | none => none
  | some (_, some err) => some ([], some err)
  | some (redirectUrl, none) =>
    let containerArgs : List String :=
      ["--https-address=:" ++ "8888",
       "--proxy-prefix=" ++ ingress.DefaultConsolePath ++ "/oauth2",
       "--upstream=http://localhost:3001/",
       "--tls-cert-file=/etc/tls/private/tls.crt",
       "--tls-key-file=/etc/tls/private/tls.key",
       "--htpasswd-file=" ++ HtpasswdFilePath,
       "--redirect-url=" ++ redirectUrl]
    let containerArgs :=
      if spec.IsBasicAuthEnabled && !spec.IsOAuthEnabled then
        containerArgs ++
          ["--display-htpasswd-form=true",
           "--custom-templates-dir=" ++ OAuth2ProxyBasicTemplatesPath,
           "--provider-display-name=lsr-useradmin",
           "--oidc-issuer-url=https://www.lsr-useradmin.com",
           "--oidc-jwks-url=https://www.lsr-useradmin.com",
           "--client-id=lsr-useradmin",
           "--client-secret=lsr-useradmin",
           "--skip-oidc-discovery=true"]
      else if spec.IsBasicAuthEnabled && spec.IsOAuthEnabled then
        containerArgs ++
          ["--display-htpasswd-form=true",
           "--custom-templates-dir=" ++ OAuth2ProxyOAuthBasicTemplatesPath]
      else if !spec.IsBasicAuthEnabled && spec.IsOAuthEnabled then
        containerArgs ++
          ["--display-htpasswd-form=false",
           "--custom-templates-dir=" ++ OAuth2ProxyOAuthBasicTemplatesPath]
      else containerArgs
    let authSpec := spec.Authentication
    if authSpec.OAuth.Enabled && decide (authSpec.OAuth.Parameters.length > 0) then
      match appendOAuthParameters authSpec.OAuth.Parameters containerArgs
          getTrueDefaultParams with
      | .error param =>
        some ([], some (.New ("parameter " ++ param ++
          " has wrong format. It should be --param=value")))
      | .ok (containerArgs, trueDefaultParams) =>
        some
          (trueDefaultParams.entries.foldl
            (fun containerArgs e => containerArgs ++ [e.1 ++ "=" ++ e.2]) containerArgs,
            none)
    else some (containerArgs, none)

end deployments

end Reporter

namespace Example

/-- A spec with the given authentication settings, routes enabled and no ingress. -/
def specWithRoute (authentication : v1alpha1.Authentication) :
    v1alpha1.IBMLicenseServiceReporterSpec :=
  { Authentication := authentication, RouteEnabled := some true, IngressEnabled := false,
    IngressOptions := none }

/-- The console route of the reporter as the cluster answers it. -/
def consoleRoute : Except Err RouteSpec :=
  .ok { Host := "reporter.apps.example.com", Path := "" }

/-- The answer of the cluster for an object that it does not store. -/
def notFound {α : Type} : Except Err α := .error .StatusNotFound

end Example

/-! ### The arguments of the OAuth proxy in the specification's words -/

namespace Reporter

namespace deployments

/-- The flag that an argument `--flag=value` sets: the text before its first `=`. -/
def flagName (arg : String) : String :=
  ⟨arg.data.takeWhile (· ≠ '=')⟩

/-- The seven core setup flags. -/
def coreSetupFlags : List String :=
  ["--https-address", "--proxy-prefix", "--upstream", "--tls-cert-file", "--tls-key-file",
   "--htpasswd-file", "--redirect-url"]

/-- The core setup arguments with the values that the operator computes. -/
def coreSetupArguments (redirectUrl : String) : List String :=
  ["--https-address=:8888", "--proxy-prefix=/license-service-reporter/oauth2",
   "--upstream=http://localhost:3001/", "--tls-cert-file=/etc/tls/private/tls.crt",
   "--tls-key-file=/etc/tls/private/tls.key", "--htpasswd-file=/opt/oauth2-proxy/htpasswd",
   "--redirect-url=" ++ redirectUrl]

/-- The arguments that depend on the authentication modes: the login form and the templates,
and for basic authentication alone the placeholder provider. -/
def modeArguments (basicAuth oauth : Bool) : List String :=
  match basicAuth, oauth with
  | true, false =>
    ["--display-htpasswd-form=true",
     "--custom-templates-dir=/opt/oauth2-proxy/templates/useradmin",
     "--provider-display-name=lsr-useradmin",
     "--oidc-issuer-url=https://www.lsr-useradmin.com",
     "--oidc-jwks-url=https://www.lsr-useradmin.com", "--client-id=lsr-useradmin",
     "--client-secret=lsr-useradmin", "--skip-oidc-discovery=true"]
  | true, true =>
    ["--display-htpasswd-form=true",
     "--custom-templates-dir=/opt/oauth2-proxy/templates/oauth_useradmin"]
  | false, true =>
    ["--display-htpasswd-form=false",
     "--custom-templates-dir=/opt/oauth2-proxy/templates/oauth_useradmin"]
  | false, false => []

/-- What the user's parameters contribute: a parameter whose flag is in the core-parameter
table contributes nothing, one of the two external-secret flags contributes the file
argument that stands for it, and any other parameter is passed as it is. -/
def userArguments (parameters : List String) : List String :=
  parameters.filterMap fun param =>
    if (getCoreParams.lookup (flagName param)).isSome then none
    else some ((getExtSecretsMountPaths.lookup (flagName param)).getD param)

/-- The true-default arguments: `--email-domain=*`, unless a parameter sets that flag. -/
def defaultArguments (parameters : List String) : List String :=
  if ∃ param ∈ parameters, flagName param = "--email-domain" then []
  else ["--email-domain=*"]

/-- The arguments of the OAuth proxy as the specification describes them: the core setup,
the arguments of the authentication modes and, when OAuth is enabled and the parameter list
is not empty, the user's contribution followed by the true defaults. -/
def oauth2ProxyArgsSpec (redirectUrl : String)
    (spec : v1alpha1.IBMLicenseServiceReporterSpec) : List String :=
  coreSetupArguments redirectUrl ++
    modeArguments spec.Authentication.UseradminEnabled spec.Authentication.OAuth.Enabled ++
    (if spec.Authentication.OAuth.Enabled ∧ spec.Authentication.OAuth.Parameters ≠ [] then
      userArguments spec.Authentication.OAuth.Parameters ++
        defaultArguments spec.Authentication.OAuth.Parameters
    else [])

end deployments

end Reporter

/-! ## Reporter: building the ingresses (`ingress/ingress.go`) -/

namespace Reporter

namespace ingress

/-- The embedding of `getIngress`; `spec` is `instance.Spec`. The result is `none` when the
function panics, reading through a nil `CommonOptions`. -/
def getIngress (inst : IBMLicenseServiceReporter)
    (spec : v1alpha1.IBMLicenseServiceReporterSpec)
    (specificOptions : Option v1alpha1.IBMLicenseServiceReporterIngressSpecificOptions)
    (name : String) (port : Int) (defaultPath : String) : Option (Object IngressSpec) :=
  let build (tls : List IngressTLS) (host : String) (annotations : GoMap String String)
      (ingressClassName : Option String) (path : String) : Object IngressSpec :=
    { ObjectMeta :=
        { Name := name, Namespace := inst.Namespace, Annotations := annotations,
          Labels := LabelsForMeta inst, ResourceVersion := "", OwnerReferences := [] },
      Body :=
        { TLS := tls, IngressClassName := ingressClassName,
          Rules :=
            [{ Host := host,
               Paths :=
                 [{ Path := path, PathType := "ImplementationSpecific",
                    ServiceName := LicenseReporterResourceBase,
                    ServicePortNumber := port }] }] } }
  let ingressOptions := spec.IngressOptions
  let path := defaultPath
  match ingressOptions with
  | none => some (build [] "" ∅ none path)
  | some ingressOptions =>
    let tls := match specificOptions with
      | some specificOptions => specificOptions.TLS
      | none => []
    let annotations := match specificOptions with
      | some specificOptions => specificOptions.Annotations
      | none => ∅
    let path := match specificOptions with
      | some specificOptions => specificOptions.Path.getD path
      | none => path
    match ingressOptions.CommonOptions with
    | none => none
    | some commonOptions =>
      let host := commonOptions.Host.getD ""
      let ingressClassName := commonOptions.IngressClassName
      some (build tls host annotations ingressClassName path)

/-- The embedding of `GetApiIngress`; `spec` is `config.Instance.Spec`. The result is `none`
when the function panics, reading through a nil `IngressOptions` or `CommonOptions`. -/
def GetApiIngress (inst : IBMLicenseServiceReporter)
    (spec : v1alpha1.IBMLicenseServiceReporterSpec) : Option (Object IngressSpec) :=
  match spec.IngressOptions with
  | none => none
  | some ingressOptions =>
    getIngress inst spec ingressOptions.ApiOptions apiIngressName 8080 defaultApiPath

/-- The embedding of `GetConsoleIngress`; `spec` is `config.Instance.Spec`. -/
def GetConsoleIngress (inst : IBMLicenseServiceReporter)
    (spec : v1alpha1.IBMLicenseServiceReporterSpec) : Option (Object IngressSpec) :=
  match spec.IngressOptions with
  | none => none
  | some ingressOptions =>
    getIngress inst spec ingressOptions.ConsoleOptions ConsoleIngressName 8888
      DefaultConsolePath

end ingress

end Reporter

namespace Example

/-- A spec with ingress enabled, routes not enabled, no authentication mode and the given
ingress options. -/
def specWithIngress (ingressOptions : Option v1alpha1.IBMLicenseServiceReporterIngressOptions) :
    v1alpha1.IBMLicenseServiceReporterSpec :=
  { Authentication := { UseradminEnabled := false, OAuth := { Enabled := false, Parameters := [] } },
    RouteEnabled := none, IngressEnabled := true, IngressOptions := ingressOptions }

end Example

/-! ## Lemmas about the embedded functions -/

namespace Reporter
variable {K V : Type} [DecidableEq K] [DecidableEq V]

theorem MapHasAllPairsFromOther_iff (checked needed : GoMap K V) :
    MapHasAllPairsFromOther checked needed = true ↔
      ∀ k v, needed.lookup k = some v → checked.lookup k = some v := by
  unfold MapHasAllPairsFromOther
  rw [List.all_eq_true]
  constructor
  · intro h k v hk
    have hmem : (⟨k, v⟩ : Sigma fun _ : K => V) ∈ needed.entries :=
      AList.mem_lookup_iff.mp (by simp [hk])
    have := h _ hmem
    simp only at this
    cases hc : AList.lookup k checked with
    | none => simp [hc] at this
    | some w => simp [hc] at this; simp [this]
  · intro h e he
    have hk : needed.lookup e.1 = some e.2 := by
      have := AList.mem_lookup_iff.mpr (show (⟨e.1, e.2⟩ : Sigma fun _ : K => V) ∈ needed.entries from he)
      simpa using this
    rw [h _ _ hk]
    simp
end Reporter

namespace Scanner
variable {S : Type}

theorem labelsEqual_eq (b : BaseReconcilableResource S) :
    b.labelsEqual =
      Reporter.MapHasAllPairsFromOther b.ActualResource.GetLabels b.ExpectedResource.GetLabels := by
  unfold BaseReconcilableResource.labelsEqual Reporter.MapHasAllPairsFromOther
  simp only
  congr 1
  funext e
  cases AList.lookup e.1 b.ActualResource.GetLabels with
  | none => rfl
  | some w => simp only [eq_comm]

theorem annotationsEqual_eq (b : BaseReconcilableResource S) :
    b.annotationsEqual =
      Reporter.MapHasAllPairsFromOther b.ActualResource.GetAnnotations
        b.ExpectedResource.GetAnnotations := by
  unfold BaseReconcilableResource.annotationsEqual Reporter.MapHasAllPairsFromOther
  simp only
  congr 1
  funext e
  cases AList.lookup e.1 b.ActualResource.GetAnnotations with
  | none => rfl
  | some w => simp only [eq_comm]

end Scanner


namespace Reporter

theorem equalEnvVars_iff (a b : List EnvVar) :
    equalEnvVars a b = true ↔
      a.length = b.length ∧
        ∀ e ∈ a, ∃ e' ∈ b, e.Name = e'.Name ∧ e.Value = e'.Value := by
  unfold equalEnvVars
  by_cases hlen : a.length = b.length
  · simp [hlen, List.all_eq_true, List.any_eq_true]
  · simp [hlen]

theorem equalEnvVars_refl (a : List EnvVar) : equalEnvVars a a = true := by
  rw [equalEnvVars_iff]
  exact ⟨rfl, fun e he => ⟨e, he, rfl, rfl⟩⟩


section SliceLemmas

variable {T : Type} [DecidableEq T]

theorem elementMap_apply (a : List T) (m : T → Nat) (x : T) :
    (a.foldl (fun elementMap elem => Function.update elementMap elem (elementMap elem + 1)) m) x
      = m x + a.count x := by
  induction a generalizing m with
  | nil => simp
  | cons e rest ih =>
    rw [List.foldl_cons, ih, List.count_cons]
    by_cases h : e = x
    · subst h
      simp [Function.update_same]
      omega
    · have hx : x ≠ e := fun h' => h h'.symm
      simp [Function.update_noteq hx, h]

theorem countDown_iff (b : List T) (m : T → Nat) :
    countDown m b = true ↔ ∀ x, b.count x ≤ m x := by
  induction b generalizing m with
  | nil => simp [countDown]
  | cons e rest ih =>
    unfold countDown
    by_cases h0 : m e = 0
    · simp only [h0, if_true]
      constructor
      · intro h; exact absurd h (by simp)
      · intro h
        have := h e
        simp [h0] at this
    · simp only [h0, if_false]
      rw [ih]
      constructor
      · intro h x
        have hx := h x
        rw [List.count_cons]
        by_cases hxe : x = e
        · subst hxe
          simp [Function.update_same] at hx ⊢
          omega
        · have hex : ¬ e = x := fun h' => hxe h'.symm
          simp [Function.update_noteq hxe, hex] at hx ⊢
          exact hx
      · intro h x
        have hx := h x
        rw [List.count_cons] at hx
        by_cases hxe : x = e
        · subst hxe
          simp [Function.update_same] at hx ⊢
          omega
        · have hex : ¬ e = x := fun h' => hxe h'.symm
          simp [Function.update_noteq hxe, hex] at hx ⊢
          exact hx

theorem UnorderedEqualSlice_iff (a b : List T) :
    UnorderedEqualSlice a b = true ↔ a.length = b.length ∧ ∀ x, b.count x ≤ a.count x := by
  unfold UnorderedEqualSlice
  by_cases hlen : a.length = b.length
  · simp only [hlen, ne_eq, not_true_eq_false, if_false, true_and]
    rw [countDown_iff]
    simp [elementMap_apply]
  · simp [hlen]

theorem UnorderedEqualSlice_refl (a : List T) : UnorderedEqualSlice a a = true := by
  rw [UnorderedEqualSlice_iff]
  exact ⟨rfl, fun _ => le_rfl⟩

end SliceLemmas

theorem GoMap_DeepEqual_refl {K V : Type} [DecidableEq K] [DecidableEq V] (m : GoMap K V) :
    GoMap.DeepEqual m m = true := by
  unfold GoMap.DeepEqual
  simp only [decide_True, Bool.true_and, List.all_eq_true]
  intro e he
  have hk : m.lookup e.1 = some e.2 := by
    have := AList.mem_lookup_iff.mpr
      (show (⟨e.1, e.2⟩ : Sigma fun _ : K => V) ∈ m.entries from he)
    simpa using this
  rw [hk]
  simp

theorem equalProbes_refl (p : Option Probe) : equalProbes p p = true := by
  cases p with
  | none => rfl
  | some p =>
    obtain ⟨h, i, t, pe, s, f⟩ := p
    unfold equalProbes
    by_cases hs : s = 0 <;> by_cases hf : f = 0 <;> simp [hs, hf]

theorem potentialDifference_self (c : Container) (hl : c.Resources.Limits ≠ none)
    (hr : c.Resources.Requests ≠ none) : potentialDifference c c = false := by
  unfold potentialDifference
  simp [equalEnvVars_refl, UnorderedEqualSlice_refl, GoMap_DeepEqual_refl, equalProbes_refl,
    hl, hr]


end Reporter

namespace Reporter

theorem find?_name_of_mem (L : List Container) (hnames : (L.map fun c => c.Name).Nodup)
    (c : Container) (hc : c ∈ L) :
    L.find? (fun container2 => decide (c.Name = container2.Name)) = some c := by
  induction L with
  | nil => cases hc
  | cons x xs ih =>
    rw [List.find?_cons]
    by_cases hn : c.Name = x.Name
    · have : c = x :=
        List.inj_on_of_nodup_map hnames hc (List.mem_cons_self _ _) hn
      subst this
      simp
    · have hcx : c ≠ x := fun h => hn (by rw [h])
      have hc' : c ∈ xs := by
        rcases List.mem_cons.mp hc with h | h
        · exact absurd h hcx
        · exact h
      simp only [hn, decide_False]
      exact ih (List.Nodup.of_cons (by simpa using hnames)) hc'

theorem containersToBeChecked_of_subset (L : List Container)
    (hnames : (L.map fun c => c.Name).Nodup) (L' : List Container)
    (hsub : ∀ c ∈ L', c ∈ L) :
    containersToBeChecked L L' = some (L'.map fun c => (c, c)) := by
  induction L' with
  | nil => rfl
  | cons c rest ih =>
    unfold containersToBeChecked
    rw [find?_name_of_mem L hnames c (hsub c (List.mem_cons_self _ _)),
      ih (fun d hd => hsub d (List.mem_cons_of_mem _ hd))]
    rfl

theorem foldl_potentialDifference_self (L' : List Container)
    (hres : ∀ c ∈ L', c.Resources.Limits ≠ none ∧ c.Resources.Requests ≠ none) :
    (L'.map fun c => (c, c)).foldl
      (fun difference pair =>
        if difference then true else potentialDifference pair.1 pair.2) false = false := by
  induction L' with
  | nil => rfl
  | cons c rest ih =>
    have hc := hres c (List.mem_cons_self _ _)
    simp only [List.map_cons, List.foldl_cons, Bool.false_eq_true, if_false,
      potentialDifference_self c hc.1 hc.2]
    exact ih (fun d hd => hres d (List.mem_cons_of_mem _ hd))

end Reporter

namespace Reporter

variable {σ S P : Type}

theorem CreateResource_calls_isPatch (config : IBMLicenseServiceReporterConfig σ S P) (st : σ)
    (o : Object S) : ∀ c ∈ (CreateResource config st o).calls, c.isPatch = false := by
  unfold CreateResource
  cases config.SetControllerReference config.Instance o with
  | error e => simp
  | ok o' =>
    simp only
    split <;> simp [Call.isPatch]

theorem DeleteResource_calls (config : IBMLicenseServiceReporterConfig σ S P) (st : σ)
    (o : Object S) : (DeleteResource config st o).calls = [.Delete o] := by
  unfold DeleteResource
  split
  · split <;> rfl
  · rfl

theorem TryUpdateOrRecreateResource_calls_isPatch
    (config : IBMLicenseServiceReporterConfig σ S P) (st : σ) (res : Object S) (ign : Bool) :
    ∀ c ∈ (TryUpdateOrRecreateResource config st res ign).calls, c.isPatch = false := by
  unfold TryUpdateOrRecreateResource
  simp only
  cases (if res.GetOwnerReferences.length = 0 then
      config.SetControllerReference config.Instance res else .ok res) with
  | error e => simp
  | ok res' =>
    simp only
    rcases config.Client.Update st res' with ⟨uerr, st1⟩
    cases uerr with
    | none => simp [Call.isPatch]
    | some ue =>
      simp only
      have hd := DeleteResource_calls config st1 res'
      have hc := CreateResource_calls_isPatch config (DeleteResource config st1 res').state res'
      cases (DeleteResource config st1 res').err with
      | some de => simp [hd, Call.isPatch]
      | none =>
        simp only
        cases (CreateResource config (DeleteResource config st1 res').state res').err <;>
          · intro c hcmem
            simp only [hd, List.mem_cons, List.mem_append, List.not_mem_nil, or_false] at hcmem
            rcases hcmem with rfl | rfl | h
            · rfl
            · rfl
            · exact hc c h

theorem TryUpdateOrRecreateResource_calls_head
    (config : IBMLicenseServiceReporterConfig σ S P) (st : σ) (res res' : Object S) (ign : Bool)
    (hown : (if res.GetOwnerReferences.length = 0 then
        config.SetControllerReference config.Instance res else .ok res) = .ok res') :
    ∃ tail, (TryUpdateOrRecreateResource config st res ign).calls = .Update res' :: tail := by
  unfold TryUpdateOrRecreateResource
  simp only [hown]
  rcases config.Client.Update st res' with ⟨uerr, st1⟩
  cases uerr with
  | none => exact ⟨[], rfl⟩
  | some ue =>
    simp only
    cases (DeleteResource config st1 res').err with
    | some de => exact ⟨_, rfl⟩
    | none =>
      simp only
      cases (CreateResource config (DeleteResource config st1 res').state res').err <;>
        exact ⟨_, rfl⟩

/-- The merge path of `ReconcileResource`: taken when the object is found, the predicate
returns no error, the object is not (or not to be treated as) in its desired state, and the
patch path is not taken. -/
theorem ReconcileResource_merge_path
    (config : IBMLicenseServiceReporterConfig σ S P) (st : σ) (expected found : Object S)
    (shouldCreate : Bool) (overrideExpected : Option (NotFoundExpectedOverrideFunc S))
    (checkFound : IsFoundInDesiredStateIfExistsFunc σ S P)
    (patchFound : Option (ApplyPatchToFoundObjectFunc σ S P))
    (m : MergeIntoFoundAsNewObjectFunc S)
    (run : Option (RunActionsAfterReconcile σ S P))
    (status : ResourceUpdateStatus) (merged : Object S) (ign : Bool)
    (hget : config.Client.Get st ⟨expected.GetName, expected.GetNamespace⟩ = .ok found)
    (hcheck : checkFound config found (EnsureCachingLabel expected) = (status, none))
    (hnot : status.IsInDesiredState = false ∨
      found.GetLabels.lookup CachingLabelKey ≠ some CachingLabelValue)
    (hnopatch : status.IsInDesiredState = false → status.IsPatchSufficient = true →
      patchFound = none)
    (hmerge : m found (EnsureCachingLabel expected) = .ok (merged, ign)) :
    ReconcileResource config st expected shouldCreate overrideExpected checkFound patchFound
        (some m) run =
      match (TryUpdateOrRecreateResource config st (EnsureCachingLabel merged) ign).err with
      | some err =>
        ⟨some err, (TryUpdateOrRecreateResource config st (EnsureCachingLabel merged) ign).state,
          .Get ⟨expected.GetName, expected.GetNamespace⟩ ::
            (TryUpdateOrRecreateResource config st (EnsureCachingLabel merged) ign).calls⟩
      | none =>
        match run with
        | some r =>
          ⟨(r (!status.IsInDesiredState) config
              (TryUpdateOrRecreateResource config st (EnsureCachingLabel merged) ign).state).err,
            (r (!status.IsInDesiredState) config
              (TryUpdateOrRecreateResource config st (EnsureCachingLabel merged) ign).state).state,
            .Get ⟨expected.GetName, expected.GetNamespace⟩ ::
              ((TryUpdateOrRecreateResource config st (EnsureCachingLabel merged) ign).calls ++
                (r (!status.IsInDesiredState) config
                  (TryUpdateOrRecreateResource config st (EnsureCachingLabel merged)
                    ign).state).calls)⟩
        | none =>
          ⟨none, (TryUpdateOrRecreateResource config st (EnsureCachingLabel merged) ign).state,
            .Get ⟨expected.GetName, expected.GetNamespace⟩ ::
              (TryUpdateOrRecreateResource config st (EnsureCachingLabel merged) ign).calls⟩ := by
  have hname : (EnsureCachingLabel expected).GetName = expected.GetName := rfl
  have hns : (EnsureCachingLabel expected).GetNamespace = expected.GetNamespace := rfl
  unfold ReconcileResource
  simp only [hname, hns, hget, hcheck]
  obtain ⟨d, p⟩ := status
  cases d with
  | false =>
    simp only [Bool.false_eq_true, if_false, Bool.not_false, if_true]
    cases p with
    | false =>
      simp only [Bool.false_eq_true, if_false, hmerge]
      try rfl
    | true =>
      have := hnopatch rfl rfl
      subst this
      simp only [if_true, hmerge]
      try rfl
  | true =>
    have hl : found.GetLabels.lookup CachingLabelKey ≠ some CachingLabelValue := by
      rcases hnot with h | h
      · cases h
      · exact h
    simp only [if_true, hl, ne_eq, not_false_eq_true, Bool.not_false, Bool.false_eq_true,
      if_false, hmerge]
    try rfl

end Reporter

namespace Reporter

theorem lookup_foldl_insert {K V : Type} [DecidableEq K]
    (l : List (Sigma fun _ : K => V)) (hl : l.NodupKeys) (m : GoMap K V) (k : K) :
    (l.foldl (fun originalCopy e => originalCopy.insert e.1 e.2) m).lookup k =
      (l.dlookup k).orElse fun _ => m.lookup k := by
  induction l generalizing m with
  | nil => simp
  | cons e t ih =>
    obtain ⟨ek, ev⟩ := e
    obtain ⟨hnot, ht⟩ := List.nodupKeys_cons.mp hl
    rw [List.foldl_cons, ih ht]
    by_cases hk : k = ek
    · subst hk
      have : t.dlookup k = none := List.dlookup_eq_none.mpr hnot
      simp [this, AList.lookup_insert, List.dlookup_cons_eq]
    · rw [AList.lookup_insert_ne hk, List.dlookup_cons_ne _ _ hk]

theorem lookup_MergeMaps {K V : Type} [DecidableEq K] [DecidableEq V]
    (original new : GoMap K V) (k : K) :
    (MergeMaps original new).lookup k = (new.lookup k).orElse fun _ => original.lookup k := by
  unfold MergeMaps
  rw [lookup_foldl_insert new.entries new.nodupKeys]
  rfl

theorem MapHasAllPairsFromOther_MergeMaps {K V : Type} [DecidableEq K] [DecidableEq V]
    (original new : GoMap K V) : MapHasAllPairsFromOther (MergeMaps original new) new = true := by
  rw [MapHasAllPairsFromOther_iff]
  intro k v hk
  rw [lookup_MergeMaps, hk]
  rfl

theorem MapHasAllPairsFromOther_refl {K V : Type} [DecidableEq K] [DecidableEq V]
    (m : GoMap K V) : MapHasAllPairsFromOther m m = true := by
  rw [MapHasAllPairsFromOther_iff]
  exact fun _ _ h => h

end Reporter

namespace strings

theorem splitOnChar_ne_nil (sep : Char) (l : List Char) : splitOnChar sep l ≠ [] := by
  induction l with
  | nil => simp [splitOnChar]
  | cons c cs ih =>
    unfold splitOnChar
    by_cases h : c = sep
    · simp [h]
    · simp only [h, if_false]
      cases hs : splitOnChar sep cs with
      | nil => simp
      | cons p ps => simp

theorem splitOnChar_length (sep : Char) (l : List Char) :
    (splitOnChar sep l).length = l.count sep + 1 := by
  induction l with
  | nil => simp [splitOnChar]
  | cons c cs ih =>
    unfold splitOnChar
    by_cases h : c = sep
    · subst h
      simp [ih]
    · have h' : ¬ (c == sep) = true := by simpa using h
      simp only [h, if_false]
      cases hs : splitOnChar sep cs with
      | nil => exact absurd hs (splitOnChar_ne_nil sep cs)
      | cons p ps =>
        rw [hs] at ih
        simp only [List.length_cons] at ih ⊢
        rw [List.count_cons, ih]
        simp [h']

theorem splitOnChar_of_not_mem (sep : Char) (l : List Char) (h : sep ∉ l) :
    splitOnChar sep l = [l] := by
  induction l with
  | nil => rfl
  | cons c cs ih =>
    have hc : c ≠ sep := fun hcs => h (hcs ▸ List.mem_cons_self _ _)
    have hcs : sep ∉ cs := fun hm => h (List.mem_cons_of_mem _ hm)
    unfold splitOnChar
    simp [hc, ih hcs]

theorem splitOnChar_append_sep (sep : Char) (a b : List Char) (h : sep ∉ a) :
    splitOnChar sep (a ++ sep :: b) = a :: splitOnChar sep b := by
  induction a with
  | nil => simp [splitOnChar]
  | cons c cs ih =>
    have hc : c ≠ sep := fun hcs => h (hcs ▸ List.mem_cons_self _ _)
    have hcs : sep ∉ cs := fun hm => h (List.mem_cons_of_mem _ hm)
    rw [List.cons_append, splitOnChar, if_neg hc, ih hcs]

/-- The split of an htpasswd entry `u:h\n` on the colon: the two fields when neither holds a
colon, and otherwise not exactly two pieces. -/
theorem Split_entry (u h : String) :
    ((':' ∉ u.data ∧ ':' ∉ h.data) → Split (u ++ ":" ++ h ++ "\n") ':' = [u, h ++ "\n"]) ∧
    (¬ (':' ∉ u.data ∧ ':' ∉ h.data) → (Split (u ++ ":" ++ h ++ "\n") ':').length ≠ 2) := by
  have hdata : (u ++ ":" ++ h ++ "\n").data = u.data ++ ':' :: (h.data ++ ['\n']) := by
    simp [String.data_append]
  unfold Split
  rw [hdata]
  constructor
  · rintro ⟨hu, hh⟩
    have hh' : ':' ∉ h.data ++ ['\n'] := by
      simp only [List.mem_append, List.mem_singleton, not_or]
      exact ⟨hh, by decide⟩
    rw [splitOnChar_append_sep _ _ _ hu, splitOnChar_of_not_mem _ _ hh']
    simp only [List.map_cons, List.map_nil]
    congr 1
  · intro hnot
    rw [List.length_map, splitOnChar_length]
    simp only [List.count_append, List.count_cons_self, List.count_cons, List.count_nil]
    have : u.data.count ':' ≠ 0 ∨ h.data.count ':' ≠ 0 := by
      by_contra hc
      push_neg at hc
      exact hnot ⟨List.count_eq_zero.mp hc.1, List.count_eq_zero.mp hc.2⟩
    have hnl : (('\n' : Char) == ':') = false := by decide
    simp only [hnl]
    omega

end strings

namespace Reporter

variable {σ S P : Type}

/-- `ReconcileResource` when the predicate returns an error. -/
theorem ReconcileResource_check_error
    (config : IBMLicenseServiceReporterConfig σ S P) (st : σ) (expected found : Object S)
    (shouldCreate : Bool) (overrideExpected : Option (NotFoundExpectedOverrideFunc S))
    (checkFound : IsFoundInDesiredStateIfExistsFunc σ S P)
    (patchFound : Option (ApplyPatchToFoundObjectFunc σ S P))
    (mergeIntoNew : Option (MergeIntoFoundAsNewObjectFunc S))
    (run : Option (RunActionsAfterReconcile σ S P)) (status : ResourceUpdateStatus) (e : Err)
    (hget : config.Client.Get st ⟨expected.GetName, expected.GetNamespace⟩ = .ok found)
    (hcheck : checkFound config found (EnsureCachingLabel expected) = (status, some e)) :
    ReconcileResource config st expected shouldCreate overrideExpected checkFound patchFound
        mergeIntoNew run = ⟨some e, st, [.Get ⟨expected.GetName, expected.GetNamespace⟩]⟩ := by
  have hname : (EnsureCachingLabel expected).GetName = expected.GetName := rfl
  have hns : (EnsureCachingLabel expected).GetNamespace = expected.GetNamespace := rfl
  unfold ReconcileResource
  simp only [hname, hns, hget, hcheck]

/-- `ReconcileResource` when the found object carries the caching label and is accepted. -/
theorem ReconcileResource_idle_path
    (config : IBMLicenseServiceReporterConfig σ S P) (st : σ) (expected found : Object S)
    (shouldCreate : Bool) (overrideExpected : Option (NotFoundExpectedOverrideFunc S))
    (checkFound : IsFoundInDesiredStateIfExistsFunc σ S P)
    (patchFound : Option (ApplyPatchToFoundObjectFunc σ S P))
    (mergeIntoNew : Option (MergeIntoFoundAsNewObjectFunc S))
    (run : Option (RunActionsAfterReconcile σ S P)) (status : ResourceUpdateStatus)
    (hget : config.Client.Get st ⟨expected.GetName, expected.GetNamespace⟩ = .ok found)
    (hcheck : checkFound config found (EnsureCachingLabel expected) = (status, none))
    (hd : status.IsInDesiredState = true)
    (hlabel : found.GetLabels.lookup CachingLabelKey = some CachingLabelValue) :
    ReconcileResource config st expected shouldCreate overrideExpected checkFound patchFound
        mergeIntoNew run = ⟨none, st, [.Get ⟨expected.GetName, expected.GetNamespace⟩]⟩ := by
  have hname : (EnsureCachingLabel expected).GetName = expected.GetName := rfl
  have hns : (EnsureCachingLabel expected).GetNamespace = expected.GetNamespace := rfl
  unfold ReconcileResource
  simp [hname, hns, hget, hcheck, hd, hlabel]

/-- `ReconcileResource` on the patch path. -/
theorem ReconcileResource_patch_path
    (config : IBMLicenseServiceReporterConfig σ S P) (st : σ) (expected found : Object S)
    (shouldCreate : Bool) (overrideExpected : Option (NotFoundExpectedOverrideFunc S))
    (checkFound : IsFoundInDesiredStateIfExistsFunc σ S P)
    (f : ApplyPatchToFoundObjectFunc σ S P)
    (mergeIntoNew : Option (MergeIntoFoundAsNewObjectFunc S))
    (run : Option (RunActionsAfterReconcile σ S P)) (status : ResourceUpdateStatus)
    (hget : config.Client.Get st ⟨expected.GetName, expected.GetNamespace⟩ = .ok found)
    (hcheck : checkFound config found (EnsureCachingLabel expected) = (status, none))
    (hd : status.IsInDesiredState = false) (hp : status.IsPatchSufficient = true) :
    ReconcileResource config st expected shouldCreate overrideExpected checkFound (some f)
        mergeIntoNew run =
      match f config found with
      | .error err => ⟨some err, st, [.Get ⟨expected.GetName, expected.GetNamespace⟩]⟩
      | .ok patch =>
        ⟨(config.Client.Patch st found patch).1, (config.Client.Patch st found patch).2,
          [.Get ⟨expected.GetName, expected.GetNamespace⟩, .Patch found patch]⟩ := by
  have hname : (EnsureCachingLabel expected).GetName = expected.GetName := rfl
  have hns : (EnsureCachingLabel expected).GetNamespace = expected.GetNamespace := rfl
  unfold ReconcileResource
  simp only [hname, hns, hget, hcheck, hd, hp, Bool.false_eq_true, if_false, if_true,
    Bool.not_false]
  cases f config found with
  | error e => rfl
  | ok patch =>
    simp only
    rcases config.Client.Patch st found patch with ⟨perr, st'⟩
    cases perr <;> rfl

end Reporter

namespace Cluster

variable {S : Type}

theorem holdsBody_Patch (key : NamespacedName) (body : S) (st : Cluster S) (o : Object S)
    (patch : MergePatch) (h : holdsBody key body st) :
    holdsBody key body (client.Patch st o patch).2 := by
  obtain ⟨o', ho', hb⟩ := h
  simp only [client]
  cases hl : st.objects.lookup (keyOf o) with
  | none => exact ⟨o', ho', hb⟩
  | some stored =>
    simp only
    split
    · exact ⟨o', ho', hb⟩
    · by_cases hk : key = keyOf o
      · subst hk
        rw [ho'] at hl
        injection hl with hl
        subst hl
        exact ⟨applyPatch o' patch, AList.lookup_insert _, hb⟩
      · exact ⟨o', by simp only [AList.lookup_insert_ne hk, ho'], hb⟩

theorem holdsBody_Create (key : NamespacedName) (body : S) (st : Cluster S) (o : Object S)
    (hk : keyOf o ≠ key) (h : holdsBody key body st) :
    holdsBody key body (client.Create st o).2 := by
  obtain ⟨o', ho', hb⟩ := h
  simp only [client]
  cases hl : st.objects.lookup (keyOf o) with
  | some stored => exact ⟨o', ho', hb⟩
  | none => exact ⟨o', by simp only [AList.lookup_insert_ne (Ne.symm hk), ho'], hb⟩

theorem holdsBody_Update (key : NamespacedName) (body : S) (st : Cluster S) (o : Object S)
    (hk : keyOf o ≠ key) (h : holdsBody key body st) :
    holdsBody key body (client.Update st o).2 := by
  obtain ⟨o', ho', hb⟩ := h
  simp only [client]
  cases hl : st.objects.lookup (keyOf o) with
  | none => exact ⟨o', ho', hb⟩
  | some stored =>
    simp only
    split
    · exact ⟨o', ho', hb⟩
    · exact ⟨o', by simp only [AList.lookup_insert_ne (Ne.symm hk), ho'], hb⟩

theorem holdsBody_Delete (key : NamespacedName) (body : S) (st : Cluster S) (o : Object S)
    (hk : keyOf o ≠ key) (h : holdsBody key body st) :
    holdsBody key body (client.Delete st o).2 := by
  obtain ⟨o', ho', hb⟩ := h
  simp only [client]
  cases hl : st.objects.lookup (keyOf o) with
  | none => exact ⟨o', ho', hb⟩
  | some stored => exact ⟨o', by simp only [AList.lookup_erase_ne (Ne.symm hk), ho'], hb⟩

theorem holdsBody_DeletePod (key : NamespacedName) (body : S) (st : Cluster S)
    (pod : ObjectMeta) (h : holdsBody key body st) :
    holdsBody key body (client.DeletePod st pod).2 := by
  obtain ⟨o', ho', hb⟩ := h
  simp only [client]
  split
  · exact ⟨o', ho', hb⟩
  · exact ⟨o', ho', hb⟩

theorem keyOf_SetControllerReference (owner : Reporter.IBMLicenseServiceReporter)
    (o o' : Object S) (h : SetControllerReference owner o = .ok o') : keyOf o' = keyOf o := by
  unfold SetControllerReference at h
  split at h
  · cases h
  · split at h
    · cases h
    · injection h with h
      subst h
      rfl

end Cluster

namespace Reporter

variable {S : Type}

theorem keyOf_EnsureCachingLabel (o : Object S) :
    Cluster.keyOf (EnsureCachingLabel o) = Cluster.keyOf o := rfl

theorem holdsBody_CreateResource (key : NamespacedName) (body : S)
    (inst : IBMLicenseServiceReporter) (ca route : Bool) (st : Cluster S) (o : Object S)
    (hk : Cluster.keyOf o ≠ key) (h : Cluster.holdsBody key body st) :
    Cluster.holdsBody key body (CreateResource (Cluster.config inst ca route) st o).state := by
  unfold CreateResource
  cases hs : (Cluster.config inst ca route).SetControllerReference
      (Cluster.config inst ca route).Instance o with
  | error e => exact h
  | ok o' =>
    have hk' : Cluster.keyOf o' ≠ key := by
      rw [Cluster.keyOf_SetControllerReference _ _ _ hs]; exact hk
    have := Cluster.holdsBody_Create key body st o' hk' h
    have hc2 : Cluster.client.Create st o'
        = (Cluster.config inst ca route).Client.Create st o' := rfl
    rw [hc2] at this
    simp only
    generalize (Cluster.config inst ca route).Client.Create st o' = r at this ⊢
    obtain ⟨cerr, st'⟩ := r
    cases cerr <;> exact this

theorem holdsBody_DeleteResource (key : NamespacedName) (body : S)
    (inst : IBMLicenseServiceReporter) (ca route : Bool) (st : Cluster S) (o : Object S)
    (hk : Cluster.keyOf o ≠ key) (h : Cluster.holdsBody key body st) :
    Cluster.holdsBody key body (DeleteResource (Cluster.config inst ca route) st o).state := by
  unfold DeleteResource
  have := Cluster.holdsBody_Delete key body st o hk h
  have hc2 : Cluster.client.Delete st o
      = (Cluster.config inst ca route).Client.Delete st o := rfl
  rw [hc2] at this
  generalize (Cluster.config inst ca route).Client.Delete st o = r at this ⊢
  obtain ⟨derr, st'⟩ := r
  cases derr with
  | none => exact this
  | some d =>
    simp only
    split <;> exact this

end Reporter

namespace Reporter

variable {S : Type}

theorem holdsBody_TryUpdateOrRecreateResource (key : NamespacedName) (body : S)
    (inst : IBMLicenseServiceReporter) (ca route : Bool) (st : Cluster S) (res : Object S)
    (ign : Bool) (hk : Cluster.keyOf res ≠ key) (h : Cluster.holdsBody key body st) :
    Cluster.holdsBody key body
      (TryUpdateOrRecreateResource (Cluster.config inst ca route) st res ign).state := by
  unfold TryUpdateOrRecreateResource
  simp only
  cases hown : (if res.GetOwnerReferences.length = 0 then
      (Cluster.config inst ca route).SetControllerReference
        (Cluster.config inst ca route).Instance res else .ok res) with
  | error e => exact h
  | ok res' =>
    have hk' : Cluster.keyOf res' ≠ key := by
      split at hown
      · rw [Cluster.keyOf_SetControllerReference _ _ _ hown]; exact hk
      · injection hown with hown
        rw [← hown]; exact hk
    simp only
    have hu := Cluster.holdsBody_Update key body st res' hk' h
    have hc2 : Cluster.client.Update st res'
        = (Cluster.config inst ca route).Client.Update st res' := rfl
    rw [hc2] at hu
    generalize (Cluster.config inst ca route).Client.Update st res' = r at hu ⊢
    obtain ⟨uerr, st1⟩ := r
    cases uerr with
    | none => exact hu
    | some ue =>
      simp only
      have hd := holdsBody_DeleteResource key body inst ca route st1 res' hk' hu
      have hc := holdsBody_CreateResource key body inst ca route
        (DeleteResource (Cluster.config inst ca route) st1 res').state res' hk' hd
      split
      · exact hd
      · split <;> exact hc

theorem holdsBody_RestartReporterOperandPod (key : NamespacedName) (body : S)
    (inst : IBMLicenseServiceReporter) (ca route : Bool) (shouldRun : Bool) (st : Cluster S)
    (h : Cluster.holdsBody key body st) :
    Cluster.holdsBody key body
      (RestartReporterOperandPod shouldRun (Cluster.config inst ca route) st).state := by
  unfold RestartReporterOperandPod
  cases shouldRun with
  | false => exact h
  | true =>
    simp only [Bool.not_true, Bool.false_eq_true, if_false]
    split
    · split <;> exact h
    · split
      · exact h
      · rename_i reporterPod _ _
        have hd := Cluster.holdsBody_DeletePod key body st reporterPod h
        have hc2 : Cluster.client.DeletePod st reporterPod
            = (Cluster.config inst ca route).Client.DeletePod st reporterPod := rfl
        rw [hc2] at hd
        generalize (Cluster.config inst ca route).Client.DeletePod st reporterPod = r at hd ⊢
        obtain ⟨derr, st1⟩ := r
        cases derr with
        | none => exact hd
        | some d =>
          simp only
          split <;> exact hd

/-- On the reference cluster a `ReconcileResource` that overrides the found object with the
expected one keeps the content stored under any key other than the expected object's. -/
theorem holdsBody_ReconcileResource (key : NamespacedName) (body : S)
    (inst : IBMLicenseServiceReporter) (ca route : Bool) (st : Cluster S) (expected : Object S)
    (shouldCreate : Bool)
    (checkFound : IsFoundInDesiredStateIfExistsFunc (Cluster S) S MergePatch)
    (patchFound : Option (ApplyPatchToFoundObjectFunc (Cluster S) S MergePatch))
    (run : Option (RunActionsAfterReconcile (Cluster S) S MergePatch))
    (hk : Cluster.keyOf expected ≠ key)
    (hrun : ∀ r, run = some r → ∀ b st', Cluster.holdsBody key body st' →
      Cluster.holdsBody key body (r b (Cluster.config inst ca route) st').state)
    (h : Cluster.holdsBody key body st) :
    Cluster.holdsBody key body
      (ReconcileResource (Cluster.config inst ca route) st expected shouldCreate none checkFound
        patchFound (some OverrideFoundWithExpected) run).state := by
  have hkE : Cluster.keyOf (EnsureCachingLabel expected) ≠ key := hk
  have hkEE : Cluster.keyOf (EnsureCachingLabel (EnsureCachingLabel expected)) ≠ key := hk
  have hname : (EnsureCachingLabel expected).GetName = expected.GetName := rfl
  have hns : (EnsureCachingLabel expected).GetNamespace = expected.GetNamespace := rfl
  cases hget : (Cluster.config inst ca route).Client.Get st
      ⟨expected.GetName, expected.GetNamespace⟩ with
  | error e =>
    unfold ReconcileResource
    simp only [hname, hns, hget]
    split
    · split
      · have hc := holdsBody_CreateResource key body inst ca route st
          (EnsureCachingLabel expected) hkE h
        split
        · split <;> exact hc
        · exact hc
      · exact h
    · exact h
  | ok found =>
    rcases hcheck : checkFound (Cluster.config inst ca route) found (EnsureCachingLabel expected)
      with ⟨status, cerr⟩
    have hmerge : ∀
        (_ : status.IsInDesiredState = false ∨
          found.GetLabels.lookup CachingLabelKey ≠ some CachingLabelValue)
        (_ : status.IsInDesiredState = false → status.IsPatchSufficient = true →
          patchFound = none),
        cerr = none →
        Cluster.holdsBody key body
          (ReconcileResource (Cluster.config inst ca route) st expected shouldCreate none
            checkFound patchFound (some OverrideFoundWithExpected) run).state := by
      intro hnot hnopatch hcerr
      subst hcerr
      rw [ReconcileResource_merge_path (Cluster.config inst ca route) st expected found
        shouldCreate none checkFound patchFound OverrideFoundWithExpected run status
        (EnsureCachingLabel expected) true hget hcheck hnot hnopatch rfl]
      have ht := holdsBody_TryUpdateOrRecreateResource key body inst ca route st
        (EnsureCachingLabel (EnsureCachingLabel expected)) true hkEE h
      split
      · exact ht
      · cases run with
        | none => exact ht
        | some r => exact hrun r rfl _ _ ht
    cases cerr with
    | some e =>
      rw [ReconcileResource_check_error _ _ _ _ _ _ _ _ _ _ _ _ hget hcheck]
      exact h
    | none =>
      by_cases hd : status.IsInDesiredState = true
      · by_cases hlabel : found.GetLabels.lookup CachingLabelKey = some CachingLabelValue
        · rw [ReconcileResource_idle_path _ _ _ _ _ _ _ _ _ _ _ hget hcheck hd hlabel]
          exact h
        · exact hmerge (Or.inr hlabel) (fun hf _ => by rw [hd] at hf; cases hf) rfl
      · have hd' : status.IsInDesiredState = false := by simpa using hd
        by_cases hp : status.IsPatchSufficient = true
        · cases patchFound with
          | none => exact hmerge (Or.inl hd') (fun _ _ => rfl) rfl
          | some f =>
            rw [ReconcileResource_patch_path _ _ _ _ _ _ _ _ _ _ _ hget hcheck hd' hp]
            cases f (Cluster.config inst ca route) found with
            | error e => exact h
            | ok patch => exact Cluster.holdsBody_Patch key body st found patch h
        · exact hmerge (Or.inl hd') (fun _ hp' => absurd hp' hp) rfl

end Reporter

namespace strings

theorem splitOnChar_append (sep : Char) (a b : List Char) :
    splitOnChar sep (a ++ sep :: b) = splitOnChar sep a ++ splitOnChar sep b := by
  induction a with
  | nil => simp [splitOnChar]
  | cons c cs ih =>
    rw [List.cons_append]
    by_cases hc : c = sep
    · rw [splitOnChar, if_pos hc, ih, splitOnChar, if_pos hc]; rfl
    · rw [splitOnChar, if_neg hc, ih, splitOnChar, if_neg hc]
      cases hs : splitOnChar sep cs with
      | nil => exact absurd hs (splitOnChar_ne_nil sep cs)
      | cons p ps => rfl

theorem intercalate_splitOnChar (sep : Char) (a : List Char) :
    [sep].intercalate (splitOnChar sep a) = a := by
  induction a with
  | nil => rfl
  | cons c cs ih =>
    by_cases hc : c = sep
    · rw [splitOnChar, if_pos hc]
      cases hs : splitOnChar sep cs with
      | nil => exact absurd hs (splitOnChar_ne_nil sep cs)
      | cons p ps =>
        rw [hs] at ih
        rw [← ih, hc]
        simp [List.intercalate, List.intersperse]
    · rw [splitOnChar, if_neg hc]
      cases hs : splitOnChar sep cs with
      | nil => exact absurd hs (splitOnChar_ne_nil sep cs)
      | cons p ps =>
        rw [hs] at ih
        rw [← ih]
        cases ps with
        | nil => simp [List.intercalate, List.intersperse]
        | cons q qs => simp [List.intercalate, List.intersperse]

theorem cutLast_eq_none (sep : Char) (l : List Char) : cutLast sep l = none ↔ sep ∉ l := by
  induction l with
  | nil => simp [cutLast]
  | cons c cs ih =>
    rw [cutLast]
    cases hcut : cutLast sep cs with
    | some p =>
      have : ¬ sep ∉ cs := fun h => by rw [ih.2 h] at hcut; cases hcut
      simp only [List.mem_cons, not_or]
      constructor
      · intro h; cases h
      · intro h; exact absurd h.2 this
    | none =>
      have hcs : sep ∉ cs := ih.1 hcut
      by_cases hc : c = sep
      · simp [hc]
      · simp only [if_neg hc, true_iff, List.mem_cons, not_or]
        exact ⟨fun h => hc h.symm, hcs⟩

theorem cutLast_eq_some (sep : Char) (l before after : List Char)
    (h : cutLast sep l = some (before, after)) :
    l = before ++ sep :: after ∧ sep ∉ after := by
  induction l generalizing before with
  | nil => simp [cutLast] at h
  | cons c cs ih =>
    rw [cutLast] at h
    cases hcut : cutLast sep cs with
    | some p =>
      obtain ⟨b, a⟩ := p
      rw [hcut] at h
      simp only [Option.some.injEq, Prod.mk.injEq] at h
      obtain ⟨hb, ha⟩ := h
      subst hb; subst ha
      obtain ⟨h1, h2⟩ := ih b hcut
      exact ⟨by rw [List.cons_append, ← h1], h2⟩
    | none =>
      rw [hcut] at h
      by_cases hc : c = sep
      · simp only [if_pos hc, Option.some.injEq, Prod.mk.injEq] at h
        obtain ⟨hb, ha⟩ := h
        subst hb; subst ha
        exact ⟨by simp [hc], (cutLast_eq_none sep cs).1 hcut⟩
      · simp [if_neg hc] at h

/-- The pieces of a text cut at the single occurrence of the separator. -/
theorem splitOnChar_count_one (sep : Char) (l : List Char) (h : l.count sep = 1) :
    splitOnChar sep l = [l.takeWhile (· ≠ sep), (l.dropWhile (· ≠ sep)).tail] := by
  induction l with
  | nil => simp at h
  | cons c cs ih =>
    by_cases hc : c = sep
    · subst hc
      have hcs : c ∉ cs := by
        rw [List.count_cons_self] at h
        exact List.count_eq_zero.1 (by omega)
      rw [splitOnChar, if_pos rfl, splitOnChar_of_not_mem _ _ hcs]
      simp
    · have hc' : ¬ (c == sep) = true := by simpa using hc
      rw [List.count_cons, if_neg hc', Nat.add_zero] at h
      rw [splitOnChar, if_neg hc, ih h]
      simp [hc]

end strings

namespace v1alpha1

open strings

/-- The pieces of an image reference that has a last `/`: the path pieces end with the last
segment, and joining the others gives back the text before the last `/`. -/
theorem Split_of_cutLast (s : String) (registry segment : List Char)
    (h : cutLast '/' s.data = some (registry, segment)) :
    ¬ (Split s '/').length < 2 ∧ (Split s '/').getLast?.getD "" = ⟨segment⟩ ∧
      Join (Split s '/').dropLast "/" = ⟨registry⟩ := by
  obtain ⟨hs, _⟩ := cutLast_eq_some _ _ _ _ h
  have hsplit : Split s '/' = (splitOnChar '/' registry).map String.mk ++ [⟨segment⟩] := by
    rw [Split, hs, splitOnChar_append, splitOnChar_of_not_mem _ segment (by assumption)]
    simp
  refine ⟨?_, ?_, ?_⟩
  · rw [Split, List.length_map, splitOnChar_length]; 
    have : 0 < s.data.count '/' := by
      rw [hs]; exact List.count_pos_iff.2 (by simp)
    omega
  · rw [hsplit]; simp
  · rw [hsplit, List.dropLast_concat, Join]
    have : List.map String.data (List.map String.mk (splitOnChar '/' registry))
        = splitOnChar '/' registry := by
      rw [List.map_map]; exact List.map_id _
    rw [this]
    exact congrArg String.mk (intercalate_splitOnChar '/' registry)

/-- The split of the last segment on its separator: two pieces exactly when the separator
occurs once, and then the text before it and the text after it. -/
theorem Split_segment (segment : List Char) (sep : Char) :
    ((Split ⟨segment⟩ sep).length ≠ 2 ↔ segment.count sep ≠ 1) ∧
    (segment.count sep = 1 → Split ⟨segment⟩ sep =
      [⟨segment.takeWhile (· ≠ sep)⟩, ⟨(segment.dropWhile (· ≠ sep)).tail⟩]) := by
  constructor
  · rw [Split, List.length_map, splitOnChar_length]
    show List.count sep segment + 1 ≠ 2 ↔ List.count sep segment ≠ 1
    omega
  · intro h
    rw [Split, splitOnChar_count_one _ _ h]; rfl

/-- A reference that the specification's parser accepts is parsed by
`GetImageParametersFromEnv` into the same three parts, without an error. -/
theorem GetImageParametersFromEnv_of_some (Getenv : String → String) (container : Container)
    (envVariableName registry name tag : String)
    (h : imageReferenceSpec (Getenv envVariableName) = some (registry, name, tag)) :
    container.GetImageParametersFromEnv Getenv envVariableName =
      ({ container with ImageRegistry := registry, ImageName := name,
                        ImageTagPostfix := tag }, none) := by
  unfold imageReferenceSpec at h
  cases hcut : cutLast '/' (Getenv envVariableName).data with
  | none => rw [hcut] at h; cases h
  | some p =>
    obtain ⟨reg, segment⟩ := p
    rw [hcut] at h
    obtain ⟨h1, h2, h3⟩ := Split_of_cutLast _ _ _ hcut
    simp only at h
    unfold Container.GetImageParametersFromEnv
    simp only [if_neg h1, h2, h3, Contains, decide_eq_true_eq]
    by_cases hat : '@' ∈ segment
    · rw [if_pos hat] at h
      rw [if_pos hat]
      by_cases hc : segment.count '@' = 1
      · rw [if_pos hc] at h
        simp only [Option.some.injEq, Prod.mk.injEq] at h
        obtain ⟨hr, hn, ht⟩ := h
        rw [if_neg (fun hne => ((Split_segment segment '@').1.1 hne) hc),
          (Split_segment segment '@').2 hc]
        subst hr; subst hn; subst ht
        simp
      · rw [if_neg hc] at h; cases h
    · rw [if_neg hat] at h
      rw [if_neg hat]
      by_cases hc : segment.count ':' = 1
      · rw [if_pos hc] at h
        simp only [Option.some.injEq, Prod.mk.injEq] at h
        obtain ⟨hr, hn, ht⟩ := h
        rw [if_neg (fun hne => ((Split_segment segment ':').1.1 hne) hc),
          (Split_segment segment ':').2 hc]
        subst hr; subst hn; subst ht
        simp
      · rw [if_neg hc] at h; cases h

/-- A reference that the specification's parser rejects is rejected by
`GetImageParametersFromEnv`, and the container is left as it was. -/
theorem GetImageParametersFromEnv_of_none (Getenv : String → String) (container : Container)
    (envVariableName : String) (h : imageReferenceSpec (Getenv envVariableName) = none) :
    (container.GetImageParametersFromEnv Getenv envVariableName).1 = container ∧
      (container.GetImageParametersFromEnv Getenv envVariableName).2 ≠ none := by
  unfold imageReferenceSpec at h
  cases hcut : cutLast '/' (Getenv envVariableName).data with
  | none =>
    have hlen : (Split (Getenv envVariableName) '/').length < 2 := by
      rw [Split, List.length_map, splitOnChar_length,
        List.count_eq_zero.2 ((cutLast_eq_none _ _).1 hcut)]
      omega
    unfold Container.GetImageParametersFromEnv
    simp only [if_pos hlen]
    exact ⟨trivial, by simp⟩
  | some p =>
    obtain ⟨reg, segment⟩ := p
    rw [hcut] at h
    obtain ⟨h1, h2, h3⟩ := Split_of_cutLast _ _ _ hcut
    simp only at h
    unfold Container.GetImageParametersFromEnv
    simp only [if_neg h1, h2, h3, Contains, decide_eq_true_eq]
    by_cases hat : '@' ∈ segment
    · rw [if_pos hat] at h
      rw [if_pos hat]
      by_cases hc : segment.count '@' = 1
      · rw [if_pos hc] at h; cases h
      · rw [if_pos ((Split_segment segment '@').1.2 hc)]
        exact ⟨rfl, by simp⟩
    · rw [if_neg hat] at h
      rw [if_neg hat]
      by_cases hc : segment.count ':' = 1
      · rw [if_pos hc] at h; cases h
      · rw [if_pos ((Split_segment segment ':').1.2 hc)]
        exact ⟨rfl, by simp⟩

end v1alpha1

namespace strings

theorem cutLast_append (sep : Char) (a b : List Char) (h : sep ∉ b) :
    cutLast sep (a ++ sep :: b) = some (a, b) := by
  induction a with
  | nil =>
    rw [List.nil_append, cutLast, (cutLast_eq_none sep b).2 h, if_pos rfl]
  | cons c cs ih =>
    rw [List.cons_append, cutLast, ih]

theorem takeWhile_append_sep (sep : Char) (a b : List Char) (h : sep ∉ a) :
    (a ++ sep :: b).takeWhile (· ≠ sep) = a ∧
      ((a ++ sep :: b).dropWhile (· ≠ sep)).tail = b ∧
      (sep ∉ b → (a ++ sep :: b).count sep = 1) := by
  induction a with
  | nil =>
    refine ⟨by simp, by simp, fun hb => ?_⟩
    rw [List.nil_append, List.count_cons_self, List.count_eq_zero.2 hb]
  | cons c cs ih =>
    have hc : c ≠ sep := fun hcs => h (hcs ▸ List.mem_cons_self _ _)
    have hcs : sep ∉ cs := fun hm => h (List.mem_cons_of_mem _ hm)
    obtain ⟨h1, h2, h3⟩ := ih hcs
    have hc' : ¬ (c == sep) = true := by simpa using hc
    have hd : decide (c ≠ sep) = true := by simpa using hc
    refine ⟨?_, ?_, ?_⟩
    · simp only [List.cons_append, List.takeWhile_cons, hd, if_true, h1]
    · simp only [List.cons_append, List.dropWhile_cons, hd, if_true, h2]
    · intro hb
      rw [List.cons_append, List.count_cons, if_neg hc', h3 hb]

theorem count_one_parts (sep : Char) (l : List Char) (h : l.count sep = 1) :
    l = l.takeWhile (· ≠ sep) ++ sep :: (l.dropWhile (· ≠ sep)).tail ∧
      sep ∉ l.takeWhile (· ≠ sep) ∧ sep ∉ (l.dropWhile (· ≠ sep)).tail := by
  induction l with
  | nil => simp at h
  | cons c cs ih =>
    by_cases hc : c = sep
    · subst hc
      have hcs : c ∉ cs := by
        rw [List.count_cons_self] at h
        exact List.count_eq_zero.1 (by omega)
      simp [hcs]
    · have hc' : ¬ (c == sep) = true := by simpa using hc
      rw [List.count_cons, if_neg hc', Nat.add_zero] at h
      obtain ⟨h1, h2, h3⟩ := ih h
      refine ⟨?_, ?_, ?_⟩
      · rw [List.takeWhile_cons, List.dropWhile_cons]
        simp only [ne_eq, hc, not_false_eq_true, decide_True, if_true, List.cons_append]
        exact congrArg _ h1
      · rw [List.takeWhile_cons]
        simp only [ne_eq, hc, not_false_eq_true, decide_True, if_true, List.mem_cons, not_or]
        exact ⟨fun hh => hc hh.symm, h2⟩
      · rw [List.dropWhile_cons]
        simp only [ne_eq, hc, not_false_eq_true, decide_True, if_true]
        exact h3

end strings

namespace v1alpha1

open strings

/-- What the reference parser accepts: a text `registry/name@digest` or `registry/name:tag`
whose name and tag hold neither `/` nor `@`, nor `:` in the tag form. -/
theorem imageReferenceSpec_eq_some_iff (s registry name tag : String) :
    imageReferenceSpec s = some (registry, name, tag) ↔
      (s = registry ++ "/" ++ name ++ "@" ++ tag ∧
        '/' ∉ name.data ++ tag.data ∧ '@' ∉ name.data ++ tag.data) ∨
      (s = registry ++ "/" ++ name ++ ":" ++ tag ∧
        '/' ∉ name.data ++ tag.data ∧ '@' ∉ name.data ++ tag.data ∧
        ':' ∉ name.data ++ tag.data) := by
  have hform : ∀ sep : Char, registry ++ "/" ++ name ++ String.singleton sep ++ tag =
      ⟨registry.data ++ '/' :: (name.data ++ sep :: tag.data)⟩ := by
    intro sep
    apply String.ext
    simp [String.data_append, String.singleton]
  have hat : registry ++ "/" ++ name ++ "@" ++ tag =
      ⟨registry.data ++ '/' :: (name.data ++ '@' :: tag.data)⟩ := hform '@'
  have hcolon : registry ++ "/" ++ name ++ ":" ++ tag =
      ⟨registry.data ++ '/' :: (name.data ++ ':' :: tag.data)⟩ := hform ':'
  rw [hat, hcolon]
  constructor
  · intro h
    unfold imageReferenceSpec at h
    cases hcut : cutLast '/' s.data with
    | none => rw [hcut] at h; cases h
    | some p =>
      obtain ⟨reg, segment⟩ := p
      rw [hcut] at h
      obtain ⟨hs, hseg⟩ := cutLast_eq_some _ _ _ _ hcut
      simp only at h
      by_cases hmem : '@' ∈ segment
      · rw [if_pos hmem] at h
        by_cases hc : segment.count '@' = 1
        · rw [if_pos hc] at h
          simp only [Option.some.injEq, Prod.mk.injEq] at h
          obtain ⟨hr, hn, ht⟩ := h
          obtain ⟨h1, h2, h3⟩ := count_one_parts _ _ hc
          subst hr; subst hn; subst ht
          left
          refine ⟨?_, ?_, ?_⟩
          · apply String.ext
            show s.data = reg ++ '/' :: (_ ++ '@' :: _)
            rw [← h1]; exact hs
          · intro hm
            apply hseg
            rw [h1]
            simp only [List.mem_append, List.mem_cons] at hm ⊢
            tauto
          · simp only [List.mem_append, not_or]
            exact ⟨h2, h3⟩
        · rw [if_neg hc] at h; cases h
      · rw [if_neg hmem] at h
        by_cases hc : segment.count ':' = 1
        · rw [if_pos hc] at h
          simp only [Option.some.injEq, Prod.mk.injEq] at h
          obtain ⟨hr, hn, ht⟩ := h
          obtain ⟨h1, h2, h3⟩ := count_one_parts _ _ hc
          subst hr; subst hn; subst ht
          right
          refine ⟨?_, ?_, ?_, ?_⟩
          · apply String.ext
            show s.data = reg ++ '/' :: (_ ++ ':' :: _)
            rw [← h1]; exact hs
          · intro hm
            apply hseg
            rw [h1]
            simp only [List.mem_append, List.mem_cons] at hm ⊢
            tauto
          · intro hm
            apply hmem
            rw [h1]
            simp only [List.mem_append, List.mem_cons] at hm ⊢
            tauto
          · simp only [List.mem_append, not_or]
            exact ⟨h2, h3⟩
        · rw [if_neg hc] at h; cases h
  · intro h
    rcases h with ⟨hs, hslash, hat'⟩ | ⟨hs, hslash, hat', hcol⟩
    · simp only [List.mem_append, not_or] at hslash hat'
      have hseg : '/' ∉ name.data ++ '@' :: tag.data := by
        simp only [List.mem_append, List.mem_cons, not_or]
        exact ⟨hslash.1, by decide, hslash.2⟩
      obtain ⟨h1, h2, h3⟩ := takeWhile_append_sep '@' name.data tag.data hat'.1
      unfold imageReferenceSpec
      rw [hs]
      simp only [cutLast_append _ _ _ hseg]
      rw [if_pos (show '@' ∈ name.data ++ '@' :: tag.data by simp), if_pos (h3 hat'.2), h1, h2]
    · simp only [List.mem_append, not_or] at hslash hat' hcol
      have hseg : '/' ∉ name.data ++ ':' :: tag.data := by
        simp only [List.mem_append, List.mem_cons, not_or]
        exact ⟨hslash.1, by decide, hslash.2⟩
      have hno : '@' ∉ name.data ++ ':' :: tag.data := by
        simp only [List.mem_append, List.mem_cons, not_or]
        exact ⟨hat'.1, by decide, hat'.2⟩
      obtain ⟨h1, h2, h3⟩ := takeWhile_append_sep ':' name.data tag.data hcol.1
      unfold imageReferenceSpec
      rw [hs]
      simp only [cutLast_append _ _ _ hseg]
      rw [if_neg hno, if_pos (h3 hcol.2), h1, h2]

end v1alpha1

namespace Reporter

section Slices

variable {T : Type}

/-- The first loop of `UnorderedContainsSliceWithHashFunc`: the hashes of the needed elements
are the keys, each mapped to false. -/
theorem lookup_neededMap (hashFunc : T → String) (needed : List T) (m : GoMap String Bool)
    (k : String) :
    (needed.foldl (fun neededMap elem => neededMap.insert (hashFunc elem) false) m).lookup k =
      if ∃ e ∈ needed, hashFunc e = k then some false else m.lookup k := by
  induction needed generalizing m with
  | nil => simp
  | cons e t ih =>
    rw [List.foldl_cons, ih]
    by_cases ht : ∃ x ∈ t, hashFunc x = k
    · have : ∃ x ∈ e :: t, hashFunc x = k := by
        obtain ⟨x, hx, hk⟩ := ht
        exact ⟨x, List.mem_cons_of_mem _ hx, hk⟩
      rw [if_pos ht, if_pos this]
    · rw [if_neg ht]
      by_cases he : hashFunc e = k
      · rw [if_pos ⟨e, List.mem_cons_self _ _, he⟩, ← he, AList.lookup_insert]
      · have : ¬ ∃ x ∈ e :: t, hashFunc x = k := by
          rintro ⟨x, hx, hk⟩
          rcases List.mem_cons.1 hx with rfl | hx
          · exact he hk
          · exact ht ⟨x, hx, hk⟩
        rw [if_neg this, AList.lookup_insert_ne (fun h => he h.symm)]

/-- The second loop of `UnorderedContainsSliceWithHashFunc`: a key is kept, and its value
becomes true when it is the hash of a checked element. -/
theorem lookup_checkedMap (hashFunc : T → String) (checked : List T) (m : GoMap String Bool)
    (k : String) :
    (checked.foldl
      (fun neededMap elem =>
        if (neededMap.lookup (hashFunc elem)).isSome then neededMap.insert (hashFunc elem) true
        else neededMap) m).lookup k =
      (m.lookup k).map fun v => v || decide (∃ c ∈ checked, hashFunc c = k) := by
  induction checked generalizing m with
  | nil => cases h : m.lookup k <;> simp [h]
  | cons c t ih =>
    rw [List.foldl_cons, ih]
    by_cases hc : hashFunc c = k
    · subst hc
      cases hm : m.lookup (hashFunc c) with
      | none => simp [hm]
      | some v => simp [hm, AList.lookup_insert]
    · have hdec : decide (∃ x ∈ c :: t, hashFunc x = k) = decide (∃ x ∈ t, hashFunc x = k) := by
        apply decide_eq_decide.2
        constructor
        · rintro ⟨x, hx, hk⟩
          rcases List.mem_cons.1 hx with rfl | hx
          · exact absurd hk hc
          · exact ⟨x, hx, hk⟩
        · rintro ⟨x, hx, hk⟩
          exact ⟨x, List.mem_cons_of_mem _ hx, hk⟩
      rw [hdec]
      by_cases hs : (m.lookup (hashFunc c)).isSome
      · rw [if_pos hs, AList.lookup_insert_ne (fun h => hc h.symm)]
      · rw [if_neg hs]

/-- The function `UnorderedContainsSliceWithHashFunc` answers true iff the hash of every needed
element is the hash of some checked element. -/
theorem UnorderedContainsSliceWithHashFunc_iff [DecidableEq T] (checked needed : List T)
    (hashFunc : T → String) :
    UnorderedContainsSliceWithHashFunc checked needed hashFunc = true ↔
      ∀ e ∈ needed, ∃ c ∈ checked, hashFunc c = hashFunc e := by
  unfold UnorderedContainsSliceWithHashFunc
  simp only
  rw [List.all_eq_true]
  constructor
  · intro h e he
    by_contra hno
    have hl := lookup_checkedMap hashFunc checked
      (needed.foldl (fun neededMap elem => neededMap.insert (hashFunc elem) false) ∅)
      (hashFunc e)
    rw [lookup_neededMap, if_pos ⟨e, he, rfl⟩] at hl
    simp only [Option.map_some', Bool.false_or, decide_eq_false hno] at hl
    have hmem := AList.mem_lookup_iff.1 hl
    have := h _ hmem
    simp at this
  · intro h x hx
    obtain ⟨k, v⟩ := x
    have hl := AList.mem_lookup_iff.2 hx
    rw [lookup_checkedMap, lookup_neededMap] at hl
    by_cases hk : ∃ e ∈ needed, hashFunc e = k
    · obtain ⟨e, he, hek⟩ := hk
      obtain ⟨c, hc, hce⟩ := h e he
      have hex : ∃ c ∈ checked, hashFunc c = k := ⟨c, hc, hce.trans hek⟩
      rw [if_pos ⟨e, he, hek⟩] at hl
      simp only [Option.map_some', Bool.false_or, decide_eq_true hex, Option.some.injEq] at hl
      exact Option.some.inj hl.symm
    · rw [if_neg hk] at hl
      simp at hl

end Slices

end Reporter

namespace Reporter

/-- Semantic equality of two maps is equality of their lookups. -/
theorem GoMap_DeepEqual_iff {K V : Type} [DecidableEq K] [DecidableEq V] (a b : GoMap K V) :
    GoMap.DeepEqual a b = true ↔ ∀ k, a.lookup k = b.lookup k := by
  have hpairs : GoMap.DeepEqual a b = true ↔
      a.entries.length = b.entries.length ∧
        ∀ k v, a.lookup k = some v → b.lookup k = some v := by
    unfold GoMap.DeepEqual
    rw [Bool.and_eq_true, decide_eq_true_eq]
    exact and_congr Iff.rfl (MapHasAllPairsFromOther_iff b a)
  rw [hpairs]
  constructor
  · rintro ⟨hlen, hsub⟩ k
    have hkeys : a.keys ⊆ b.keys := by
      intro x hx
      obtain ⟨v, hv⟩ := Option.isSome_iff_exists.1 (AList.lookup_isSome.2 hx)
      exact AList.lookup_isSome.1 (by rw [hsub x v hv]; rfl)
    have hperm : a.keys.Perm b.keys :=
      (List.subperm_of_subset a.keys_nodup hkeys).perm_of_length_le (by
        show (b.entries.map Sigma.fst).length ≤ (a.entries.map Sigma.fst).length
        rw [List.length_map, List.length_map, hlen])
    cases ha : a.lookup k with
    | some v => exact (hsub k v ha).symm
    | none =>
      have hk : k ∉ a.keys := fun h => by
        have := AList.lookup_isSome.2 h
        rw [ha] at this
        cases this
      have hkb : k ∉ b.keys := fun h => hk (hperm.mem_iff.2 h)
      exact (AList.lookup_eq_none.2 hkb).symm
  · intro h
    refine ⟨?_, fun k v hv => by rw [← h k]; exact hv⟩
    have hperm : a.entries.Perm b.entries := by
      rw [List.perm_ext_iff_of_nodup a.nodupKeys.nodup b.nodupKeys.nodup]
      rintro ⟨k, v⟩
      rw [← AList.mem_lookup_iff, ← AList.mem_lookup_iff, h k]
    exact hperm.length_eq

end Reporter

namespace strings

theorem lessChars_iff (a b : List Char) : lessChars a b = true ↔ a < b := by
  induction a generalizing b with
  | nil =>
    cases b with
    | nil => simp [lessChars]
    | cons b bs => simp only [lessChars, true_iff]; exact List.Lex.nil
  | cons a as ih =>
    cases b with
    | nil => simp [lessChars]
    | cons b bs =>
      have hlt : ∀ x y : Char, x.toNat < y.toNat ↔ x < y := fun _ _ => Iff.rfl
      simp only [lessChars]
      by_cases h1 : a < b
      · rw [if_pos ((hlt a b).2 h1)]
        simp only [true_iff]
        exact List.Lex.rel h1
      · rw [if_neg (fun h => h1 ((hlt a b).1 h))]
        by_cases h2 : b < a
        · rw [if_pos ((hlt b a).2 h2)]
          simp only [Bool.false_eq_true, false_iff]
          intro h
          cases h with
          | rel h => exact h1 h
          | cons h => exact lt_irrefl _ h2
        · rw [if_neg (fun h => h2 ((hlt b a).1 h))]
          have hab : a = b := le_antisymm (not_lt.1 h2) (not_lt.1 h1)
          subst hab
          rw [ih]
          constructor
          · intro h; exact List.Lex.cons h
          · intro h
            cases h with
            | rel h => exact absurd h h1
            | cons h => exact h

/-- The embedded comparison is the order of strings. -/
theorem Less_iff (a b : String) : Less a b = true ↔ a < b := by
  rw [Less, lessChars_iff, String.lt_iff_toList_lt]; rfl

theorem Less_false_iff (a b : String) : Less b a = false ↔ a ≤ b := by
  rw [← not_lt, ← Less_iff]; simp

end strings

namespace slices

/-- The sorted list is in ascending order. -/
theorem Sort_sorted (l : List String) : (slices.Sort l).Sorted (· ≤ ·) := by
  have htotal : IsTotal String (fun a b => strings.Less b a = false) :=
    ⟨fun a b => by simp only [strings.Less_false_iff]; exact le_total a b⟩
  have htrans : IsTrans String (fun a b => strings.Less b a = false) :=
    ⟨fun a b c => by simp only [strings.Less_false_iff]; exact le_trans⟩
  have h := List.sorted_insertionSort (fun a b => strings.Less b a = false) l
  exact List.Pairwise.imp (fun {a b} hab => (strings.Less_false_iff a b).1 hab) h

/-- The sorted list is a rearrangement of the given one. -/
theorem Sort_perm (l : List String) : (slices.Sort l).Perm l :=
  List.perm_insertionSort _ _

theorem mem_Sort (l : List String) (a : String) : a ∈ slices.Sort l ↔ a ∈ l :=
  (Sort_perm l).mem_iff

end slices

theorem GoSlice.append_append {α : Type} (s : GoSlice α) (a b : List α) :
    GoSlice.append (GoSlice.append s a) b = GoSlice.append s (a ++ b) := by
  cases s with
  | none =>
    cases a with
    | nil => cases b <;> rfl
    | cons x xs => rfl
  | some l => simp [GoSlice.append]

theorem GoSlice.getD_append {α : Type} (s : GoSlice α) (a : List α) :
    (GoSlice.append s a).getD [] = s.getD [] ++ a := by
  cases s with
  | none => cases a <;> rfl
  | some l => rfl

namespace Scanner

theorem getAllMapKeys_eq (m : GoMap String Unit) :
    getAllMapKeys m = GoSlice.append none m.keys := by
  unfold getAllMapKeys
  have h : ∀ (l : List String) (acc : GoSlice String),
      l.foldl (fun keys k => GoSlice.append keys [k]) acc = GoSlice.append acc l := by
    intro l
    induction l with
    | nil => intro acc; cases acc <;> simp [GoSlice.append]
    | cons k t ih =>
      intro acc
      rw [List.foldl_cons, ih, GoSlice.append_append]
      rfl
  exact h _ _

theorem getAllMapKeys_getD (m : GoMap String Unit) : (getAllMapKeys m).getD [] = m.keys := by
  rw [getAllMapKeys_eq, GoSlice.getD_append]; rfl

end Scanner

namespace Scanner

/-- The first loop of `getScanNamespaces`: it stops at an entry that holds `*` and does not
end with it or holds it more than once; otherwise no entry is such, the wildcards are the
entries with `*`, in order, and the set gains the entries without `*`. -/
theorem separateNamespaces_spec (l wildcards : List String) (set : GoMap String Unit) :
    (∀ ns, separateNamespaces l wildcards set = .error ns →
      ns ∈ l ∧ '*' ∈ ns.data ∧ (ns.data.getLast? ≠ some '*' ∨ 1 < ns.data.count '*')) ∧
    (∀ wildcards' set', separateNamespaces l wildcards set = .ok (wildcards', set') →
      (∀ ns ∈ l, ¬ ('*' ∈ ns.data ∧
        (ns.data.getLast? ≠ some '*' ∨ 1 < ns.data.count '*'))) ∧
      wildcards' = wildcards ++ l.filter (fun ns => strings.Contains ns '*') ∧
      ∀ k, k ∈ set'.keys ↔ k ∈ set.keys ∨ (k ∈ l ∧ '*' ∉ k.data)) := by
  induction l generalizing wildcards set with
  | nil =>
    refine ⟨fun ns h => by simp [separateNamespaces] at h, fun w s h => ?_⟩
    simp only [separateNamespaces, Except.ok.injEq, Prod.mk.injEq] at h
    obtain ⟨hw, hs⟩ := h
    subst hw; subst hs
    simp
  | cons ns rest ih =>
    by_cases hstar : '*' ∈ ns.data
    · have hc : strings.Contains ns '*' = true := by simpa [strings.Contains] using hstar
      by_cases hbad : ns.data.getLast? ≠ some '*' ∨ 1 < ns.data.count '*'
      · have hcond : (!strings.HasSuffix ns '*' || decide (ns.data.count '*' > 1)) = true := by
          simp only [strings.HasSuffix, Bool.or_eq_true, Bool.not_eq_true', decide_eq_false_iff_not,
            decide_eq_true_eq]
          exact hbad
        rw [separateNamespaces, if_pos hc, if_pos hcond]
        refine ⟨fun n h => ?_, fun w s h => by cases h⟩
        simp only [Except.error.injEq] at h
        subst h
        exact ⟨List.mem_cons_self _ _, hstar, hbad⟩
      · have hcond : ¬ (!strings.HasSuffix ns '*' || decide (ns.data.count '*' > 1)) = true := by
          simp only [strings.HasSuffix, Bool.or_eq_true, Bool.not_eq_true', decide_eq_false_iff_not,
            decide_eq_true_eq]
          exact hbad
        rw [separateNamespaces, if_pos hc, if_neg hcond]
        obtain ⟨ih1, ih2⟩ := ih (wildcards ++ [ns]) set
        refine ⟨fun n h => ?_, fun w s h => ?_⟩
        · obtain ⟨h1, h2⟩ := ih1 n h
          exact ⟨List.mem_cons_of_mem _ h1, h2⟩
        · obtain ⟨h1, h2, h3⟩ := ih2 w s h
          refine ⟨?_, ?_, ?_⟩
          · intro n hn
            rcases List.mem_cons.1 hn with rfl | hn
            · exact fun h => hbad h.2
            · exact h1 n hn
          · rw [h2, List.filter_cons, if_pos hc, List.append_assoc]; rfl
          · intro k
            rw [h3 k]
            constructor
            · rintro (h | ⟨h, h'⟩)
              · exact Or.inl h
              · exact Or.inr ⟨List.mem_cons_of_mem _ h, h'⟩
            · rintro (h | ⟨h, h'⟩)
              · exact Or.inl h
              · rcases List.mem_cons.1 h with rfl | h
                · exact absurd hstar h'
                · exact Or.inr ⟨h, h'⟩
    · have hc : ¬ strings.Contains ns '*' = true := by simpa [strings.Contains] using hstar
      rw [separateNamespaces, if_neg hc]
      obtain ⟨ih1, ih2⟩ := ih wildcards (set.insert ns ())
      refine ⟨fun n h => ?_, fun w s h => ?_⟩
      · obtain ⟨h1, h2⟩ := ih1 n h
        exact ⟨List.mem_cons_of_mem _ h1, h2⟩
      · obtain ⟨h1, h2, h3⟩ := ih2 w s h
        refine ⟨?_, ?_, ?_⟩
        · intro n hn
          rcases List.mem_cons.1 hn with rfl | hn
          · exact fun h => hstar h.1
          · exact h1 n hn
        · rw [h2, List.filter_cons, if_neg hc]
        · intro k
          have hins : k ∈ (AList.insert ns () set).keys ↔ k = ns ∨ k ∈ set.keys :=
            AList.mem_insert set
          rw [h3 k, hins, List.mem_cons]
          constructor
          · rintro ((h | h) | ⟨h, h'⟩)
            · subst h; exact Or.inr ⟨Or.inl rfl, hstar⟩
            · exact Or.inl h
            · exact Or.inr ⟨Or.inr h, h'⟩
          · rintro (h | ⟨h | h, h'⟩)
            · exact Or.inl (Or.inr h)
            · exact Or.inl (Or.inl h)
            · exact Or.inr ⟨h, h'⟩

end Scanner

namespace regexp

/-- On a non-empty name without a line feed, the pattern of a wildcard finds a non-empty text
exactly when the name starts with the literal. -/
theorem FindStringLiteralPrefix_ne_empty (literal s : String) (hs : s ≠ "")
    (hline : '\n' ∉ s.data) :
    FindStringLiteralPrefix literal s ≠ "" ↔ literal.data <+: s.data := by
  unfold FindStringLiteralPrefix
  by_cases hp : literal.data <+: s.data
  · rw [if_pos (List.isPrefixOf_iff_prefix.2 hp)]
    simp only [hp, iff_true]
    intro h
    have hd := congrArg String.data h
    simp only [List.append_eq_nil] at hd
    obtain ⟨h1, h2⟩ := hd
    rw [h1, List.length_nil, List.drop_zero] at h2
    have hall : s.data.takeWhile (· ≠ '\n') = s.data := by
      rw [List.takeWhile_eq_self_iff]
      intro c hc
      simp only [ne_eq, decide_not, Bool.not_eq_true', decide_eq_false_iff_not]
      exact fun hcn => hline (hcn ▸ hc)
    rw [hall] at h2
    exact hs (String.ext h2)
  · rw [if_neg (fun h => hp (List.isPrefixOf_iff_prefix.1 h))]
    simp [hp]

end regexp

namespace Scanner

theorem mem_keys_foldl_insert_if (p : String → Prop) [DecidablePred p]
    (namespaces : List String) (init : GoMap String Unit) (k : String) :
    k ∈ (namespaces.foldl (fun set n => if p n then set.insert n () else set) init).keys ↔
      k ∈ init.keys ∨ (k ∈ namespaces ∧ p k) := by
  induction namespaces generalizing init with
  | nil => simp
  | cons n t ih =>
    rw [List.foldl_cons, ih]
    by_cases hp : p n
    · rw [if_pos hp]
      have hins : k ∈ (AList.insert n () init).keys ↔ k = n ∨ k ∈ init.keys :=
        AList.mem_insert init
      rw [hins, List.mem_cons]
      constructor
      · rintro ((h | h) | ⟨h, h'⟩)
        · subst h; exact Or.inr ⟨Or.inl rfl, hp⟩
        · exact Or.inl h
        · exact Or.inr ⟨Or.inr h, h'⟩
      · rintro (h | ⟨h | h, h'⟩)
        · exact Or.inl (Or.inr h)
        · exact Or.inl (Or.inl h)
        · exact Or.inr ⟨h, h'⟩
    · rw [if_neg hp, List.mem_cons]
      constructor
      · rintro (h | ⟨h, h'⟩)
        · exact Or.inl h
        · exact Or.inr ⟨Or.inr h, h'⟩
      · rintro (h | ⟨h | h, h'⟩)
        · exact Or.inl h
        · subst h; exact absurd h' hp
        · exact Or.inr ⟨h, h'⟩

/-- The set that `getNamespacesFromWildcards` builds: the cluster namespaces for which the
pattern of some wildcard finds a non-empty text. -/
theorem mem_keys_wildcards (namespaces wildcards : List String) (init : GoMap String Unit)
    (k : String) :
    k ∈ (wildcards.foldl
        (fun scanNamespacesSet wildcard =>
          namespaces.foldl
            (fun scanNamespacesSet namespaceName =>
              if regexp.FindStringLiteralPrefix ⟨wildcard.data.dropLast⟩ namespaceName ≠ "" then
                scanNamespacesSet.insert namespaceName ()
              else scanNamespacesSet)
            scanNamespacesSet)
        init).keys ↔
      k ∈ init.keys ∨ (k ∈ namespaces ∧
        ∃ w ∈ wildcards, regexp.FindStringLiteralPrefix ⟨w.data.dropLast⟩ k ≠ "") := by
  induction wildcards generalizing init with
  | nil => simp
  | cons w t ih =>
    rw [List.foldl_cons, ih,
      mem_keys_foldl_insert_if (fun n => regexp.FindStringLiteralPrefix ⟨w.data.dropLast⟩ n ≠ "")]
    simp only [List.mem_cons, exists_eq_or_imp]
    tauto

/-- The value of `getScanNamespaces` when the first loop accepts the list and the namespaces
of the cluster can be listed. -/
theorem getScanNamespaces_of_ok (namespaces cluster wildcards : List String)
    (set : GoMap String Unit) (hne : namespaces ≠ [])
    (hsep : separateNamespaces namespaces [] ∅ = .ok (wildcards, set)) :
    getScanNamespaces namespaces (.ok cluster) =
      ((GoSlice.append
          (if wildcards.length > 0 then (getNamespacesFromWildcards (.ok cluster) wildcards).1
            else none)
          set.keys).map slices.Sort, none) := by
  have hlen : ¬ namespaces.length = 0 := fun h => hne (List.length_eq_zero.1 h)
  unfold getScanNamespaces
  rw [if_neg hlen, hsep]
  simp only [getAllMapKeys_getD]
  by_cases hw : wildcards.length > 0
  · simp only [if_pos hw, getNamespacesFromWildcards]
  · simp only [if_neg hw]

end Scanner

namespace strings

theorem splitOnChar_head (sep : Char) (l : List Char) :
    (splitOnChar sep l).headD [] = l.takeWhile (· ≠ sep) := by
  induction l with
  | nil => rfl
  | cons c cs ih =>
    by_cases hc : c = sep
    · rw [splitOnChar, if_pos hc]
      simp [hc]
    · rw [splitOnChar, if_neg hc]
      have hd : decide (c ≠ sep) = true := by simpa using hc
      cases hs : splitOnChar sep cs with
      | nil => exact absurd hs (splitOnChar_ne_nil sep cs)
      | cons p ps =>
        rw [hs] at ih
        simp only [List.headD_cons] at ih
        simp only [List.headD_cons, List.takeWhile_cons, hd, if_true, ih]

/-- The first piece of a split text is the text before the first separator. -/
theorem Split_head (s : String) (sep : Char) :
    (Split s sep).headD "" = ⟨s.data.takeWhile (· ≠ sep)⟩ := by
  unfold Split
  have h := splitOnChar_head sep s.data
  cases hs : splitOnChar sep s.data with
  | nil => exact absurd hs (splitOnChar_ne_nil sep s.data)
  | cons p ps =>
    rw [hs] at h
    simp only [List.headD_cons] at h
    simp only [List.map_cons, List.headD_cons, h]

theorem Split_length (s : String) (sep : Char) :
    (Split s sep).length = s.data.count sep + 1 := by
  rw [Split, List.length_map, splitOnChar_length]

end strings

namespace Reporter

namespace deployments

theorem erase_trueDefaultParams (defaults : GoMap String String) (name : String)
    (h : defaults = getTrueDefaultParams ∨ defaults = ∅) :
    defaults.erase name = if name = "--email-domain" then ∅ else defaults := by
  have hentries : getTrueDefaultParams.entries = [⟨"--email-domain", "*"⟩] := rfl
  by_cases hn : name = "--email-domain"
  · rw [if_pos hn, hn]
    rcases h with h | h
    · rw [h]; decide
    · rw [h]; rfl
  · rw [if_neg hn]
    rcases h with h | h
    · rw [h]
      apply AList.ext
      show List.kerase name getTrueDefaultParams.entries = getTrueDefaultParams.entries
      rw [hentries, List.kerase_cons_ne hn]
      rfl
    · rw [h]; rfl

/-- The loop over the user's parameters: it stops at a parameter that does not hold `=`
exactly once; otherwise every parameter holds it once, the arguments gain the user's
contribution, and the default for `--email-domain` is left iff no parameter sets that
flag. -/
theorem appendOAuthParameters_spec (parameters containerArgs : List String)
    (defaults : GoMap String String) (hdefaults : defaults = getTrueDefaultParams ∨ defaults = ∅) :
    (∀ param, appendOAuthParameters parameters containerArgs defaults = .error param →
      param ∈ parameters ∧ param.data.count '=' ≠ 1) ∧
    (∀ containerArgs' defaults',
      appendOAuthParameters parameters containerArgs defaults = .ok (containerArgs', defaults') →
      (∀ param ∈ parameters, param.data.count '=' = 1) ∧
      containerArgs' = containerArgs ++ userArguments parameters ∧
      defaults' = if ∃ param ∈ parameters, flagName param = "--email-domain" then ∅
        else defaults) := by
  induction parameters generalizing containerArgs defaults with
  | nil =>
    refine ⟨fun p h => by simp [appendOAuthParameters] at h, fun a d h => ?_⟩
    simp only [appendOAuthParameters, Except.ok.injEq, Prod.mk.injEq] at h
    obtain ⟨ha, hd⟩ := h
    subst ha; subst hd
    simp [userArguments]
  | cons param rest ih =>
    have hname : (strings.Split param '=').headD "" = flagName param :=
      strings.Split_head param '='
    by_cases hcount : param.data.count '=' = 1
    · have hlen : ¬ (strings.Split param '=').length ≠ 2 := by
        rw [strings.Split_length, hcount]; simp
      rw [appendOAuthParameters]
      simp only [if_neg hlen]
      have hex : ∀ (q : Prop), flagName param ≠ "--email-domain" →
          ((∃ p ∈ param :: rest, flagName p = "--email-domain") ↔
            ∃ p ∈ rest, flagName p = "--email-domain") := by
        intro _ hne
        simp only [List.mem_cons, exists_eq_or_imp, hne, false_or]
      by_cases hcore' :
          (getCoreParams.lookup ((strings.Split param '=').headD "")).isSome = true
      · have hcore : (getCoreParams.lookup (flagName param)).isSome = true := hname ▸ hcore'
        have hne : flagName param ≠ "--email-domain" := by
          intro h; rw [h] at hcore; revert hcore; decide
        rw [if_pos hcore']
        obtain ⟨ih1, ih2⟩ := ih containerArgs defaults hdefaults
        refine ⟨fun p h => ?_, fun a d h => ?_⟩
        · obtain ⟨h1, h2⟩ := ih1 p h
          exact ⟨List.mem_cons_of_mem _ h1, h2⟩
        · obtain ⟨h1, h2, h3⟩ := ih2 a d h
          refine ⟨?_, ?_, ?_⟩
          · intro p hp
            rcases List.mem_cons.1 hp with rfl | hp
            · exact hcount
            · exact h1 p hp
          · rw [h2, userArguments, userArguments, List.filterMap_cons]
            simp only [if_pos hcore]
          · rw [h3]
            simp only [hex True hne]
      · have hcore : ¬ (getCoreParams.lookup (flagName param)).isSome = true :=
          hname ▸ hcore'
        rw [if_neg hcore']
        cases hext' : getExtSecretsMountPaths.lookup ((strings.Split param '=').headD "") with
        | some path =>
          have hext : getExtSecretsMountPaths.lookup (flagName param) = some path :=
            hname ▸ hext'
          have hne : flagName param ≠ "--email-domain" := by
            intro h
            rw [h] at hext
            have hnone : getExtSecretsMountPaths.lookup "--email-domain" = none := by decide
            rw [hnone] at hext
            cases hext
          simp only
          obtain ⟨ih1, ih2⟩ := ih (containerArgs ++ [path]) defaults hdefaults
          refine ⟨fun p h => ?_, fun a d h => ?_⟩
          · obtain ⟨h1, h2⟩ := ih1 p h
            exact ⟨List.mem_cons_of_mem _ h1, h2⟩
          · obtain ⟨h1, h2, h3⟩ := ih2 a d h
            refine ⟨?_, ?_, ?_⟩
            · intro p hp
              rcases List.mem_cons.1 hp with rfl | hp
              · exact hcount
              · exact h1 p hp
            · rw [h2, userArguments, userArguments, List.filterMap_cons]
              simp only [if_neg hcore, hext, Option.getD_some, List.append_assoc,
                List.singleton_append]
            · rw [h3]
              simp only [hex True hne]
        | none =>
          have hext : getExtSecretsMountPaths.lookup (flagName param) = none := hname ▸ hext'
          simp only [hname]
          have herase := erase_trueDefaultParams defaults (flagName param) hdefaults
          have hdefaults' : defaults.erase (flagName param) = getTrueDefaultParams ∨
              defaults.erase (flagName param) = ∅ := by
            rw [herase]
            by_cases hn : flagName param = "--email-domain"
            · rw [if_pos hn]; exact Or.inr rfl
            · rw [if_neg hn]; exact hdefaults
          obtain ⟨ih1, ih2⟩ :=
            ih (containerArgs ++ [param]) (defaults.erase (flagName param)) hdefaults'
          refine ⟨fun p h => ?_, fun a d h => ?_⟩
          · obtain ⟨h1, h2⟩ := ih1 p h
            exact ⟨List.mem_cons_of_mem _ h1, h2⟩
          · obtain ⟨h1, h2, h3⟩ := ih2 a d h
            refine ⟨?_, ?_, ?_⟩
            · intro p hp
              rcases List.mem_cons.1 hp with rfl | hp
              · exact hcount
              · exact h1 p hp
            · rw [h2, userArguments, userArguments, List.filterMap_cons]
              simp only [if_neg hcore, hext, Option.getD_none, List.append_assoc,
                List.singleton_append]
            · rw [h3, herase]
              by_cases hn : flagName param = "--email-domain"
              · have : ∃ p ∈ param :: rest, flagName p = "--email-domain" :=
                  ⟨param, List.mem_cons_self _ _, hn⟩
                rw [if_pos this, if_pos hn]
                simp
              · rw [if_neg hn]
                simp only [hex True hn]
    · have hlen : (strings.Split param '=').length ≠ 2 := by
        rw [strings.Split_length]; omega
      rw [appendOAuthParameters]
      simp only [if_pos hlen]
      refine ⟨fun p h => ?_, fun a d h => by cases h⟩
      simp only [Except.error.injEq] at h
      subst h
      exact ⟨List.mem_cons_self _ _, hcount⟩

end deployments

end Reporter

namespace Reporter

namespace deployments

variable {σ S P : Type}

/-- The arguments before the user's parameters are the core setup and the arguments of the
authentication modes. -/
theorem parseOauth2ProxyArgs_unfold (config : IBMLicenseServiceReporterConfig σ S P)
    (getRoute : Except Err RouteSpec) (getIngress : Except Err IngressSpec)
    (spec : v1alpha1.IBMLicenseServiceReporterSpec) (redirectUrl : String)
    (hurl : getRedirectUrl config getRoute getIngress spec = some (redirectUrl, none)) :
    parseOauth2ProxyArgs config getRoute getIngress spec =
      if spec.Authentication.OAuth.Enabled = true ∧ spec.Authentication.OAuth.Parameters ≠ [] then
        match appendOAuthParameters spec.Authentication.OAuth.Parameters
            (coreSetupArguments redirectUrl ++
              modeArguments spec.Authentication.UseradminEnabled
                spec.Authentication.OAuth.Enabled)
            getTrueDefaultParams with
        | .error param =>
          some ([], some (.New ("parameter " ++ param ++
            " has wrong format. It should be --param=value")))
        | .ok (containerArgs, trueDefaultParams) =>
          some
            (trueDefaultParams.entries.foldl
              (fun containerArgs e => containerArgs ++ [e.1 ++ "=" ++ e.2]) containerArgs,
              none)
      else
        some (coreSetupArguments redirectUrl ++
          modeArguments spec.Authentication.UseradminEnabled
            spec.Authentication.OAuth.Enabled, none) := by
  obtain ⟨⟨basic, ⟨oauth, parameters⟩⟩, routeEnabled, ingressEnabled, ingressOptions⟩ := spec
  simp only [parseOauth2ProxyArgs, hurl]
  have hlen : decide (parameters.length > 0) = decide (parameters ≠ []) := by
    cases parameters <;> simp
  cases basic <;> cases oauth <;>
    simp only [v1alpha1.IBMLicenseServiceReporterSpec.IsBasicAuthEnabled,
      v1alpha1.IBMLicenseServiceReporterSpec.IsOAuthEnabled, hlen] <;>
    first
    | rfl
    | (by_cases hp : parameters = []
       · subst hp; rfl
       · simp only [hp, not_false_eq_true, decide_True, Bool.and_self, if_true, true_and,
           Bool.true_and, Bool.not_true, Bool.false_and, Bool.not_false, Bool.and_true,
           if_false, ne_eq, and_self]
         rfl)

end deployments

end Reporter

namespace Reporter

namespace deployments

variable {σ S P : Type}

/-- When the redirect URL is resolved and, OAuth being enabled, every parameter holds `=`
exactly once, `parseOauth2ProxyArgs` succeeds with the arguments of the specification. -/
theorem parseOauth2ProxyArgs_ok (config : IBMLicenseServiceReporterConfig σ S P)
    (getRoute : Except Err RouteSpec) (getIngress : Except Err IngressSpec)
    (spec : v1alpha1.IBMLicenseServiceReporterSpec) (redirectUrl : String)
    (hurl : getRedirectUrl config getRoute getIngress spec = some (redirectUrl, none))
    (hformat : spec.Authentication.OAuth.Enabled = true →
      ∀ param ∈ spec.Authentication.OAuth.Parameters, param.data.count '=' = 1) :
    parseOauth2ProxyArgs config getRoute getIngress spec =
      some (oauth2ProxyArgsSpec redirectUrl spec, none) := by
  rw [parseOauth2ProxyArgs_unfold config getRoute getIngress spec redirectUrl hurl,
    oauth2ProxyArgsSpec]
  by_cases hc : spec.Authentication.OAuth.Enabled = true ∧
      spec.Authentication.OAuth.Parameters ≠ []
  · rw [if_pos hc, if_pos hc]
    obtain ⟨herr, hok⟩ := appendOAuthParameters_spec spec.Authentication.OAuth.Parameters
      (coreSetupArguments redirectUrl ++
        modeArguments spec.Authentication.UseradminEnabled spec.Authentication.OAuth.Enabled)
      getTrueDefaultParams (Or.inl rfl)
    cases hloop : appendOAuthParameters spec.Authentication.OAuth.Parameters
      (coreSetupArguments redirectUrl ++
        modeArguments spec.Authentication.UseradminEnabled spec.Authentication.OAuth.Enabled)
      getTrueDefaultParams with
    | error param =>
      obtain ⟨h1, h2⟩ := herr param hloop
      exact absurd (hformat hc.1 param h1) h2
    | ok r =>
      obtain ⟨containerArgs, trueDefaultParams⟩ := r
      obtain ⟨_, h2, h3⟩ := hok _ _ hloop
      simp only
      rw [h2, h3, defaultArguments]
      by_cases hex : ∃ param ∈ spec.Authentication.OAuth.Parameters,
          flagName param = "--email-domain"
      · rw [if_pos hex, if_pos hex]
        simp
      · rw [if_neg hex, if_neg hex]
        have hentries : getTrueDefaultParams.entries = [⟨"--email-domain", "*"⟩] := rfl
        have htext : "--email-domain" ++ "=" ++ "*" = "--email-domain=*" := by decide
        rw [hentries]
        simp only [List.foldl_cons, List.foldl_nil, htext, List.append_assoc]
  · rw [if_neg hc, if_neg hc, List.append_nil]

/-- When the redirect URL is resolved, OAuth is enabled and some parameter does not hold `=`
exactly once, `parseOauth2ProxyArgs` fails with the error that names such a parameter and
returns an empty argument list. -/
theorem parseOauth2ProxyArgs_error (config : IBMLicenseServiceReporterConfig σ S P)
    (getRoute : Except Err RouteSpec) (getIngress : Except Err IngressSpec)
    (spec : v1alpha1.IBMLicenseServiceReporterSpec) (redirectUrl : String)
    (hurl : getRedirectUrl config getRoute getIngress spec = some (redirectUrl, none))
    (henabled : spec.Authentication.OAuth.Enabled = true)
    (hbad : ∃ param ∈ spec.Authentication.OAuth.Parameters, param.data.count '=' ≠ 1) :
    ∃ param ∈ spec.Authentication.OAuth.Parameters, param.data.count '=' ≠ 1 ∧
      parseOauth2ProxyArgs config getRoute getIngress spec =
        some ([], some (.New ("parameter " ++ param ++
          " has wrong format. It should be --param=value"))) := by
  rw [parseOauth2ProxyArgs_unfold config getRoute getIngress spec redirectUrl hurl]
  have hne : spec.Authentication.OAuth.Parameters ≠ [] := by
    obtain ⟨p, hp, _⟩ := hbad
    exact List.ne_nil_of_mem hp
  rw [if_pos ⟨henabled, hne⟩]
  obtain ⟨herr, hok⟩ := appendOAuthParameters_spec spec.Authentication.OAuth.Parameters
    (coreSetupArguments redirectUrl ++
      modeArguments spec.Authentication.UseradminEnabled spec.Authentication.OAuth.Enabled)
    getTrueDefaultParams (Or.inl rfl)
  cases hloop : appendOAuthParameters spec.Authentication.OAuth.Parameters
    (coreSetupArguments redirectUrl ++
      modeArguments spec.Authentication.UseradminEnabled spec.Authentication.OAuth.Enabled)
    getTrueDefaultParams with
  | error param =>
    obtain ⟨h1, h2⟩ := herr param hloop
    exact ⟨param, h1, h2, rfl⟩
  | ok r =>
    obtain ⟨containerArgs, trueDefaultParams⟩ := r
    obtain ⟨h1, _, _⟩ := hok _ _ hloop
    obtain ⟨p, hp, hcount⟩ := hbad
    exact absurd (h1 p hp) hcount

/-- A successful `parseOauth2ProxyArgs` had its redirect URL resolved and returns the
arguments of the specification. -/
theorem parseOauth2ProxyArgs_success (config : IBMLicenseServiceReporterConfig σ S P)
    (getRoute : Except Err RouteSpec) (getIngress : Except Err IngressSpec)
    (spec : v1alpha1.IBMLicenseServiceReporterSpec) (containerArgs : List String)
    (h : parseOauth2ProxyArgs config getRoute getIngress spec = some (containerArgs, none)) :
    ∃ redirectUrl, getRedirectUrl config getRoute getIngress spec = some (redirectUrl, none) ∧
      containerArgs = oauth2ProxyArgsSpec redirectUrl spec := by
  rcases hurl : getRedirectUrl config getRoute getIngress spec with _ | ⟨redirectUrl, err⟩
  · simp [parseOauth2ProxyArgs, hurl] at h
  · cases err with
    | some e => simp [parseOauth2ProxyArgs, hurl] at h
    | none =>
      refine ⟨redirectUrl, rfl, ?_⟩
      by_cases hformat : spec.Authentication.OAuth.Enabled = true →
          ∀ param ∈ spec.Authentication.OAuth.Parameters, param.data.count '=' = 1
      · rw [parseOauth2ProxyArgs_ok config getRoute getIngress spec redirectUrl hurl hformat] at h
        simp only [Option.some.injEq, Prod.mk.injEq, and_true] at h
        exact h.symm
      · rw [Classical.not_imp] at hformat
        obtain ⟨henabled, hnot⟩ := hformat
        have hbad : ∃ param ∈ spec.Authentication.OAuth.Parameters,
            param.data.count '=' ≠ 1 := by
          by_contra hno
          apply hnot
          intro p hp
          by_contra hc
          exact hno ⟨p, hp, hc⟩
        obtain ⟨p, _, _, hparse⟩ :=
          parseOauth2ProxyArgs_error config getRoute getIngress spec redirectUrl hurl
            henabled hbad
        rw [hparse] at h
        simp at h

end deployments

end Reporter

namespace Reporter

namespace deployments

theorem flagName_redirect (redirectUrl : String) :
    flagName ("--redirect-url=" ++ redirectUrl) = "--redirect-url" := by
  have hdata : ("--redirect-url=" ++ redirectUrl).data =
      "--redirect-url".data ++ '=' :: redirectUrl.data := by
    rw [String.data_append]; rfl
  unfold flagName
  rw [hdata, (strings.takeWhile_append_sep '=' "--redirect-url".data redirectUrl.data
    (by decide)).1]

/-- An argument that the user's parameters contribute is one of the two file arguments, or a
parameter whose flag is in neither table. -/
theorem mem_userArguments (parameters : List String) (arg : String)
    (h : arg ∈ userArguments parameters) :
    arg = "--client-secret-file=/opt/oauth2-proxy/config/client-secret" ∨
    arg = "--provider-ca-file=/opt/oauth2-proxy/config/provider-ca" ∨
    (arg ∈ parameters ∧ getCoreParams.lookup (flagName arg) = none ∧
      getExtSecretsMountPaths.lookup (flagName arg) = none) := by
  unfold userArguments at h
  rw [List.mem_filterMap] at h
  obtain ⟨param, hparam, hval⟩ := h
  by_cases hcore : (getCoreParams.lookup (flagName param)).isSome = true
  · rw [if_pos hcore] at hval; cases hval
  · rw [if_neg hcore] at hval
    simp only [Option.some.injEq] at hval
    have hcore' : getCoreParams.lookup (flagName param) = none := by
      cases hl : getCoreParams.lookup (flagName param) with
      | none => rfl
      | some v => rw [hl] at hcore; exact absurd rfl hcore
    cases hext : getExtSecretsMountPaths.lookup (flagName param) with
    | none =>
      rw [hext] at hval
      simp only [Option.getD_none] at hval
      subst hval
      exact Or.inr (Or.inr ⟨hparam, hcore', hext⟩)
    | some path =>
      rw [hext] at hval
      simp only [Option.getD_some] at hval
      subst hval
      have hmem := AList.mem_lookup_iff.1 hext
      have hentries : getExtSecretsMountPaths.entries =
          [⟨"--client-secret-name",
              "--client-secret-file=/opt/oauth2-proxy/config/client-secret"⟩,
            ⟨"--provider-ca-secret-name",
              "--provider-ca-file=/opt/oauth2-proxy/config/provider-ca"⟩] := by decide
      rw [hentries] at hmem
      simp only [List.mem_cons, Sigma.mk.inj_iff, heq_eq_eq, List.mem_singleton,
        List.not_mem_nil, or_false] at hmem
      rcases hmem with ⟨_, h⟩ | ⟨_, h⟩
      · exact Or.inl h
      · exact Or.inr (Or.inl h)

/-- Among the arguments of the specification the core setup flags are set by the core setup
arguments alone. -/
theorem filter_coreSetupFlags (redirectUrl : String)
    (spec : v1alpha1.IBMLicenseServiceReporterSpec) :
    (oauth2ProxyArgsSpec redirectUrl spec).filter (fun arg => flagName arg ∈ coreSetupFlags) =
      coreSetupArguments redirectUrl := by
  have hcore : (coreSetupArguments redirectUrl).filter
      (fun arg => flagName arg ∈ coreSetupFlags) = coreSetupArguments redirectUrl := by
    rw [List.filter_eq_self]
    intro arg harg
    simp only [coreSetupArguments, List.mem_cons, List.mem_singleton, List.not_mem_nil,
      or_false] at harg
    rcases harg with h | h | h | h | h | h | h <;> subst h
    · decide
    · decide
    · decide
    · decide
    · decide
    · decide
    · rw [flagName_redirect]; decide
  have hmode : ∀ b o, (modeArguments b o).filter
      (fun arg => flagName arg ∈ coreSetupFlags) = [] := by
    intro b o; cases b <;> cases o <;> decide
  have huser : ∀ parameters : List String, (userArguments parameters).filter
      (fun arg => flagName arg ∈ coreSetupFlags) = [] := by
    intro parameters
    rw [List.filter_eq_nil_iff]
    intro arg harg
    rcases mem_userArguments parameters arg harg with h | h | ⟨_, h, _⟩
    · subst h; decide
    · subst h; decide
    · intro hmem
      simp only [decide_eq_true_eq, coreSetupFlags, List.mem_cons, List.mem_singleton,
        List.not_mem_nil, or_false] at hmem
      rcases hmem with h' | h' | h' | h' | h' | h' | h' <;>
        (rw [h'] at h; revert h; decide)
  have hdefault : ∀ parameters : List String, (defaultArguments parameters).filter
      (fun arg => flagName arg ∈ coreSetupFlags) = [] := by
    intro parameters
    unfold defaultArguments
    split
    · rfl
    · decide
  unfold oauth2ProxyArgsSpec
  rw [List.filter_append, List.filter_append, hcore, hmode]
  split
  · rw [List.filter_append, huser, hdefault]; simp
  · simp

/-- Among the arguments of the specification the flag `--email-domain` is set by the user's
parameters that set it, and by the default when there is none. -/
theorem filter_emailDomain (redirectUrl : String)
    (spec : v1alpha1.IBMLicenseServiceReporterSpec) :
    (oauth2ProxyArgsSpec redirectUrl spec).filter
        (fun arg => flagName arg = "--email-domain") =
      if spec.Authentication.OAuth.Enabled ∧ spec.Authentication.OAuth.Parameters ≠ [] then
        spec.Authentication.OAuth.Parameters.filter
            (fun param => flagName param = "--email-domain") ++
          defaultArguments spec.Authentication.OAuth.Parameters
      else [] := by
  have hcore : (coreSetupArguments redirectUrl).filter
      (fun arg => flagName arg = "--email-domain") = [] := by
    rw [List.filter_eq_nil_iff]
    intro arg harg
    simp only [coreSetupArguments, List.mem_cons, List.mem_singleton, List.not_mem_nil,
      or_false] at harg
    rcases harg with h | h | h | h | h | h | h <;> subst h
    · decide
    · decide
    · decide
    · decide
    · decide
    · decide
    · rw [flagName_redirect]; decide
  have hmode : ∀ b o, (modeArguments b o).filter
      (fun arg => flagName arg = "--email-domain") = [] := by
    intro b o; cases b <;> cases o <;> decide
  have huser : ∀ parameters : List String, (userArguments parameters).filter
      (fun arg => flagName arg = "--email-domain") =
        parameters.filter (fun param => flagName param = "--email-domain") := by
    intro parameters
    induction parameters with
    | nil => rfl
    | cons param rest ih =>
      rw [userArguments, List.filterMap_cons]
      by_cases hn : flagName param = "--email-domain"
      · have h1 : ¬ (getCoreParams.lookup (flagName param)).isSome = true := by
          rw [hn]; decide
        have h2 : getExtSecretsMountPaths.lookup (flagName param) = none := by
          rw [hn]; decide
        simp only [if_neg h1, h2, Option.getD_none]
        rw [List.filter_cons, List.filter_cons]
        simp only [hn, decide_True, if_true]
        exact congrArg _ ih
      · rw [List.filter_cons]
        simp only [hn, decide_False, Bool.false_eq_true, if_false]
        by_cases h1 : (getCoreParams.lookup (flagName param)).isSome = true
        · simp only [if_pos h1]
          exact ih
        · simp only [if_neg h1]
          rw [List.filter_cons]
          have hne : flagName ((getExtSecretsMountPaths.lookup (flagName param)).getD param) ≠
              "--email-domain" := by
            cases hext : getExtSecretsMountPaths.lookup (flagName param) with
            | none => simpa using hn
            | some path =>
              have hmem : path ∈ userArguments [param] := by
                simp [userArguments, h1, hext]
              rcases mem_userArguments [param] path hmem with h | h | ⟨_, _, h⟩
              · subst h; simp only [Option.getD_some]; decide
              · subst h; simp only [Option.getD_some]; decide
              · simp only [Option.getD_some]
                intro hp
                have hmem2 := List.mem_singleton.1 (by assumption : path ∈ [param])
                rw [hmem2] at hp
                exact hn hp
          simp only [hne, decide_False, Bool.false_eq_true, if_false]
          exact ih
  have hdefault : ∀ parameters : List String, (defaultArguments parameters).filter
      (fun arg => flagName arg = "--email-domain") = defaultArguments parameters := by
    intro parameters
    unfold defaultArguments
    split
    · rfl
    · decide
  unfold oauth2ProxyArgsSpec
  rw [List.filter_append, List.filter_append, hcore, hmode]
  split
  · rw [List.filter_append, huser, hdefault]; simp
  · simp

end deployments

end Reporter

namespace Reporter

variable {S : Type}

/-- Writing the caching label twice is writing it once. -/
theorem EnsureCachingLabel_idem (o : Object S) :
    EnsureCachingLabel (EnsureCachingLabel o) = EnsureCachingLabel o := by
  unfold EnsureCachingLabel Object.SetLabels Object.GetLabels
  simp only [AList.insert_insert]

/-- The object `EnsureCachingLabel` returns carries the caching label. -/
theorem EnsureCachingLabel_lookup (o : Object S) :
    (EnsureCachingLabel o).GetLabels.lookup CachingLabelKey = some CachingLabelValue := by
  unfold EnsureCachingLabel Object.SetLabels Object.GetLabels
  exact AList.lookup_insert _

end Reporter

namespace Cluster

variable {S : Type}

/-- In the reference cluster, an object without owner references in the owner's namespace
gets the owner as its only owner reference, and nothing else changes. -/
theorem SetControllerReference_fresh (owner : Reporter.IBMLicenseServiceReporter)
    (o : Object S) (hns : owner.Namespace = o.GetNamespace) (hown : o.GetOwnerReferences = []) :
    SetControllerReference owner o =
      .ok { o with ObjectMeta :=
              { o.ObjectMeta with OwnerReferences := [{ UID := owner.UID, Controller := true }] } } := by
  unfold SetControllerReference
  simp [hns, hown]

end Cluster

namespace Reporter

variable {S : Type}

/-- In the reference cluster, `TryUpdateOrRecreateResource` of an object `res` without owner
reference that is stored already, where `written` is `res` with its controller reference and
has no resource version: one `Update`, which succeeds and stores `written`. -/
theorem TryUpdateOrRecreateResource_on_cluster (inst : IBMLicenseServiceReporter)
    (a b : Bool) (st : Cluster S) (res written found : Object S) (ign : Bool)
    (hown : res.GetOwnerReferences = [])
    (hset : Cluster.SetControllerReference inst res = .ok written)
    (hkey : Cluster.keyOf written = Cluster.keyOf res)
    (hrv : written.GetResourceVersion = "")
    (hfound : st.objects.lookup (Cluster.keyOf res) = some found) :
    TryUpdateOrRecreateResource (Cluster.config inst a b) st res ign =
      ⟨none, { st with objects := st.objects.insert (Cluster.keyOf res) written },
        [.Update written]⟩ := by
  have hset' : (Cluster.config (S := S) inst a b).SetControllerReference
      (Cluster.config (S := S) inst a b).Instance res = .ok written := hset
  have hupdate : (Cluster.config inst a b).Client.Update st written =
      (none, { st with objects := st.objects.insert (Cluster.keyOf res) written }) := by
    show Cluster.client.Update st written = _
    simp only [Cluster.client]
    rw [hkey, hfound]
    simp only [hrv, ne_eq, not_true_eq_false, false_and, if_false]
  unfold TryUpdateOrRecreateResource
  simp only [hown, List.length_nil, if_true, hset', hupdate]

/-- In the reference cluster, `ReconcileResource` of an absent object, with creation enabled
and no override, where `written` is the expected object with the caching label and its
controller reference: one `Create`, which succeeds and stores `written`. -/
theorem ReconcileResource_create_on_cluster (inst : IBMLicenseServiceReporter)
    (a b : Bool) (st : Cluster S) (expected written : Object S)
    (checkFound : IsFoundInDesiredStateIfExistsFunc (Cluster S) S MergePatch)
    (patchFound : Option (ApplyPatchToFoundObjectFunc (Cluster S) S MergePatch))
    (mergeIntoNew : Option (MergeIntoFoundAsNewObjectFunc S))
    (run : Option (RunActionsAfterReconcile (Cluster S) S MergePatch))
    (hset : Cluster.SetControllerReference inst (EnsureCachingLabel expected) = .ok written)
    (hkey : Cluster.keyOf written = ⟨expected.GetName, expected.GetNamespace⟩)
    (habsent : st.objects.lookup ⟨expected.GetName, expected.GetNamespace⟩ = none) :
    ReconcileResource (Cluster.config inst a b) st expected true none checkFound patchFound
        mergeIntoNew run =
      ⟨none,
        { st with
          objects := st.objects.insert ⟨expected.GetName, expected.GetNamespace⟩ written },
        [.Get ⟨expected.GetName, expected.GetNamespace⟩, .Create written]⟩ := by
  have hname : (EnsureCachingLabel expected).GetName = expected.GetName := rfl
  have hns : (EnsureCachingLabel expected).GetNamespace = expected.GetNamespace := rfl
  have hset' : (Cluster.config (S := S) inst a b).SetControllerReference
      (Cluster.config (S := S) inst a b).Instance (EnsureCachingLabel expected) =
        .ok written := hset
  have hget : (Cluster.config inst a b).Client.Get st
      ⟨expected.GetName, expected.GetNamespace⟩ = .error .StatusNotFound := by
    show Cluster.client.Get st _ = _
    simp only [Cluster.client, habsent]
  have hcreate : (Cluster.config inst a b).Client.Create st written =
      (none, { st with
               objects :=
                 st.objects.insert ⟨expected.GetName, expected.GetNamespace⟩ written }) := by
    show Cluster.client.Create st written = _
    simp only [Cluster.client]
    rw [hkey, habsent]
  unfold ReconcileResource CreateResource
  simp only [hname, hns, hget, apierrors.IsNotFound, if_true, hset', hcreate]

end Reporter

namespace Reporter

variable {S : Type}

/-- The second pass of a reconcile in the reference cluster. The reconcile passes a freshly
built expected object (no owner reference, no resource version, in the custom resource's
namespace) to `ReconcileResource` with creation enabled, no override,
`PatchFoundWithSpecLabelsAndAnnotations`, `OverrideFoundWithExpected` and no action after the
reconcile; its predicate returns no error and accepts the expected object as the cluster
stores it. If the first pass issues no `Patch`, it succeeds, and a second pass on the state it
leaves succeeds, issues no mutating call and leaves that state unchanged. -/
theorem ReconcileResource_second_pass_on_cluster (inst : IBMLicenseServiceReporter)
    (a b : Bool) (st : Cluster S) (expected : Object S)
    (checkFound : IsFoundInDesiredStateIfExistsFunc (Cluster S) S MergePatch)
    (hns : inst.Namespace = expected.GetNamespace)
    (hown : expected.GetOwnerReferences = [])
    (hrv : expected.GetResourceVersion = "")
    (herr : ∀ found,
      (checkFound (Cluster.config inst a b) found (EnsureCachingLabel expected)).2 = none)
    (haccept : ∀ written,
      Cluster.SetControllerReference inst (EnsureCachingLabel expected) = .ok written →
      (checkFound (Cluster.config inst a b) written
        (EnsureCachingLabel expected)).1.IsInDesiredState = true)
    (hpatch : ∀ c ∈ (ReconcileResource (Cluster.config inst a b) st expected true none
        checkFound (some PatchFoundWithSpecLabelsAndAnnotations)
        (some OverrideFoundWithExpected) none).calls, c.isPatch = false) :
    (ReconcileResource (Cluster.config inst a b) st expected true none checkFound
        (some PatchFoundWithSpecLabelsAndAnnotations) (some OverrideFoundWithExpected)
        none).err = none ∧
    (ReconcileResource (Cluster.config inst a b)
        (ReconcileResource (Cluster.config inst a b) st expected true none checkFound
          (some PatchFoundWithSpecLabelsAndAnnotations) (some OverrideFoundWithExpected)
          none).state
        expected true none checkFound (some PatchFoundWithSpecLabelsAndAnnotations)
        (some OverrideFoundWithExpected) none).err = none ∧
    (ReconcileResource (Cluster.config inst a b)
        (ReconcileResource (Cluster.config inst a b) st expected true none checkFound
          (some PatchFoundWithSpecLabelsAndAnnotations) (some OverrideFoundWithExpected)
          none).state
        expected true none checkFound (some PatchFoundWithSpecLabelsAndAnnotations)
        (some OverrideFoundWithExpected) none).state =
      (ReconcileResource (Cluster.config inst a b) st expected true none checkFound
        (some PatchFoundWithSpecLabelsAndAnnotations) (some OverrideFoundWithExpected)
        none).state ∧
    ∀ c ∈ (ReconcileResource (Cluster.config inst a b)
        (ReconcileResource (Cluster.config inst a b) st expected true none checkFound
          (some PatchFoundWithSpecLabelsAndAnnotations) (some OverrideFoundWithExpected)
          none).state
        expected true none checkFound (some PatchFoundWithSpecLabelsAndAnnotations)
        (some OverrideFoundWithExpected) none).calls, c.isMutating = false := by
  obtain ⟨written, hset, hkey, hrvw, hlabelw⟩ :
      ∃ written : Object S,
        Cluster.SetControllerReference inst (EnsureCachingLabel expected) = .ok written ∧
        Cluster.keyOf written = ⟨expected.GetName, expected.GetNamespace⟩ ∧
        written.GetResourceVersion = "" ∧
        written.GetLabels.lookup CachingLabelKey = some CachingLabelValue :=
    ⟨_, Cluster.SetControllerReference_fresh inst (EnsureCachingLabel expected) hns hown, rfl,
      hrv, EnsureCachingLabel_lookup expected⟩
  have hsettled : ∀ st1 : Cluster S,
      st1.objects.lookup ⟨expected.GetName, expected.GetNamespace⟩ = some written →
      ReconcileResource (Cluster.config inst a b) st1 expected true none checkFound
        (some PatchFoundWithSpecLabelsAndAnnotations) (some OverrideFoundWithExpected) none =
        ⟨none, st1, [.Get ⟨expected.GetName, expected.GetNamespace⟩]⟩ := by
    intro st1 h1
    refine ReconcileResource_idle_path _ st1 expected written true none checkFound _ _ none
      (checkFound (Cluster.config inst a b) written (EnsureCachingLabel expected)).1 ?_ ?_
      (haccept written hset) hlabelw
    · show Cluster.client.Get st1 _ = _
      simp only [Cluster.client, h1]
    · exact Prod.ext rfl (herr written)
  have hidle : ∀ c ∈ [Call.Get (O := Object S) (P := MergePatch)
      ⟨expected.GetName, expected.GetNamespace⟩], c.isMutating = false := by
    intro c hc
    rw [List.mem_singleton] at hc
    subst hc
    rfl
  cases hlook : st.objects.lookup ⟨expected.GetName, expected.GetNamespace⟩ with
  | none =>
    have hfirst := ReconcileResource_create_on_cluster inst a b st expected written checkFound
      (some PatchFoundWithSpecLabelsAndAnnotations) (some OverrideFoundWithExpected) none
      hset hkey hlook
    rw [hfirst]
    simp only
    rw [hsettled _ (AList.lookup_insert _)]
    refine ⟨?_, ?_, ?_, hidle⟩ <;> trivial
  | some found =>
    have hget : (Cluster.config inst a b).Client.Get st
        ⟨expected.GetName, expected.GetNamespace⟩ = .ok found := by
      show Cluster.client.Get st _ = _
      simp only [Cluster.client, hlook]
    have hcheck : checkFound (Cluster.config inst a b) found (EnsureCachingLabel expected) =
        ((checkFound (Cluster.config inst a b) found (EnsureCachingLabel expected)).1, none) :=
      Prod.ext rfl (herr found)
    by_cases hp :
        (checkFound (Cluster.config inst a b) found
          (EnsureCachingLabel expected)).1.IsInDesiredState = false ∧
        (checkFound (Cluster.config inst a b) found
          (EnsureCachingLabel expected)).1.IsPatchSufficient = true
    · exfalso
      have hfirst := ReconcileResource_patch_path (Cluster.config inst a b) st expected found
        true none checkFound PatchFoundWithSpecLabelsAndAnnotations
        (some OverrideFoundWithExpected) none _ hget hcheck hp.1 hp.2
      rw [hfirst] at hpatch
      have hcall := hpatch (.Patch found
        { Labels := GetSpecLabels inst, Annotations := GetSpecAnnotations inst,
          ResourceVersion := found.GetResourceVersion })
        (by simp [PatchFoundWithSpecLabelsAndAnnotations, MarshalAndPatch, Cluster.config])
      cases hcall
    · by_cases hi :
          (checkFound (Cluster.config inst a b) found
            (EnsureCachingLabel expected)).1.IsInDesiredState = true ∧
          found.GetLabels.lookup CachingLabelKey = some CachingLabelValue
      · have hfirst := ReconcileResource_idle_path (Cluster.config inst a b) st expected found
          true none checkFound (some PatchFoundWithSpecLabelsAndAnnotations)
          (some OverrideFoundWithExpected) none _ hget hcheck hi.1 hi.2
        rw [hfirst]
        simp only
        rw [hfirst]
        refine ⟨?_, ?_, ?_, hidle⟩ <;> trivial
      · have hnot :
            (checkFound (Cluster.config inst a b) found
              (EnsureCachingLabel expected)).1.IsInDesiredState = false ∨
            found.GetLabels.lookup CachingLabelKey ≠ some CachingLabelValue := by
          by_cases hd : (checkFound (Cluster.config inst a b) found
              (EnsureCachingLabel expected)).1.IsInDesiredState = true
          · exact Or.inr fun hl => hi ⟨hd, hl⟩
          · exact Or.inl (by simpa using hd)
        have hfirst := ReconcileResource_merge_path (Cluster.config inst a b) st expected found
          true none checkFound (some PatchFoundWithSpecLabelsAndAnnotations)
          OverrideFoundWithExpected none _ (EnsureCachingLabel expected) true hget hcheck hnot
          (fun hd hs => absurd ⟨hd, hs⟩ hp) rfl
        rw [EnsureCachingLabel_idem,
          TryUpdateOrRecreateResource_on_cluster inst a b st (EnsureCachingLabel expected)
            written found true hown hset hkey hrvw hlook] at hfirst
        simp only at hfirst
        rw [hfirst]
        simp only
        have hstored : (AList.insert (Cluster.keyOf (EnsureCachingLabel expected)) written
            st.objects).lookup ⟨expected.GetName, expected.GetNamespace⟩ = some written :=
          AList.lookup_insert _
        rw [hsettled _ hstored]
        refine ⟨?_, ?_, ?_, hidle⟩ <;> trivial

end Reporter

namespace Reporter

namespace services

/-- The predicate `IsServiceInDesiredState` returns no error. -/
theorem IsServiceInDesiredState_no_error {σ P : Type}
    (config : IBMLicenseServiceReporterConfig σ ServiceSpec P)
    (foundService expectedService : Object ServiceSpec) :
    (IsServiceInDesiredState config foundService expectedService).2 = none := by
  unfold IsServiceInDesiredState
  split_ifs <;> rfl

/-- The predicate `IsServiceInDesiredState` accepts the expected service as the reference
cluster stores it, with the caching label and the controller reference, when the spec labels
do not give the caching label another value. -/
theorem IsServiceInDesiredState_accepts_written (inst : IBMLicenseServiceReporter)
    (a b : Bool)
    (hlabel : ∀ v, (GetSpecLabels inst).lookup CachingLabelKey = some v →
      v = CachingLabelValue)
    (written : Object ServiceSpec)
    (hset : Cluster.SetControllerReference inst
      (EnsureCachingLabel (GetService (Cluster.config inst a b))) = .ok written) :
    (IsServiceInDesiredState (Cluster.config inst a b) written
      (EnsureCachingLabel (GetService (Cluster.config inst a b)))).1.IsInDesiredState
      = true := by
  rw [Cluster.SetControllerReference_fresh inst
    (EnsureCachingLabel (GetService (Cluster.config inst a b))) rfl rfl] at hset
  injection hset with hset
  subst hset
  have hports : UnorderedContainsSliceWithHashFunc
      (getServiceSpec inst.Name).Ports (getServiceSpec inst.Name).Ports hashPort = true := by
    rw [UnorderedContainsSliceWithHashFunc_iff]
    exact fun e he => ⟨e, he, rfl⟩
  have hselector : GoMap.DeepEqual (getServiceSpec inst.Name).Selector
      (getServiceSpec inst.Name).Selector = true := GoMap_DeepEqual_refl _
  have hlabels : MapHasAllPairsFromOther
      ((LabelsForMeta inst).insert CachingLabelKey CachingLabelValue)
      (GetSpecLabels inst) = true := by
    rw [MapHasAllPairsFromOther_iff]
    intro k v hk
    by_cases hkey : k = CachingLabelKey
    · subst hkey
      rw [hlabel v hk]
      exact AList.lookup_insert _
    · rw [AList.lookup_insert_ne hkey]
      unfold LabelsForMeta
      simp only
      rw [lookup_MergeMaps, hk]
      rfl
  have hannotations : ∀ m : GoMap String String, MapHasAllPairsFromOther m m = true :=
    MapHasAllPairsFromOther_refl
  unfold IsServiceInDesiredState
  simp only [EnsureCachingLabel, Object.SetLabels, Object.GetLabels, Object.GetAnnotations,
    GetService, Cluster.config, ne_eq, not_true_eq_false, if_false, hports, hselector,
    hlabels, hannotations, Bool.not_true, Bool.false_eq_true]

end services

end Reporter

/-! ## Theorems -/

namespace Reporter

variable {σ S P : Type}

/-- C1, as stated, fails. The stored object carries the caching label, the predicate reports
without error that it is not in its desired state and that a patch suffices, and a patch
function is supplied; the patch function returns an error, and `ReconcileResource` returns
that error after the `Get` alone: no `Patch` is issued. -/
theorem ReconcileResource_patch_function_error :
    (Cluster.client (S := Unit)).Get
        (Example.clusterWith (Example.object Example.cachingLabels "1" []))
        ⟨"ibm-license-service-reporter", "test"⟩
      = .ok (Example.object Example.cachingLabels "1" []) ∧
    (Example.object Example.cachingLabels "1" []).GetLabels.lookup CachingLabelKey
      = some CachingLabelValue ∧
    (ReconcileResource (Cluster.config Example.reporter false false)
        (Example.clusterWith (Example.object Example.cachingLabels "1" []))
        (Example.object ∅ "" []) true none
        (fun _ _ _ => (⟨false, true⟩, none))
        (some fun _ _ => .error (.New "json: unsupported value"))
        (some OverrideFoundWithExpected) none).calls
      = [.Get ⟨"ibm-license-service-reporter", "test"⟩] ∧
    (ReconcileResource (Cluster.config Example.reporter false false)
        (Example.clusterWith (Example.object Example.cachingLabels "1" []))
        (Example.object ∅ "" []) true none
        (fun _ _ _ => (⟨false, true⟩, none))
        (some fun _ _ => .error (.New "json: unsupported value"))
        (some OverrideFoundWithExpected) none).err
      = some (.New "json: unsupported value") :=
  ⟨by rfl, by decide, by decide, by decide⟩

/-- C1, amended. Let the object be found with the caching label and let the predicate return
`status` without error. If `status` is in-desired-state, `ReconcileResource` succeeds after
the `Get` alone. If it is not, a patch suffices and a patch function is supplied, then either
the patch function returns a patch and the calls are the `Get` and one `Patch` of the found
object, or it returns an error, which is returned after the `Get` alone. Otherwise, with a
merge function that returns `merged` without error, the calls are the `Get`, then those of
`TryUpdateOrRecreateResource` on `merged` with the caching label stamped (none of them a
`Patch`, the first an `Update` of that object once its controller reference is set), then
those of the post-action, if one is supplied and the update succeeded; an error of the merge
function is returned after the `Get` alone. -/
theorem ReconcileResource_three_way
    (config : IBMLicenseServiceReporterConfig σ S P) (st : σ) (expected found : Object S)
    (shouldCreate : Bool) (overrideExpected : Option (NotFoundExpectedOverrideFunc S))
    (checkFound : IsFoundInDesiredStateIfExistsFunc σ S P)
    (patchFound : Option (ApplyPatchToFoundObjectFunc σ S P))
    (mergeIntoNew : Option (MergeIntoFoundAsNewObjectFunc S))
    (run : Option (RunActionsAfterReconcile σ S P))
    (status : ResourceUpdateStatus)
    (hget : config.Client.Get st ⟨expected.GetName, expected.GetNamespace⟩ = .ok found)
    (hlabel : found.GetLabels.lookup CachingLabelKey = some CachingLabelValue)
    (hcheck : checkFound config found (EnsureCachingLabel expected) = (status, none)) :
    (status.IsInDesiredState = true →
      (ReconcileResource config st expected shouldCreate overrideExpected checkFound patchFound
          mergeIntoNew run).err = none ∧
      (ReconcileResource config st expected shouldCreate overrideExpected checkFound patchFound
          mergeIntoNew run).state = st ∧
      (ReconcileResource config st expected shouldCreate overrideExpected checkFound patchFound
          mergeIntoNew run).calls = [.Get ⟨expected.GetName, expected.GetNamespace⟩]) ∧
    (status.IsInDesiredState = false → status.IsPatchSufficient = true →
      ∀ f, patchFound = some f →
        (∀ patch, f config found = .ok patch →
          (ReconcileResource config st expected shouldCreate overrideExpected checkFound
              patchFound mergeIntoNew run).err = (config.Client.Patch st found patch).1 ∧
          (ReconcileResource config st expected shouldCreate overrideExpected checkFound
              patchFound mergeIntoNew run).state = (config.Client.Patch st found patch).2 ∧
          (ReconcileResource config st expected shouldCreate overrideExpected checkFound
              patchFound mergeIntoNew run).calls
            = [.Get ⟨expected.GetName, expected.GetNamespace⟩, .Patch found patch]) ∧
        (∀ e, f config found = .error e →
          (ReconcileResource config st expected shouldCreate overrideExpected checkFound
              patchFound mergeIntoNew run).err = some e ∧
          (ReconcileResource config st expected shouldCreate overrideExpected checkFound
              patchFound mergeIntoNew run).state = st ∧
          (ReconcileResource config st expected shouldCreate overrideExpected checkFound
              patchFound mergeIntoNew run).calls
            = [.Get ⟨expected.GetName, expected.GetNamespace⟩])) ∧
    (status.IsInDesiredState = false → (status.IsPatchSufficient = false ∨ patchFound = none) →
      ∀ m, mergeIntoNew = some m →
        (∀ merged ign, m found (EnsureCachingLabel expected) = .ok (merged, ign) →
          (∃ rest,
            (ReconcileResource config st expected shouldCreate overrideExpected checkFound
                patchFound mergeIntoNew run).calls
              = .Get ⟨expected.GetName, expected.GetNamespace⟩ ::
                  ((TryUpdateOrRecreateResource config st (EnsureCachingLabel merged) ign).calls
                    ++ rest) ∧
            (run = none → rest = []) ∧
            ((TryUpdateOrRecreateResource config st (EnsureCachingLabel merged) ign).err ≠ none →
              rest = [])) ∧
          (∀ c ∈ (TryUpdateOrRecreateResource config st (EnsureCachingLabel merged) ign).calls,
            c.isPatch = false) ∧
          (∀ res,
            (if (EnsureCachingLabel merged).GetOwnerReferences.length = 0 then
              config.SetControllerReference config.Instance (EnsureCachingLabel merged)
              else .ok (EnsureCachingLabel merged)) = .ok res →
            ∃ tail,
              (TryUpdateOrRecreateResource config st (EnsureCachingLabel merged) ign).calls
                = .Update res :: tail)) ∧
        (∀ e, m found (EnsureCachingLabel expected) = .error e →
          (ReconcileResource config st expected shouldCreate overrideExpected checkFound
              patchFound mergeIntoNew run).err = some e ∧
          (ReconcileResource config st expected shouldCreate overrideExpected checkFound
              patchFound mergeIntoNew run).state = st ∧
          (ReconcileResource config st expected shouldCreate overrideExpected checkFound
              patchFound mergeIntoNew run).calls
            = [.Get ⟨expected.GetName, expected.GetNamespace⟩])) := by
  have hname : (EnsureCachingLabel expected).GetName = expected.GetName := rfl
  have hns : (EnsureCachingLabel expected).GetNamespace = expected.GetNamespace := rfl
  refine ⟨?_, ?_, ?_⟩
  · intro hd
    unfold ReconcileResource
    simp [hname, hns, hget, hcheck, hd, hlabel]
  · intro hd hp f hf
    subst hf
    constructor
    · intro patch hpatch
      unfold ReconcileResource
      simp only [hname, hns, hget, hcheck, hd, hp, Bool.false_eq_true, if_false, if_true,
        Bool.not_false, hpatch]
      rcases config.Client.Patch st found patch with ⟨perr, st'⟩
      cases perr <;> simp
    · intro e he
      unfold ReconcileResource
      simp [hname, hns, hget, hcheck, hd, hp, he]
  · intro hd hp m hm
    subst hm
    constructor
    · intro merged ign hmerge
      have hpath := ReconcileResource_merge_path config st expected found shouldCreate
        overrideExpected checkFound patchFound m run status merged ign hget hcheck (Or.inl hd)
        (fun _ hps => by
          rcases hp with h | h
          · rw [h] at hps; cases hps
          · exact h) hmerge
      refine ⟨?_, TryUpdateOrRecreateResource_calls_isPatch config st _ ign,
        fun res hres => TryUpdateOrRecreateResource_calls_head config st _ res ign hres⟩
      rw [hpath]
      cases hte : (TryUpdateOrRecreateResource config st (EnsureCachingLabel merged) ign).err with
      | some te => exact ⟨[], by simp, fun _ => rfl, fun _ => rfl⟩
      | none =>
        cases run with
        | none => exact ⟨[], by simp, fun _ => rfl, fun h => absurd rfl h⟩
        | some r => exact ⟨_, rfl, fun h => Option.noConfusion h, fun h => absurd rfl h⟩
    · intro e he
      unfold ReconcileResource
      simp only [hname, hns, hget, hcheck, hd, Bool.false_eq_true, if_false, Bool.not_false,
        if_true]
      rcases hp with h | h
      · simp [h, he]
      · subst h
        simp [he]

/-- The theorem `ReconcileResource_three_way` at a stored object with the caching label and
a predicate that reports the desired state: the `Get` is the only call. -/
theorem ReconcileResource_three_way_witness :
    (ReconcileResource (Cluster.config Example.reporter false false)
        (Example.clusterWith (Example.object Example.cachingLabels "1" []))
        (Example.object ∅ "" []) true none FoundIsAlwaysInDesiredStateWhenExists
        (some PatchFoundWithSpecLabelsAndAnnotations) (some OverrideFoundWithExpected) none).calls
      = [.Get ⟨"ibm-license-service-reporter", "test"⟩] :=
  ((ReconcileResource_three_way (Cluster.config Example.reporter false false)
      (Example.clusterWith (Example.object Example.cachingLabels "1" []))
      (Example.object ∅ "" []) (Example.object Example.cachingLabels "1" []) true none
      FoundIsAlwaysInDesiredStateWhenExists (some PatchFoundWithSpecLabelsAndAnnotations)
      (some OverrideFoundWithExpected) none ⟨true, false⟩ (by rfl) (by decide) (by rfl)).1
    rfl).2.2

end Reporter

namespace Reporter

variable {σ S P : Type}

/-- C2, as stated, fails. The stored object carries no caching label and the predicate
reports that it is not in its desired state and that a patch suffices: `ReconcileResource`
keeps that answer and takes the patch path, its calls being the `Get` and one `Patch`,
although a merge function is supplied. -/
theorem ReconcileResource_unlabelled_patch_path :
    (Example.object ∅ "1" []).GetLabels.lookup CachingLabelKey = none ∧
    (ReconcileResource (Cluster.config Example.reporter false false)
        (Example.clusterWith (Example.object ∅ "1" []))
        (Example.object ∅ "" []) true none
        (fun _ _ _ => (⟨false, true⟩, none))
        (some PatchFoundWithSpecLabelsAndAnnotations)
        (some OverrideFoundWithExpected) none).calls
      = [.Get ⟨"ibm-license-service-reporter", "test"⟩,
         .Patch (Example.object ∅ "1" [])
           { Labels := ∅, Annotations := ∅, ResourceVersion := "1" }] ∧
    (ReconcileResource (Cluster.config Example.reporter false false)
        (Example.clusterWith (Example.object ∅ "1" []))
        (Example.object ∅ "" []) true none
        (fun _ _ _ => (⟨false, true⟩, none))
        (some PatchFoundWithSpecLabelsAndAnnotations)
        (some OverrideFoundWithExpected) none).err = none :=
  ⟨by decide, by decide, by decide⟩

/-- C2, amended. Let the object be found without the caching label and let the predicate
return `status` without error. If `status` is in-desired-state it is replaced by not in
desired state, patch not sufficient: with a merge function that returns `merged`, the calls
are the `Get`, then those of `TryUpdateOrRecreateResource` on `merged` with the caching
label stamped (none of them a `Patch`), then those of the post-action, which is run with
`shouldRun = false`; without a merge function the `Get` is the only call. If `status` is
not in-desired-state it is kept as the predicate returned it: when a patch suffices and the
supplied patch function returns a patch, the calls are the `Get` and one `Patch`. -/
theorem ReconcileResource_caching_label_override
    (config : IBMLicenseServiceReporterConfig σ S P) (st : σ) (expected found : Object S)
    (shouldCreate : Bool) (overrideExpected : Option (NotFoundExpectedOverrideFunc S))
    (checkFound : IsFoundInDesiredStateIfExistsFunc σ S P)
    (patchFound : Option (ApplyPatchToFoundObjectFunc σ S P))
    (mergeIntoNew : Option (MergeIntoFoundAsNewObjectFunc S))
    (run : Option (RunActionsAfterReconcile σ S P))
    (status : ResourceUpdateStatus)
    (hget : config.Client.Get st ⟨expected.GetName, expected.GetNamespace⟩ = .ok found)
    (hlabel : found.GetLabels.lookup CachingLabelKey ≠ some CachingLabelValue)
    (hcheck : checkFound config found (EnsureCachingLabel expected) = (status, none)) :
    (status.IsInDesiredState = true →
      (∀ m merged ign, mergeIntoNew = some m →
        m found (EnsureCachingLabel expected) = .ok (merged, ign) →
        (∀ c ∈ (TryUpdateOrRecreateResource config st (EnsureCachingLabel merged) ign).calls,
          c.isPatch = false) ∧
        ((TryUpdateOrRecreateResource config st (EnsureCachingLabel merged) ign).err ≠ none →
          (ReconcileResource config st expected shouldCreate overrideExpected checkFound
              patchFound mergeIntoNew run).calls
            = .Get ⟨expected.GetName, expected.GetNamespace⟩ ::
                (TryUpdateOrRecreateResource config st (EnsureCachingLabel merged) ign).calls) ∧
        ((TryUpdateOrRecreateResource config st (EnsureCachingLabel merged) ign).err = none →
          (ReconcileResource config st expected shouldCreate overrideExpected checkFound
              patchFound mergeIntoNew run).calls
            = .Get ⟨expected.GetName, expected.GetNamespace⟩ ::
                ((TryUpdateOrRecreateResource config st (EnsureCachingLabel merged) ign).calls ++
                  match run with
                  | some r =>
                    (r false config
                      (TryUpdateOrRecreateResource config st (EnsureCachingLabel merged)
                        ign).state).calls
                  | none => []))) ∧
      (mergeIntoNew = none →
        (ReconcileResource config st expected shouldCreate overrideExpected checkFound
            patchFound mergeIntoNew run).err = none ∧
        (ReconcileResource config st expected shouldCreate overrideExpected checkFound
            patchFound mergeIntoNew run).calls
          = [.Get ⟨expected.GetName, expected.GetNamespace⟩])) ∧
    (status.IsInDesiredState = false → status.IsPatchSufficient = true →
      ∀ f patch, patchFound = some f → f config found = .ok patch →
        (ReconcileResource config st expected shouldCreate overrideExpected checkFound
            patchFound mergeIntoNew run).calls
          = [.Get ⟨expected.GetName, expected.GetNamespace⟩, .Patch found patch]) := by
  have hname : (EnsureCachingLabel expected).GetName = expected.GetName := rfl
  have hns : (EnsureCachingLabel expected).GetNamespace = expected.GetNamespace := rfl
  refine ⟨fun hd => ⟨?_, ?_⟩, ?_⟩
  · intro m merged ign hm hmerge
    subst hm
    have hpath := ReconcileResource_merge_path config st expected found shouldCreate
      overrideExpected checkFound patchFound m run status merged ign hget hcheck (Or.inr hlabel)
      (fun hf _ => by rw [hd] at hf; cases hf) hmerge
    refine ⟨TryUpdateOrRecreateResource_calls_isPatch config st _ ign, ?_, ?_⟩
    · intro herr
      rw [hpath]
      cases hte : (TryUpdateOrRecreateResource config st (EnsureCachingLabel merged) ign).err with
      | some te => rfl
      | none => exact absurd hte herr
    · intro herr
      rw [hpath, herr, hd]
      cases run with
      | none => simp
      | some r => rfl
  · intro hm
    subst hm
    unfold ReconcileResource
    simp [hname, hns, hget, hcheck, hd, hlabel]
  · intro hd hp f patch hf hpatch
    subst hf
    unfold ReconcileResource
    simp only [hname, hns, hget, hcheck, hd, hp, Bool.false_eq_true, if_false, if_true,
      Bool.not_false, hpatch]
    rcases config.Client.Patch st found patch with ⟨perr, st'⟩
    cases perr <;> rfl

/-- The theorem `ReconcileResource_caching_label_override` at a stored object without labels
and a predicate that reports the desired state: the object is updated to the expected one,
with the caching label and the reporter as its controller. -/
theorem ReconcileResource_caching_label_override_witness :
    (ReconcileResource (Cluster.config Example.reporter false false)
        (Example.clusterWith (Example.object ∅ "1" []))
        (Example.object ∅ "" []) true none FoundIsAlwaysInDesiredStateWhenExists
        (some PatchFoundWithSpecLabelsAndAnnotations) (some OverrideFoundWithExpected) none).calls
      = [.Get ⟨"ibm-license-service-reporter", "test"⟩,
         .Update (Example.object Example.cachingLabels "" [⟨"reporter-uid", true⟩])] :=
  (((ReconcileResource_caching_label_override (Cluster.config Example.reporter false false)
      (Example.clusterWith (Example.object ∅ "1" []))
      (Example.object ∅ "" []) (Example.object ∅ "1" []) true none
      FoundIsAlwaysInDesiredStateWhenExists (some PatchFoundWithSpecLabelsAndAnnotations)
      (some OverrideFoundWithExpected) none ⟨true, false⟩ (by rfl) (by decide) (by rfl)).1
    rfl).1 OverrideFoundWithExpected _ _ rfl rfl).2.2 (by rfl)

end Reporter

namespace Reporter

/-- C3, as stated, fails. The cluster stores the reporter's service without any label, and
the custom resource has a spec label. The first `ReconcileService` succeeds with one `Patch`:
the spec label is missing and a patch suffices. Nothing else changes the cluster. The second
`ReconcileService`, run on the state the first one left, finds the spec label but no caching
label and issues an `Update`. The third one only reads. -/
theorem ReconcileService_second_pass_mutates :
    (services.ReconcileService (Cluster.config Example.reporterWithSpecLabel false false)
      (Example.clusterWith
        ((services.GetService (Cluster.config Example.reporter false false)).SetLabels ∅))).err
      = none ∧
    (services.ReconcileService (Cluster.config Example.reporterWithSpecLabel false false)
      (Example.clusterWith
        ((services.GetService (Cluster.config Example.reporter false false)).SetLabels
          ∅))).calls.map Call.isPatch = [false, true] ∧
    (services.ReconcileService (Cluster.config Example.reporterWithSpecLabel false false)
      (services.ReconcileService (Cluster.config Example.reporterWithSpecLabel false false)
        (Example.clusterWith
          ((services.GetService (Cluster.config Example.reporter false false)).SetLabels
            ∅))).state).calls.map Call.isUpdate = [false, true] ∧
    (services.ReconcileService (Cluster.config Example.reporterWithSpecLabel false false)
      (services.ReconcileService (Cluster.config Example.reporterWithSpecLabel false false)
        (services.ReconcileService (Cluster.config Example.reporterWithSpecLabel false false)
          (Example.clusterWith
            ((services.GetService (Cluster.config Example.reporter false false)).SetLabels
              ∅))).state).state).calls.map Call.isMutating = [false] :=
  ⟨by decide, by decide, by decide, by decide⟩

/-- C3, amended. On the reference cluster, for every custom resource whose spec labels do
not give the caching label another value, and for every cluster state: the first
`ReconcileService` succeeds, and if it issues no `Patch`, then a second `ReconcileService`
with the same inputs, run on the state the first one left, succeeds, issues no mutating call
(no `Create`, `Update`, `Patch` or `Delete`) and leaves that state unchanged. -/
theorem ReconcileService_second_pass_idle (inst : IBMLicenseServiceReporter)
    (isServiceCAAPI isRouteAPI : Bool) (st : Cluster ServiceSpec)
    (hlabel : (GetSpecLabels inst).lookup CachingLabelKey = none ∨
      (GetSpecLabels inst).lookup CachingLabelKey = some CachingLabelValue)
    (hpatch : ∀ c ∈ (services.ReconcileService
      (Cluster.config inst isServiceCAAPI isRouteAPI) st).calls, c.isPatch = false) :
    (services.ReconcileService (Cluster.config inst isServiceCAAPI isRouteAPI) st).err
      = none ∧
    (services.ReconcileService (Cluster.config inst isServiceCAAPI isRouteAPI)
      (services.ReconcileService (Cluster.config inst isServiceCAAPI isRouteAPI)
        st).state).err = none ∧
    (services.ReconcileService (Cluster.config inst isServiceCAAPI isRouteAPI)
      (services.ReconcileService (Cluster.config inst isServiceCAAPI isRouteAPI)
        st).state).state =
      (services.ReconcileService (Cluster.config inst isServiceCAAPI isRouteAPI) st).state ∧
    ∀ c ∈ (services.ReconcileService (Cluster.config inst isServiceCAAPI isRouteAPI)
      (services.ReconcileService (Cluster.config inst isServiceCAAPI isRouteAPI)
        st).state).calls, c.isMutating = false := by
  have hvalue : ∀ v, (GetSpecLabels inst).lookup CachingLabelKey = some v →
      v = CachingLabelValue := by
    intro v hv
    rcases hlabel with hnone | hsome
    · rw [hnone] at hv
      cases hv
    · rw [hsome] at hv
      injection hv with hv
      exact hv.symm
  exact ReconcileResource_second_pass_on_cluster inst isServiceCAAPI isRouteAPI st
    (services.GetService (Cluster.config inst isServiceCAAPI isRouteAPI))
    services.IsServiceInDesiredState rfl rfl rfl
    (fun found => services.IsServiceInDesiredState_no_error _ found _)
    (services.IsServiceInDesiredState_accepts_written inst isServiceCAAPI isRouteAPI hvalue)
    hpatch

/-- The theorem `ReconcileService_second_pass_idle` for the custom resource with the spec
label `team = a` and a cluster that stores the service with that label only: the first pass
issues an `Update`, as the caching label is missing, and the second pass only reads. -/
theorem ReconcileService_second_pass_idle_witness :
    (services.ReconcileService (Cluster.config Example.reporterWithSpecLabel true false)
      (Example.clusterWith
        ((services.GetService (Cluster.config Example.reporterWithSpecLabel true false)).SetLabels
          (GoMap.ofList [("team", "a")])))).calls.map Call.isUpdate = [false, true] ∧
    ∀ c ∈ (services.ReconcileService (Cluster.config Example.reporterWithSpecLabel true false)
      (services.ReconcileService (Cluster.config Example.reporterWithSpecLabel true false)
        (Example.clusterWith
          ((services.GetService
            (Cluster.config Example.reporterWithSpecLabel true false)).SetLabels
              (GoMap.ofList [("team", "a")])))).state).calls, c.isMutating = false :=
  ⟨by decide,
    (ReconcileService_second_pass_idle Example.reporterWithSpecLabel true false
      (Example.clusterWith
        ((services.GetService
          (Cluster.config Example.reporterWithSpecLabel true false)).SetLabels
            (GoMap.ofList [("team", "a")])))
      (Or.inl (by decide)) (by decide)).2.2.2⟩

end Reporter

namespace Reporter

variable {σ S P : Type}

/-- C4, as stated, fails. The stored object has moved on to resource version 2 and the object
to update, still at version 1, is owned by another controller: `Update` is refused, `Delete`
succeeds, and then the controller reference cannot be set, so the function returns an error
after `Update` and `Delete` without ever calling `Create`. -/
theorem TryUpdateOrRecreateResource_delete_without_create :
    ((Cluster.client (S := Unit)).Update
        (Example.clusterWith (Example.object Example.cachingLabels "2" [⟨"other-uid", true⟩]))
        (Example.object Example.cachingLabels "1" [⟨"other-uid", true⟩])).1
      = some (.Status "Conflict") ∧
    (TryUpdateOrRecreateResource (Cluster.config Example.reporter false false)
        (Example.clusterWith (Example.object Example.cachingLabels "2" [⟨"other-uid", true⟩]))
        (Example.object Example.cachingLabels "1" [⟨"other-uid", true⟩]) false).calls
      = [.Update (Example.object Example.cachingLabels "1" [⟨"other-uid", true⟩]),
         .Delete (Example.object Example.cachingLabels "1" [⟨"other-uid", true⟩])] ∧
    (TryUpdateOrRecreateResource (Cluster.config Example.reporter false false)
        (Example.clusterWith (Example.object Example.cachingLabels "2" [⟨"other-uid", true⟩]))
        (Example.object Example.cachingLabels "1" [⟨"other-uid", true⟩]) false).err
      = some (.Errorf "failed to set controller reference on expected resource"
          (.New "object is already owned by another controller")) := by
  refine ⟨by decide, by decide, by decide⟩

/-- C4, amended. Let `res'` be the object after the controller-reference step at the start
of `TryUpdateOrRecreateResource`. If `Update` succeeds the function returns nil after that
one call. If `Update` fails it issues `Delete` once; an error of `Delete` other than
not-found is returned (wrapped) without `Create`; after a successful or not-found `Delete`
the controller reference is set again: if that fails the error is returned without `Create`,
and otherwise `Create` of the same object is issued once and its result (wrapped when it is
an error) is returned. -/
theorem TryUpdateOrRecreateResource_fallback
    (config : IBMLicenseServiceReporterConfig σ S P) (st : σ) (res res' : Object S)
    (ignoreUpdateErr : Bool)
    (hown : (if res.GetOwnerReferences.length = 0 then
        config.SetControllerReference config.Instance res else .ok res) = .ok res') :
    ((config.Client.Update st res').1 = none →
      (TryUpdateOrRecreateResource config st res ignoreUpdateErr).err = none ∧
      (TryUpdateOrRecreateResource config st res ignoreUpdateErr).state
        = (config.Client.Update st res').2 ∧
      (TryUpdateOrRecreateResource config st res ignoreUpdateErr).calls = [.Update res']) ∧
    ((config.Client.Update st res').1 ≠ none →
      (∀ d, (config.Client.Delete (config.Client.Update st res').2 res').1 = some d →
        apierrors.IsNotFound d = false →
        (TryUpdateOrRecreateResource config st res ignoreUpdateErr).err
          = some (.Errorf "failed to delete resource" d) ∧
        (TryUpdateOrRecreateResource config st res ignoreUpdateErr).state
          = (config.Client.Delete (config.Client.Update st res').2 res').2 ∧
        (TryUpdateOrRecreateResource config st res ignoreUpdateErr).calls
          = [.Update res', .Delete res']) ∧
      (((config.Client.Delete (config.Client.Update st res').2 res').1 = none ∨
          ∃ d, (config.Client.Delete (config.Client.Update st res').2 res').1 = some d ∧
            apierrors.IsNotFound d = true) →
        (∀ e, config.SetControllerReference config.Instance res' = .error e →
          (TryUpdateOrRecreateResource config st res ignoreUpdateErr).err
            = some (.Errorf "failed to set controller reference on expected resource" e) ∧
          (TryUpdateOrRecreateResource config st res ignoreUpdateErr).state
            = (config.Client.Delete (config.Client.Update st res').2 res').2 ∧
          (TryUpdateOrRecreateResource config st res ignoreUpdateErr).calls
            = [.Update res', .Delete res']) ∧
        (∀ res'', config.SetControllerReference config.Instance res' = .ok res'' →
          (TryUpdateOrRecreateResource config st res ignoreUpdateErr).err
            = (config.Client.Create
                (config.Client.Delete (config.Client.Update st res').2 res').2 res'').1.map
                (Err.Errorf "failed to create new resource") ∧
          (TryUpdateOrRecreateResource config st res ignoreUpdateErr).state
            = (config.Client.Create
                (config.Client.Delete (config.Client.Update st res').2 res').2 res'').2 ∧
          (TryUpdateOrRecreateResource config st res ignoreUpdateErr).calls
            = [.Update res', .Delete res', .Create res'']))) := by
  unfold TryUpdateOrRecreateResource
  simp only [hown]
  rcases hu : config.Client.Update st res' with ⟨uerr, st1⟩
  cases uerr with
  | none => simp
  | some ue =>
    simp only [reduceCtorEq, false_implies, ne_eq, not_false_eq_true, true_implies, true_and]
    unfold DeleteResource
    rcases hd : config.Client.Delete st1 res' with ⟨derr, st2⟩
    have hcreate : ∀ res'',
        config.SetControllerReference config.Instance res' = .ok res'' →
        (CreateResource config st2 res').err
            = (config.Client.Create st2 res'').1.map (Err.Errorf "failed to create new resource") ∧
          (CreateResource config st2 res').state = (config.Client.Create st2 res'').2 ∧
          (CreateResource config st2 res').calls = [.Create res''] := by
      intro res'' hs
      unfold CreateResource
      simp only [hs]
      rcases hc : config.Client.Create st2 res'' with ⟨cerr, st3⟩
      cases cerr <;> simp
    have hnocreate : ∀ e,
        config.SetControllerReference config.Instance res' = .error e →
        CreateResource config st2 res' =
          ⟨some (.Errorf "failed to set controller reference on expected resource" e), st2, []⟩ := by
      intro e hs
      unfold CreateResource
      simp only [hs]
    cases derr with
    | none =>
      simp only [reduceCtorEq, false_implies, implies_true, true_and, true_or, true_implies]
      constructor
      · intro e hs
        simp [hnocreate e hs]
      · intro res'' hs
        obtain ⟨h1, h2, h3⟩ := hcreate res'' hs
        cases hce : (CreateResource config st2 res').err with
        | none => simp [hce, ← h1, h2, h3]
        | some ce => simp [hce, ← h1, h2, h3]
    | some de =>
      cases hnf : apierrors.IsNotFound de with
      | false => simp [hnf]
      | true =>
        simp only [hnf, Bool.not_true, Bool.false_eq_true, if_false, Option.some.injEq,
          reduceCtorEq, false_or, exists_eq_left', true_implies]
        refine ⟨by intro d hd' h; rw [← hd'] at h; simp [hnf] at h, ?_, ?_⟩
        · intro e hs
          simp [hnocreate e hs]
        · intro res'' hs
          obtain ⟨h1, h2, h3⟩ := hcreate res'' hs
          cases hce : (CreateResource config st2 res').err with
          | none => simp [hce, ← h1, h2, h3]
          | some ce => simp [hce, ← h1, h2, h3]

/-- The theorem `TryUpdateOrRecreateResource_fallback` at a stored object without owner: the
reporter becomes its controller and the update succeeds. -/
theorem TryUpdateOrRecreateResource_fallback_witness :
    (TryUpdateOrRecreateResource (Cluster.config Example.reporter false false)
        (Example.clusterWith (Example.object Example.cachingLabels "1" []))
        (Example.object Example.cachingLabels "1" []) false).calls
      = [.Update (Example.object Example.cachingLabels "1" [⟨"reporter-uid", true⟩])] :=
  ((TryUpdateOrRecreateResource_fallback (Cluster.config Example.reporter false false)
      (Example.clusterWith (Example.object Example.cachingLabels "1" []))
      (Example.object Example.cachingLabels "1" [])
      (Example.object Example.cachingLabels "1" [⟨"reporter-uid", true⟩]) false
      (by rfl)).1 (by decide)).2.2

end Reporter

namespace Reporter

variable {σ S P : Type}

/-- C5. When `Get` answers not-found and creation is enabled, an override that returns an
object with another name or namespace makes `ReconcileResource` fail after the `Get` alone,
without `Create`; an override that keeps both hands its object to `CreateResource`: the calls
are the `Get` followed by those of `CreateResource` on the overridden object, the reconcile
succeeds exactly when that creation does, and the `Create` issued carries the overridden
object with its controller reference set. -/
theorem ReconcileResource_override_on_create
    (config : IBMLicenseServiceReporterConfig σ S P) (st : σ) (expected o : Object S)
    (overrideExpected : NotFoundExpectedOverrideFunc S)
    (checkFound : IsFoundInDesiredStateIfExistsFunc σ S P)
    (patchFound : Option (ApplyPatchToFoundObjectFunc σ S P))
    (mergeIntoNew : Option (MergeIntoFoundAsNewObjectFunc S))
    (runAdditionalActions : Option (RunActionsAfterReconcile σ S P)) (e : Err)
    (hget : config.Client.Get st ⟨expected.GetName, expected.GetNamespace⟩ = .error e)
    (hnf : apierrors.IsNotFound e = true)
    (hov : overrideExpected (EnsureCachingLabel expected) = .ok o) :
    ((o.GetNamespace ≠ expected.GetNamespace ∨ o.GetName ≠ expected.GetName) →
      (ReconcileResource config st expected true (some overrideExpected) checkFound patchFound
          mergeIntoNew runAdditionalActions).err
        = some (.New "overrideExpected cannot change the name or namespace of expected") ∧
      (ReconcileResource config st expected true (some overrideExpected) checkFound patchFound
          mergeIntoNew runAdditionalActions).state = st ∧
      (ReconcileResource config st expected true (some overrideExpected) checkFound patchFound
          mergeIntoNew runAdditionalActions).calls
        = [.Get ⟨expected.GetName, expected.GetNamespace⟩]) ∧
    ((o.GetNamespace = expected.GetNamespace ∧ o.GetName = expected.GetName) →
      (ReconcileResource config st expected true (some overrideExpected) checkFound patchFound
          mergeIntoNew runAdditionalActions).calls
        = .Get ⟨expected.GetName, expected.GetNamespace⟩ :: (CreateResource config st o).calls ∧
      (ReconcileResource config st expected true (some overrideExpected) checkFound patchFound
          mergeIntoNew runAdditionalActions).state = (CreateResource config st o).state ∧
      ((ReconcileResource config st expected true (some overrideExpected) checkFound patchFound
          mergeIntoNew runAdditionalActions).err = none ↔
        (CreateResource config st o).err = none) ∧
      (∀ o', config.SetControllerReference config.Instance o = .ok o' →
        (ReconcileResource config st expected true (some overrideExpected) checkFound patchFound
            mergeIntoNew runAdditionalActions).calls
          = [.Get ⟨expected.GetName, expected.GetNamespace⟩, .Create o'])) := by
  have hname : (EnsureCachingLabel expected).GetName = expected.GetName := rfl
  have hns : (EnsureCachingLabel expected).GetNamespace = expected.GetNamespace := rfl
  unfold ReconcileResource
  simp only [hname, hns, hget, hnf, if_true, hov]
  constructor
  · intro hdiff
    simp [hdiff]
  · rintro ⟨h1, h2⟩
    simp only [h1, h2, ne_eq, not_true_eq_false, or_self, if_false]
    have hcalls : ∀ o', config.SetControllerReference config.Instance o = .ok o' →
        (CreateResource config st o).calls = [.Create o'] := by
      intro o' hs
      unfold CreateResource
      simp only [hs]
      rcases config.Client.Create st o' with ⟨cerr, st3⟩
      cases cerr <;> rfl
    cases hce : (CreateResource config st o).err with
    | none =>
      simp only [true_and, implies_true, and_true]
      intro o' hs
      rw [hcalls o' hs]
    | some ce =>
      by_cases hae : apierrors.IsAlreadyExists ce = true
      · simp only [hae, if_true, reduceCtorEq, true_and]
        intro o' hs
        rw [hcalls o' hs]
      · simp only [hae, Bool.false_eq_true, if_false, reduceCtorEq, true_and]
        intro o' hs
        rw [hcalls o' hs]

/-- The theorem `ReconcileResource_override_on_create` on an empty cluster, with an override
that returns its argument: the object created is that object, owned by the reporter. -/
theorem ReconcileResource_override_on_create_witness :
    (ReconcileResource (Cluster.config Example.reporter false false)
        ({ objects := ∅, pods := [] } : Cluster Unit) (Example.object ∅ "" []) true
        (some fun o => .ok o) FoundIsAlwaysInDesiredStateWhenExists none none none).calls
      = [.Get ⟨"ibm-license-service-reporter", "test"⟩,
         .Create (Example.object Example.cachingLabels "" [⟨"reporter-uid", true⟩])] :=
  ((ReconcileResource_override_on_create (Cluster.config Example.reporter false false)
      ({ objects := ∅, pods := [] } : Cluster Unit) (Example.object ∅ "" [])
      (EnsureCachingLabel (Example.object ∅ "" [])) (fun o => .ok o)
      FoundIsAlwaysInDesiredStateWhenExists none none none .StatusNotFound
      (by rfl) (by rfl) (by rfl)).2 ⟨rfl, rfl⟩).2.2.2 _ (by rfl)

end Reporter

namespace Reporter

open secrets

/-- C6, as stated, fails. The cluster stores a credentials secret with user name `admin` and
password `password` that carries no caching label. `ReconcileCredentialsSecrets` succeeds and
leaves under the secret's name the generated user name and password. -/
theorem ReconcileCredentialsSecrets_overwrites_unlabelled :
    (Example.clusterWith (Example.credentialsSecret ∅ "admin" "password")).objects.lookup
        ⟨ReporterCredentialsSecretName, "test"⟩
      = some (Example.credentialsSecret ∅ "admin" "password") ∧
    (ReconcileCredentialsSecrets Example.sources (Cluster.config Example.reporter false false)
        (Example.clusterWith (Example.credentialsSecret ∅ "admin" "password"))).err = none ∧
    ((ReconcileCredentialsSecrets Example.sources (Cluster.config Example.reporter false false)
        (Example.clusterWith (Example.credentialsSecret ∅ "admin" "password"))).state.objects.lookup
        ⟨ReporterCredentialsSecretName, "test"⟩).map
        (fun secret => (secret.Body.Data.lookup "username", secret.Body.Data.lookup "password"))
      = some (some "license-administrator", some "cmFuZG9tLXBhc3N3b3JkIQ==") :=
  ⟨by decide, by decide, by decide⟩

/-- C6, amended. On the reference cluster, for every stored credentials secret that carries
the caching label and whose user name and password are both present and non-empty,
`ReconcileCredentialsSecrets` leaves under the secret's name a secret with the same type and
data, whatever values the builder generated, whatever the bcrypt functions answer and
whatever else the cluster stores. -/
theorem ReconcileCredentialsSecrets_keeps_credentials (src : Sources)
    (inst : IBMLicenseServiceReporter) (ca route : Bool) (st : Cluster SecretBody)
    (stored : Object SecretBody) (username password : String)
    (hstored : st.objects.lookup ⟨ReporterCredentialsSecretName, inst.Namespace⟩ = some stored)
    (hlabel : stored.GetLabels.lookup CachingLabelKey = some CachingLabelValue)
    (husername : stored.Body.Data.lookup "username" = some username)
    (hu : username ≠ "")
    (hpassword : stored.Body.Data.lookup "password" = some password)
    (hp : password ≠ "") :
    ∃ kept,
      (ReconcileCredentialsSecrets src (Cluster.config inst ca route) st).state.objects.lookup
          ⟨ReporterCredentialsSecretName, inst.Namespace⟩ = some kept ∧
      kept.Body = stored.Body := by
  have h0 : Cluster.holdsBody ⟨ReporterCredentialsSecretName, inst.Namespace⟩ stored.Body st :=
    ⟨stored, hstored, rfl⟩
  change Cluster.holdsBody ⟨ReporterCredentialsSecretName, inst.Namespace⟩ stored.Body _
  unfold ReconcileCredentialsSecrets
  simp only
  cases hexp : GetReporterCredentialsSecret src (Cluster.config inst ca route).Instance.Namespace
      (LabelsForMeta (Cluster.config inst ca route).Instance)
      (GetSpecAnnotations (Cluster.config inst ca route).Instance) with
  | error e => exact h0
  | ok expectedCredsSecret =>
    simp only
    -- the credentials secret itself
    have hkey : (⟨expectedCredsSecret.GetName, expectedCredsSecret.GetNamespace⟩ : NamespacedName)
        = ⟨ReporterCredentialsSecretName, inst.Namespace⟩ := by
      unfold GetReporterCredentialsSecret at hexp
      split at hexp
      · cases hexp
      · injection hexp with hexp
        subst hexp
        rfl
    have hget : (Cluster.config inst ca route).Client.Get st
        ⟨expectedCredsSecret.GetName, expectedCredsSecret.GetNamespace⟩ = .ok stored := by
      rw [hkey]
      have hc : Cluster.client.Get st ⟨ReporterCredentialsSecretName, inst.Namespace⟩
          = .ok stored := by
        simp only [Cluster.client, hstored]
      exact hc
    have h1 : Cluster.holdsBody ⟨ReporterCredentialsSecretName, inst.Namespace⟩ stored.Body
        (ReconcileResource (Cluster.config inst ca route) st expectedCredsSecret true none
          credentialsCheckFound (some PatchFoundWithSpecLabelsAndAnnotations)
          (some OverrideFoundWithExpected) none).state := by
      have hcheck : ∃ status,
          credentialsCheckFound (σ := Cluster SecretBody) (P := MergePatch)
            (Cluster.config inst ca route) stored (EnsureCachingLabel expectedCredsSecret)
            = (status, none) ∧
          (status.IsInDesiredState = true ∨
            (status.IsInDesiredState = false ∧ status.IsPatchSufficient = true)) := by
        unfold credentialsCheckFound
        simp only [husername, hpassword, hu, hp, decide_False, Bool.false_eq_true, if_false]
        split
        · exact ⟨_, rfl, Or.inr ⟨rfl, rfl⟩⟩
        · split
          · exact ⟨_, rfl, Or.inr ⟨rfl, rfl⟩⟩
          · exact ⟨_, rfl, Or.inl rfl⟩
      obtain ⟨status, hcheck, hstatus⟩ := hcheck
      rcases hstatus with hd | ⟨hd, hps⟩
      · rw [ReconcileResource_idle_path _ _ _ _ _ _ _ _ _ _ _ hget hcheck hd hlabel]
        exact h0
      · rw [ReconcileResource_patch_path _ _ _ _ _ _ _ _ _ _ _ hget hcheck hd hps]
        exact Cluster.holdsBody_Patch _ _ st stored _ h0
    split
    · exact h1
    · split
      · exact h1
      · exact h1
      · split
        · exact h1
        · rename_i expectedHtpasswdSecret hht
          have hk : Cluster.keyOf expectedHtpasswdSecret
              ≠ ⟨ReporterCredentialsSecretName, inst.Namespace⟩ := by
            unfold GetReporterHtpasswdSecret at hht
            simp only at hht
            split at hht
            · cases hht
            · injection hht with hht
              subst hht
              intro hcontra
              have : ReporterHtpasswdSecretName = ReporterCredentialsSecretName :=
                congrArg NamespacedName.Name hcontra
              exact absurd this (by decide)
          exact holdsBody_ReconcileResource _ _ inst ca route _ expectedHtpasswdSecret true _ _
            (some RestartReporterOperandPod) hk
            (fun r hr b st' hst' => by
              injection hr with hr
              subst hr
              exact holdsBody_RestartReporterOperandPod _ _ inst ca route b st' hst')
            h1

/-- The theorem `ReconcileCredentialsSecrets_keeps_credentials` at a cluster that stores a
labelled credentials secret with user name `admin` and password `password`. -/
theorem ReconcileCredentialsSecrets_keeps_credentials_witness :
    ∃ kept,
      (ReconcileCredentialsSecrets Example.sources (Cluster.config Example.reporter false false)
          (Example.clusterWith
            (Example.credentialsSecret Example.cachingLabels "admin" "password"))).state.objects.lookup
          ⟨ReporterCredentialsSecretName, "test"⟩ = some kept ∧
      kept.Body = (Example.credentialsSecret Example.cachingLabels "admin" "password").Body :=
  ReconcileCredentialsSecrets_keeps_credentials Example.sources Example.reporter false false
    (Example.clusterWith (Example.credentialsSecret Example.cachingLabels "admin" "password"))
    (Example.credentialsSecret Example.cachingLabels "admin" "password") "admin" "password"
    (by decide) (by decide) (by decide) (by decide) (by decide) (by decide)

end Reporter

namespace Reporter

open secrets

variable {σ P : Type}

/-- C7, as stated, fails. For the user name `a:b` and the password `pw` the entry that
`generateHtpasswd` produces splits on the colon into three pieces: the htpasswd secret built
from these credentials is rejected by the state check run against the same credentials,
although the hash validates the password. -/
theorem htpasswdCheckFound_rejects_colon_username :
    generateHtpasswd Example.sources "a:b" "pw" = .ok "a:b:$2a$10$pw\n" ∧
    Example.sources.CompareHashAndPassword "$2a$10$pw\n" "pw" = true ∧
    (GetReporterHtpasswdSecret Example.sources "test" (LabelsForMeta Example.reporter)
        (GetSpecAnnotations Example.reporter)
        (Example.credentialsSecret Example.cachingLabels "a:b" "pw")).toOption.map
      (fun secret =>
        ((htpasswdCheckFound Example.sources "a:b" "pw"
          (Cluster.config Example.reporter false false) secret secret).1.IsInDesiredState,
          secret.Body.Data.lookup "data"))
      = some (false, some "a:b:$2a$10$pw\n") :=
  ⟨by rfl, by decide, by decide⟩

/-- C7, amended. Let `found` be the htpasswd secret that `GetReporterHtpasswdSecret` builds
from a credentials secret with user name `u` and password `p`, `hashedPassword` being the
hash generated for `p`; its data is the entry `u:hashedPassword\n`. Run against the source
credentials `(expectedUsername, expectedPassword)`, the htpasswd state check returns no
error and accepts `found` iff neither `u` nor the hash contains a colon,
`expectedUsername` is `u`, and the hash followed by the entry's newline validates
`expectedPassword`. -/
theorem htpasswdCheckFound_round_trip (src : Sources)
    (config : IBMLicenseServiceReporterConfig σ SecretBody P) (namespace_ : String)
    (credsSecret found expected : Object SecretBody)
    (hashedPassword expectedUsername expectedPassword data : String)
    (hhash : src.GenerateFromPassword ((credsSecret.Body.Data.lookup "password").getD "")
      = .ok hashedPassword)
    (hfound : GetReporterHtpasswdSecret src namespace_ (LabelsForMeta config.Instance)
      (GetSpecAnnotations config.Instance) credsSecret = .ok found)
    (hexpType : expected.Body.Type_ = "Opaque")
    (hexpData : expected.Body.Data = GoMap.ofList [("data", data)]) :
    found.Body.Data.lookup "data"
      = some ((credsSecret.Body.Data.lookup "username").getD "" ++ ":" ++ hashedPassword
          ++ "\n") ∧
    (htpasswdCheckFound src expectedUsername expectedPassword config found expected).2 = none ∧
    ((htpasswdCheckFound src expectedUsername expectedPassword config found
        expected).1.IsInDesiredState = true ↔
      ':' ∉ ((credsSecret.Body.Data.lookup "username").getD "").data ∧
      ':' ∉ hashedPassword.data ∧
      (credsSecret.Body.Data.lookup "username").getD "" = expectedUsername ∧
      src.CompareHashAndPassword (hashedPassword ++ "\n") expectedPassword = true) := by
  generalize hu : (credsSecret.Body.Data.lookup "username").getD "" = u at *
  unfold GetReporterHtpasswdSecret generateHtpasswd at hfound
  simp only [hhash, hu] at hfound
  injection hfound with hfound
  subst hfound
  have hlookup : (GoMap.ofList [("data", u ++ ":" ++ hashedPassword ++ "\n")]).lookup "data"
      = some (u ++ ":" ++ hashedPassword ++ "\n") := by
    simp only [GoMap.ofList, List.foldr]
    exact AList.lookup_insert _
  have hkeys : MapHasAllKeysFromOther
      (GoMap.ofList [("data", u ++ ":" ++ hashedPassword ++ "\n")]) expected.Body.Data = true := by
    rw [hexpData]
    unfold MapHasAllKeysFromOther
    have hentries : (GoMap.ofList [("data", data)]).entries = [⟨"data", data⟩] := rfl
    simp only [hentries, List.all_cons, List.all_nil, Bool.and_true, hlookup, Option.isSome_some]
  have hlabels : MapHasAllPairsFromOther (LabelsForMeta config.Instance)
      (GetSpecLabels config.Instance) = true := MapHasAllPairsFromOther_MergeMaps _ _
  have hann : MapHasAllPairsFromOther (GetSpecAnnotations config.Instance)
      (GetSpecAnnotations config.Instance) = true := MapHasAllPairsFromOther_refl _
  refine ⟨hlookup, ?_, ?_⟩
  · unfold htpasswdCheckFound
    simp only
    split
    · rfl
    · split
      · rfl
      · split
        · split
          · rfl
          · split
            · rfl
            · split
              · rfl
              · split <;> rfl
        · rfl
  · unfold htpasswdCheckFound
    simp only [hexpType, ne_eq, not_true_eq_false, if_false, hkeys, Bool.not_true,
      Bool.false_eq_true, hlookup, Option.getD_some, Object.GetLabels, Object.GetAnnotations,
      hlabels, hann]
    by_cases hcolon : ':' ∉ u.data ∧ ':' ∉ hashedPassword.data
    · rw [(strings.Split_entry u hashedPassword).1 hcolon]
      simp only [hcolon.1, hcolon.2, not_false_eq_true, true_and]
      by_cases hname : u = expectedUsername
      · cases hcmp : src.CompareHashAndPassword (hashedPassword ++ "\n") expectedPassword <;>
          simp [hname, hcmp]
      · simp [hname]
    · have hlen := (strings.Split_entry u hashedPassword).2 hcolon
      have hleft : ¬ (':' ∉ u.data ∧ ':' ∉ hashedPassword.data ∧ u = expectedUsername ∧
          src.CompareHashAndPassword (hashedPassword ++ "\n") expectedPassword = true) :=
        fun h => hcolon ⟨h.1, h.2.1⟩
      simp only [hleft, iff_false]
      split
      · rename_i heq
        rw [heq] at hlen
        exact absurd rfl hlen
      · simp

/-- The theorem `htpasswdCheckFound_round_trip` at the credentials `admin` and `pw`: the
htpasswd secret built from them is accepted against the same credentials. -/
theorem htpasswdCheckFound_round_trip_witness :
    (htpasswdCheckFound Example.sources "admin" "pw"
        (Cluster.config Example.reporter false false)
        (Example.htpasswdSecret "admin:$2a$10$pw\n")
        (Example.htpasswdSecret "admin:$2a$10$pw\n")).1.IsInDesiredState = true :=
  (htpasswdCheckFound_round_trip Example.sources (Cluster.config Example.reporter false false)
    "test" (Example.credentialsSecret Example.cachingLabels "admin" "pw")
    (Example.htpasswdSecret "admin:$2a$10$pw\n") (Example.htpasswdSecret "admin:$2a$10$pw\n")
    "$2a$10$pw" "admin" "pw" "admin:$2a$10$pw\n" (by rfl) (by rfl) (by rfl) (by rfl)).2.2.mpr
    ⟨by decide, by decide, by rfl, by decide⟩

end Reporter

namespace Reporter

open Scanner

/-- C8. The superset checks `MapHasAllPairsFromOther` (reporter), `labelsEqual` and
`annotationsEqual` (scanner) return true iff every key of the expected map is in the actual
map with an equal value; adding a new key to the actual map keeps a true answer true, and
removing a key of the expected map from the actual map makes the answer false. -/
theorem superset_checks_characterised {K V S : Type} [DecidableEq K] [DecidableEq V] :
    (∀ checked needed : GoMap K V,
      (MapHasAllPairsFromOther checked needed = true ↔
        ∀ k v, needed.lookup k = some v → checked.lookup k = some v)) ∧
    (∀ b : BaseReconcilableResource S,
      (b.labelsEqual = true ↔
        ∀ k v, b.ExpectedResource.GetLabels.lookup k = some v →
          b.ActualResource.GetLabels.lookup k = some v) ∧
      (b.annotationsEqual = true ↔
        ∀ k v, b.ExpectedResource.GetAnnotations.lookup k = some v →
          b.ActualResource.GetAnnotations.lookup k = some v)) ∧
    (∀ (checked needed : GoMap K V) (k : K) (v : V), k ∉ checked →
      MapHasAllPairsFromOther checked needed = true →
      MapHasAllPairsFromOther (checked.insert k v) needed = true) ∧
    (∀ (b : BaseReconcilableResource S) (k v : String),
      (k ∉ b.ActualResource.GetLabels → b.labelsEqual = true →
        BaseReconcilableResource.labelsEqual
          { b with
            ActualResource := b.ActualResource.SetLabels (b.ActualResource.GetLabels.insert k v) }
          = true) ∧
      (k ∉ b.ActualResource.GetAnnotations → b.annotationsEqual = true →
        BaseReconcilableResource.annotationsEqual
          { b with
            ActualResource :=
              b.ActualResource.SetAnnotations (b.ActualResource.GetAnnotations.insert k v) }
          = true)) ∧
    (∀ (checked needed : GoMap K V) (k : K), k ∈ needed →
      MapHasAllPairsFromOther (checked.erase k) needed = false) ∧
    (∀ (b : BaseReconcilableResource S) (k : String),
      (k ∈ b.ExpectedResource.GetLabels →
        BaseReconcilableResource.labelsEqual
          { b with
            ActualResource := b.ActualResource.SetLabels (b.ActualResource.GetLabels.erase k) }
          = false) ∧
      (k ∈ b.ExpectedResource.GetAnnotations →
        BaseReconcilableResource.annotationsEqual
          { b with
            ActualResource :=
              b.ActualResource.SetAnnotations (b.ActualResource.GetAnnotations.erase k) }
          = false)) := by
  have hadd : ∀ {K V : Type} [DecidableEq K] [DecidableEq V] (checked needed : GoMap K V)
      (k : K) (v : V), k ∉ checked →
      MapHasAllPairsFromOther checked needed = true →
      MapHasAllPairsFromOther (checked.insert k v) needed = true := by
    intro K V _ _ checked needed k v hk h
    rw [MapHasAllPairsFromOther_iff] at h ⊢
    intro k' v' hn
    have hc := h k' v' hn
    have hne : k' ≠ k := by
      rintro rfl
      exact hk (AList.lookup_isSome.mp (by simp [hc]))
    rw [AList.lookup_insert_ne hne]
    exact hc
  have hdel : ∀ {K V : Type} [DecidableEq K] [DecidableEq V] (checked needed : GoMap K V)
      (k : K), k ∈ needed → MapHasAllPairsFromOther (checked.erase k) needed = false := by
    intro K V _ _ checked needed k hk
    rw [Bool.eq_false_iff]
    intro h
    rw [MapHasAllPairsFromOther_iff] at h
    obtain ⟨v, hv⟩ := Option.isSome_iff_exists.mp (AList.lookup_isSome.mpr hk)
    have := h k v hv
    rw [AList.lookup_erase] at this
    exact Option.noConfusion this
  refine ⟨MapHasAllPairsFromOther_iff, ?_, hadd, ?_, hdel, ?_⟩
  · intro b
    rw [labelsEqual_eq, annotationsEqual_eq]
    exact ⟨MapHasAllPairsFromOther_iff _ _, MapHasAllPairsFromOther_iff _ _⟩
  · intro b k v
    constructor
    · intro hk h
      rw [labelsEqual_eq] at h ⊢
      exact hadd _ _ k v hk h
    · intro hk h
      rw [annotationsEqual_eq] at h ⊢
      exact hadd _ _ k v hk h
  · intro b k
    constructor
    · intro hk
      rw [labelsEqual_eq]
      exact hdel _ _ k hk
    · intro hk
      rw [annotationsEqual_eq]
      exact hdel _ _ k hk

/-- The theorem `superset_checks_characterised` at the actual map `a ↦ 1`, to which the new
key `b` is added. -/
theorem superset_checks_characterised_witness :
    "b" ∉ GoMap.ofList [("a", "1")] ∧
    MapHasAllPairsFromOther (GoMap.ofList [("a", "1")]) (GoMap.ofList [("a", "1")]) = true ∧
    MapHasAllPairsFromOther ((GoMap.ofList [("a", "1")]).insert "b" "2")
      (GoMap.ofList [("a", "1")]) = true :=
  ⟨by decide, by decide,
    (superset_checks_characterised (S := Unit)).2.2.1 _ _ "b" "2" (by decide) (by decide)⟩

end Reporter

namespace Reporter

/-- C9, as stated, fails. A list of one container whose resource limits and requests are nil
is not equal to itself for `equalContainerLists`; neither is a list in which two containers
share a name and differ in their image, although limits and requests are set. -/
theorem equalContainerLists_not_reflexive :
    ([⟨"db", "postgres", "Always", [], [], [], [], [], none, ⟨none, none⟩, none, none⟩] :
        List Container).Perm
      [⟨"db", "postgres", "Always", [], [], [], [], [], none, ⟨none, none⟩, none, none⟩] ∧
    equalContainerLists
      [⟨"db", "postgres", "Always", [], [], [], [], [], none, ⟨none, none⟩, none, none⟩]
      [⟨"db", "postgres", "Always", [], [], [], [], [], none, ⟨none, none⟩, none, none⟩] = false ∧
    equalContainerLists
      [⟨"db", "postgres:1", "Always", [], [], [], [], [], none, ⟨some ∅, some ∅⟩, none, none⟩,
       ⟨"db", "postgres:2", "Always", [], [], [], [], [], none, ⟨some ∅, some ∅⟩, none, none⟩]
      [⟨"db", "postgres:1", "Always", [], [], [], [], [], none, ⟨some ∅, some ∅⟩, none, none⟩,
       ⟨"db", "postgres:2", "Always", [], [], [], [], [], none, ⟨some ∅, some ∅⟩, none, none⟩]
      = false :=
  ⟨List.Perm.refl _, by decide, by decide⟩

/-- C9, amended. For every container list `L` whose container names are pairwise distinct and
whose containers all have limits and requests set (not nil), and for every reordering `L'`
of `L`, `equalContainerLists L' L` is true. -/
theorem equalContainerLists_reordering (L L' : List Container)
    (hnames : (L.map fun c => c.Name).Nodup)
    (hres : ∀ c ∈ L, c.Resources.Limits ≠ none ∧ c.Resources.Requests ≠ none)
    (hperm : L'.Perm L) : equalContainerLists L' L = true := by
  unfold equalContainerLists
  have hlen : L'.length = L.length := hperm.length_eq
  simp only [hlen, ne_eq, not_true_eq_false, if_false]
  by_cases h0 : L.length = 0
  · simp [h0]
  · simp only [h0, if_false]
    rw [containersToBeChecked_of_subset L hnames L' (fun c hc => hperm.subset hc)]
    simp only
    rw [foldl_potentialDifference_self L' (fun c hc => hres c (hperm.subset hc))]
    rfl

/-- The theorem `equalContainerLists_reordering` at a list of two containers and its
reversal. -/
theorem equalContainerLists_reordering_witness :
    equalContainerLists
      [⟨"ui", "ui:1", "Always", [], [], [], [], [], none, ⟨some ∅, some ∅⟩, none, none⟩,
       ⟨"db", "postgres:1", "Always", [], [], [], [], [], none, ⟨some ∅, some ∅⟩, none, none⟩]
      [⟨"db", "postgres:1", "Always", [], [], [], [], [], none, ⟨some ∅, some ∅⟩, none, none⟩,
       ⟨"ui", "ui:1", "Always", [], [], [], [], [], none, ⟨some ∅, some ∅⟩, none, none⟩]
      = true :=
  equalContainerLists_reordering _ _ (by decide) (by decide) (List.Perm.swap _ _ _)

end Reporter

namespace Reporter

/-- C10. `equalEnvVars` does not compare with multiplicity. A found list that holds the pair
`(A, 1)` twice is reported equal to the expected list `(A, 1), (B, 2)`, although the two do
not hold the same pairs; and two lists with the same names, in which `X` carries the value
`2` once in the second list only, are reported equal as well. -/
theorem equalEnvVars_not_multiset_equality :
    (equalEnvVars [⟨"A", "1", none⟩, ⟨"A", "1", none⟩] [⟨"A", "1", none⟩, ⟨"B", "2", none⟩] = true ∧
      ¬ (([⟨"A", "1", none⟩, ⟨"A", "1", none⟩] : List EnvVar).map
            (fun e => (e.Name, e.Value))).Perm
          (([⟨"A", "1", none⟩, ⟨"B", "2", none⟩] : List EnvVar).map
            (fun e => (e.Name, e.Value)))) ∧
    (equalEnvVars [⟨"X", "1", none⟩, ⟨"X", "1", none⟩] [⟨"X", "1", none⟩, ⟨"X", "2", none⟩] = true ∧
      ([⟨"X", "1", none⟩, ⟨"X", "1", none⟩] : List EnvVar).map (fun e => e.Name) =
        ([⟨"X", "1", none⟩, ⟨"X", "2", none⟩] : List EnvVar).map (fun e => e.Name) ∧
      ¬ (([⟨"X", "1", none⟩, ⟨"X", "1", none⟩] : List EnvVar).map
            (fun e => (e.Name, e.Value))).Perm
          (([⟨"X", "1", none⟩, ⟨"X", "2", none⟩] : List EnvVar).map
            (fun e => (e.Name, e.Value)))) := by
  refine ⟨⟨by decide, ?_⟩, ⟨by decide, by decide, ?_⟩⟩
  · intro h
    have h2 : (("B", "2") : String × String) ∈
        (([⟨"A", "1", none⟩, ⟨"A", "1", none⟩] : List EnvVar).map
          (fun e => (e.Name, e.Value))) :=
      h.symm.subset (by simp)
    simp at h2
  · intro h
    have h2 : (("X", "2") : String × String) ∈
        (([⟨"X", "1", none⟩, ⟨"X", "1", none⟩] : List EnvVar).map
          (fun e => (e.Name, e.Value))) :=
      h.symm.subset (by simp)
    simp at h2

/-- What `equalEnvVars` decides: `equalEnvVars a b` is true iff the lists have the same length
and every (name, value) pair of `a` occurs in `b`. When the pairs of `a` are pairwise distinct this is
the same as `a` and `b` holding the same pairs with multiplicity, in any order; and when the
names of `a` are pairwise distinct and `b` has the same names, a name that carries different
values in the two lists makes the answer false. -/
theorem equalEnvVars_characterised :
    (∀ a b : List EnvVar,
      equalEnvVars a b = true ↔
        a.length = b.length ∧ ∀ e ∈ a, ∃ e' ∈ b, e.Name = e'.Name ∧ e.Value = e'.Value) ∧
    (∀ a b : List EnvVar, (a.map fun e => (e.Name, e.Value)).Nodup →
      (equalEnvVars a b = true ↔
        (a.map fun e => (e.Name, e.Value)).Perm (b.map fun e => (e.Name, e.Value)))) ∧
    (∀ a b : List EnvVar, (a.map fun e => e.Name).Nodup →
      (a.map fun e => e.Name).Perm (b.map fun e => e.Name) →
      (∃ e ∈ a, ∃ e' ∈ b, e.Name = e'.Name ∧ e.Value ≠ e'.Value) →
      equalEnvVars a b = false) := by
  refine ⟨equalEnvVars_iff, ?_, ?_⟩
  · intro a b hnd
    rw [equalEnvVars_iff]
    constructor
    · rintro ⟨hlen, hall⟩
      have hsub : (a.map fun e => (e.Name, e.Value)) ⊆ (b.map fun e => (e.Name, e.Value)) := by
        intro p hp
        obtain ⟨e, he, rfl⟩ := List.mem_map.mp hp
        obtain ⟨e', he', hn, hv⟩ := hall e he
        exact List.mem_map.mpr ⟨e', he', by simp [hn, hv]⟩
      exact (List.subperm_of_subset hnd hsub).perm_of_length_le (by simp [hlen])
    · intro hperm
      refine ⟨by simpa using hperm.length_eq, ?_⟩
      intro e he
      have : (e.Name, e.Value) ∈ (b.map fun e => (e.Name, e.Value)) :=
        hperm.subset (List.mem_map.mpr ⟨e, he, rfl⟩)
      obtain ⟨e', he', h⟩ := List.mem_map.mp this
      simp only [Prod.mk.injEq] at h
      exact ⟨e', he', h.1.symm, h.2.symm⟩
  · rintro a b hnd hperm ⟨e, he, e', he', hn, hv⟩
    rw [Bool.eq_false_iff]
    intro h
    obtain ⟨-, hall⟩ := (equalEnvVars_iff a b).mp h
    obtain ⟨e'', he'', hn', hv'⟩ := hall e he
    have hndb : (b.map fun e => e.Name).Nodup := hperm.nodup_iff.mp hnd
    have : e'' = e' :=
      List.inj_on_of_nodup_map hndb he'' he' (hn'.symm.trans hn)
    subst this
    exact hv hv'

/-- The theorem `equalEnvVars_characterised` at two lists that hold the pairs `(A, 1)` and
`(B, 2)` in different orders. -/
theorem equalEnvVars_characterised_witness :
    (([⟨"A", "1", none⟩, ⟨"B", "2", none⟩] : List EnvVar).map fun e => (e.Name, e.Value)).Nodup ∧
    (equalEnvVars [⟨"A", "1", none⟩, ⟨"B", "2", none⟩] [⟨"B", "2", none⟩, ⟨"A", "1", none⟩] = true ↔
      (([⟨"A", "1", none⟩, ⟨"B", "2", none⟩] : List EnvVar).map fun e => (e.Name, e.Value)).Perm
        (([⟨"B", "2", none⟩, ⟨"A", "1", none⟩] : List EnvVar).map fun e => (e.Name, e.Value))) :=
  ⟨by decide, equalEnvVars_characterised.2.1 _ _ (by decide)⟩

end Reporter

namespace Reporter

open services

variable {σ P : Type}

/-- C11, as stated, fails. The found service is the expected one except that its first port
has the node port 30080 and an application protocol: `IsServiceInDesiredState` accepts it,
although the expected first port record is not among the found ports. Likewise the ports
check accepts a found port whose target port is the text `8080` for an expected port whose
target port is the number 8080. -/
theorem IsServiceInDesiredState_ignores_node_port :
    (IsServiceInDesiredState (P := MergePatch) (Cluster.config Example.reporter false false)
      { GetService (Cluster.config (S := ServiceSpec) Example.reporter false false) with
        Body :=
          { getServiceSpec Example.reporter.Name with
            Ports :=
              [{ Name := "receiver-port", Port := 8080, TargetPort := .FromInt 8080,
                 Protocol := "TCP", AppProtocol := some "http", NodePort := 30080 },
               { Name := "proxy", Port := 8888, TargetPort := .FromInt 8888,
                 Protocol := "TCP", AppProtocol := none, NodePort := 0 }] } }
      (GetService (Cluster.config Example.reporter false false))).1.IsInDesiredState = true ∧
    ¬ (∀ port ∈ (getServiceSpec Example.reporter.Name).Ports,
        port ∈
          [{ Name := "receiver-port", Port := 8080, TargetPort := .FromInt 8080,
             Protocol := "TCP", AppProtocol := some "http", NodePort := 30080 },
           ({ Name := "proxy", Port := 8888, TargetPort := .FromInt 8888,
              Protocol := "TCP", AppProtocol := none, NodePort := 0 } : ServicePort)]) ∧
    UnorderedContainsSliceWithHashFunc
      [({ Name := "proxy", Port := 8888, TargetPort := .FromString "8080",
          Protocol := "TCP", AppProtocol := none, NodePort := 0 } : ServicePort)]
      [{ Name := "proxy", Port := 8888, TargetPort := .FromInt 8080,
         Protocol := "TCP", AppProtocol := none, NodePort := 0 }] hashPort = true :=
  ⟨by decide, by decide, by decide⟩

/-- C11, amended. The ports check of `IsServiceInDesiredState` compares the ports by their
hash, the text `name:port:targetPort:protocol`. It passes iff every expected port has a found
port with the same hash; it does not change when either list is reordered; expected ports
that have a found port equal in name, port, target port text and protocol pass, whatever the
node port and the application protocol; and when the service types agree and the check
fails, `IsServiceInDesiredState` reports that the service is not in the desired state. -/
theorem ports_check_by_hash (config : IBMLicenseServiceReporterConfig σ ServiceSpec P)
    (foundService expectedService : Object ServiceSpec) :
    (UnorderedContainsSliceWithHashFunc foundService.Body.Ports expectedService.Body.Ports
        hashPort = true ↔
      ∀ expected ∈ expectedService.Body.Ports,
        ∃ found ∈ foundService.Body.Ports, hashPort found = hashPort expected) ∧
    (∀ foundPorts expectedPorts : List ServicePort,
      foundPorts.Perm foundService.Body.Ports →
      expectedPorts.Perm expectedService.Body.Ports →
      UnorderedContainsSliceWithHashFunc foundPorts expectedPorts hashPort =
        UnorderedContainsSliceWithHashFunc foundService.Body.Ports
          expectedService.Body.Ports hashPort) ∧
    ((∀ expected ∈ expectedService.Body.Ports,
        ∃ found ∈ foundService.Body.Ports,
          found.Name = expected.Name ∧ found.Port = expected.Port ∧
          found.TargetPort.toGoString = expected.TargetPort.toGoString ∧
          found.Protocol = expected.Protocol) →
      UnorderedContainsSliceWithHashFunc foundService.Body.Ports expectedService.Body.Ports
        hashPort = true) ∧
    (foundService.Body.Type_ = expectedService.Body.Type_ →
      UnorderedContainsSliceWithHashFunc foundService.Body.Ports expectedService.Body.Ports
        hashPort = false →
      IsServiceInDesiredState config foundService expectedService = (⟨false, false⟩, none)) := by
  refine ⟨UnorderedContainsSliceWithHashFunc_iff _ _ _, ?_, ?_, ?_⟩
  · intro foundPorts expectedPorts hfound hexpected
    rw [Bool.eq_iff_iff, UnorderedContainsSliceWithHashFunc_iff,
      UnorderedContainsSliceWithHashFunc_iff]
    constructor
    · intro h e he
      obtain ⟨f, hf, hfe⟩ := h e (hexpected.mem_iff.2 he)
      exact ⟨f, hfound.mem_iff.1 hf, hfe⟩
    · intro h e he
      obtain ⟨f, hf, hfe⟩ := h e (hexpected.mem_iff.1 he)
      exact ⟨f, hfound.mem_iff.2 hf, hfe⟩
  · intro h
    rw [UnorderedContainsSliceWithHashFunc_iff]
    intro e he
    obtain ⟨f, hf, h1, h2, h3, h4⟩ := h e he
    exact ⟨f, hf, by simp only [hashPort, h1, h2, h3, h4]⟩
  · intro htype hports
    simp only [IsServiceInDesiredState, htype, hports, ne_eq, not_true_eq_false, if_false,
      Bool.not_false, if_true]

/-- The theorem `ports_check_by_hash` at the reporter's service with its two ports swapped
and a node port set on one of them: the ports check passes. -/
theorem ports_check_by_hash_witness :
    UnorderedContainsSliceWithHashFunc
      [({ Name := "proxy", Port := 8888, TargetPort := .FromInt 8888, Protocol := "TCP",
          AppProtocol := none, NodePort := 0 } : ServicePort),
       { Name := "receiver-port", Port := 8080, TargetPort := .FromInt 8080,
         Protocol := "TCP", AppProtocol := none, NodePort := 30080 }]
      (getServiceSpec Example.reporter.Name).Ports hashPort = true :=
  (ports_check_by_hash (P := MergePatch) (Cluster.config Example.reporter false false)
    { GetService (Cluster.config (S := ServiceSpec) Example.reporter false false) with
      Body :=
        { getServiceSpec Example.reporter.Name with
          Ports :=
            [{ Name := "proxy", Port := 8888, TargetPort := .FromInt 8888, Protocol := "TCP",
               AppProtocol := none, NodePort := 0 },
             { Name := "receiver-port", Port := 8080, TargetPort := .FromInt 8080,
               Protocol := "TCP", AppProtocol := none, NodePort := 30080 }] } }
    (GetService (Cluster.config Example.reporter false false))).2.2.1
    (by decide)

end Reporter

namespace Reporter

open ingress

variable {σ P : Type}

/-- C12, as stated, fails. A found ingress that equals the expected one except for one more
annotation is reported as not in the desired state; one more label is tolerated. -/
theorem isIngressInDesiredState_rejects_extra_annotation :
    (isIngressInDesiredState (P := MergePatch)
      (Cluster.config (S := IngressSpec) Example.reporter false false)
      (Example.ingress (LabelsForMeta Example.reporter)
        (GoMap.ofList [("kubernetes.io/ingress.class", "nginx")]))
      (Example.ingress (LabelsForMeta Example.reporter) ∅)).1.IsInDesiredState = false ∧
    (isIngressInDesiredState (P := MergePatch)
      (Cluster.config (S := IngressSpec) Example.reporter false false)
      (Example.ingress ((LabelsForMeta Example.reporter).insert "team" "a") ∅)
      (Example.ingress (LabelsForMeta Example.reporter) ∅)).1.IsInDesiredState = true :=
  ⟨by decide, by decide⟩

/-- C12, amended. The ingress state check returns no error, never asks for a patch, and
reports the found ingress as in the desired state iff its name is the expected name, its
labels hold every expected label with the expected value (more labels are tolerated), its
annotations are exactly the expected annotations, and its spec equals the expected spec. -/
theorem isIngressInDesiredState_iff (config : IBMLicenseServiceReporterConfig σ IngressSpec P)
    (foundIngress expectedIngress : Object IngressSpec) :
    (isIngressInDesiredState config foundIngress expectedIngress).2 = none ∧
    (isIngressInDesiredState config foundIngress expectedIngress).1.IsPatchSufficient = false ∧
    ((isIngressInDesiredState config foundIngress expectedIngress).1.IsInDesiredState = true ↔
      foundIngress.ObjectMeta.Name = expectedIngress.ObjectMeta.Name ∧
      (∀ k v, expectedIngress.ObjectMeta.Labels.lookup k = some v →
        foundIngress.ObjectMeta.Labels.lookup k = some v) ∧
      (∀ k, foundIngress.ObjectMeta.Annotations.lookup k =
        expectedIngress.ObjectMeta.Annotations.lookup k) ∧
      foundIngress.Body = expectedIngress.Body) := by
  rw [← MapHasAllPairsFromOther_iff, ← GoMap_DeepEqual_iff]
  unfold isIngressInDesiredState
  by_cases hname : foundIngress.ObjectMeta.Name = expectedIngress.ObjectMeta.Name
  · cases hlabels : MapHasAllPairsFromOther foundIngress.ObjectMeta.Labels
      expectedIngress.ObjectMeta.Labels
    · simp [hname, hlabels]
    · cases hann : GoMap.DeepEqual foundIngress.ObjectMeta.Annotations
        expectedIngress.ObjectMeta.Annotations
      · simp [hname, hlabels, hann]
      · by_cases hspec : foundIngress.Body = expectedIngress.Body
        · simp [hname, hlabels, hann, hspec]
        · simp [hname, hlabels, hann, hspec]
  · simp [hname]

/-- The theorem `isIngressInDesiredState_iff` at a found ingress with one more label than
the expected one and the same annotations: it is in the desired state. -/
theorem isIngressInDesiredState_iff_witness :
    (isIngressInDesiredState (P := MergePatch)
      (Cluster.config (S := IngressSpec) Example.reporter false false)
      (Example.ingress ((LabelsForMeta Example.reporter).insert "team" "a") ∅)
      (Example.ingress (LabelsForMeta Example.reporter) ∅)).1.IsInDesiredState = true :=
  (isIngressInDesiredState_iff (P := MergePatch)
    (Cluster.config (S := IngressSpec) Example.reporter false false)
    (Example.ingress ((LabelsForMeta Example.reporter).insert "team" "a") ∅)
    (Example.ingress (LabelsForMeta Example.reporter) ∅)).2.2.mpr
    ⟨rfl, (MapHasAllPairsFromOther_iff _ _).1 (by decide),
      (GoMap_DeepEqual_iff _ _).1 (by decide), rfl⟩

end Reporter

namespace Reporter


/-- C13. `GetImageParametersFromEnv` on the value `s` of the environment variable equals the
reference parser `imageReferenceSpec`, which follows the specification's words. When the
reference rejects `s` (no `/`; or a last segment with `@` that does not hold `@` exactly
once; or one without `@` that does not hold `:` exactly once) the call returns an error and
leaves the container as it was. When the reference accepts `s` as registry, name and tag the
call returns no error and sets exactly these three fields to them. The accepted texts are
`registry/name@tag` and `registry/name:tag` with the registry everything before the last `/`
and the name and tag free of the separator. -/
theorem GetImageParametersFromEnv_refines_reference (Getenv : String → String)
    (container : v1alpha1.Container) (envVariableName : String) :
    (v1alpha1.imageReferenceSpec (Getenv envVariableName) = none →
      (container.GetImageParametersFromEnv Getenv envVariableName).1 = container ∧
      (container.GetImageParametersFromEnv Getenv envVariableName).2 ≠ none) ∧
    (∀ registry name tag,
      v1alpha1.imageReferenceSpec (Getenv envVariableName) = some (registry, name, tag) →
      container.GetImageParametersFromEnv Getenv envVariableName =
        ({ container with ImageRegistry := registry, ImageName := name,
                          ImageTagPostfix := tag }, none)) ∧
    (∀ registry name tag,
      v1alpha1.imageReferenceSpec (Getenv envVariableName) = some (registry, name, tag) ↔
        (Getenv envVariableName = registry ++ "/" ++ name ++ "@" ++ tag ∧
          '/' ∉ name.data ++ tag.data ∧ '@' ∉ name.data ++ tag.data) ∨
        (Getenv envVariableName = registry ++ "/" ++ name ++ ":" ++ tag ∧
          '/' ∉ name.data ++ tag.data ∧ '@' ∉ name.data ++ tag.data ∧
          ':' ∉ name.data ++ tag.data)) :=
  ⟨v1alpha1.GetImageParametersFromEnv_of_none Getenv container envVariableName,
    fun registry name tag =>
      v1alpha1.GetImageParametersFromEnv_of_some Getenv container envVariableName registry name tag,
    fun registry name tag =>
      v1alpha1.imageReferenceSpec_eq_some_iff (Getenv envVariableName) registry name tag⟩

/-- The theorem `GetImageParametersFromEnv_refines_reference` at two values of the variable:
a digest reference is parsed into its three parts, and the empty value (the variable is
unset) is rejected with the container left as it was. -/
theorem GetImageParametersFromEnv_refines_reference_witness :
    v1alpha1.Container.zero.GetImageParametersFromEnv
        (fun _ => "icr.io/cpopen/reporter@sha256:abcd") "IMAGE" =
      ({ v1alpha1.Container.zero with
          ImageRegistry := "icr.io/cpopen", ImageName := "reporter",
          ImageTagPostfix := "sha256:abcd" }, none) ∧
    (v1alpha1.Container.zero.GetImageParametersFromEnv (fun _ => "") "IMAGE").1 = v1alpha1.Container.zero ∧
    (v1alpha1.Container.zero.GetImageParametersFromEnv (fun _ => "") "IMAGE").2 ≠ none :=
  ⟨(GetImageParametersFromEnv_refines_reference
      (fun _ => "icr.io/cpopen/reporter@sha256:abcd") v1alpha1.Container.zero "IMAGE").2.1
      "icr.io/cpopen" "reporter" "sha256:abcd" (by decide),
    (GetImageParametersFromEnv_refines_reference (fun _ => "") v1alpha1.Container.zero "IMAGE").1
      (by decide)⟩

end Reporter

namespace Reporter

/-- C14, as stated, fails. The reference `reg/name@abc` is accepted in digest form (name
`name`, digest `abc`), and `GetFullImage` of the parsed container joins the two with a colon,
because the digest holds none: it returns `reg/name:abc`, not the reference. -/
theorem GetFullImage_digest_without_colon :
    (v1alpha1.Container.zero.GetImageParametersFromEnv (fun _ => "reg/name@abc") "IMAGE").2
      = none ∧
    (v1alpha1.Container.zero.GetImageParametersFromEnv
      (fun _ => "reg/name@abc") "IMAGE").1.GetFullImage = "reg/name:abc" ∧
    (v1alpha1.Container.zero.GetImageParametersFromEnv
      (fun _ => "reg/name@abc") "IMAGE").1.GetFullImage ≠ "reg/name@abc" :=
  ⟨by decide, by decide, by decide⟩

/-- C14, amended. Let `GetImageParametersFromEnv` accept the reference `s`, the value of the
environment variable. Then `s` is the parsed registry, `/`, the parsed name, `@` or `:`, and
the parsed tag; and `GetFullImage` of the parsed container returns `s` iff `s` is in tag form
(joined with `:`) or its digest contains a colon. So tag references and digests such as
`sha256:abcd` make the round trip, and a digest without a colon does not. -/
theorem GetFullImage_round_trip (Getenv : String → String) (container : v1alpha1.Container)
    (envVariableName : String)
    (haccepted : (container.GetImageParametersFromEnv Getenv envVariableName).2 = none) :
    (Getenv envVariableName =
        (container.GetImageParametersFromEnv Getenv envVariableName).1.ImageRegistry ++ "/" ++
        (container.GetImageParametersFromEnv Getenv envVariableName).1.ImageName ++ "@" ++
        (container.GetImageParametersFromEnv Getenv envVariableName).1.ImageTagPostfix ∨
      Getenv envVariableName =
        (container.GetImageParametersFromEnv Getenv envVariableName).1.ImageRegistry ++ "/" ++
        (container.GetImageParametersFromEnv Getenv envVariableName).1.ImageName ++ ":" ++
        (container.GetImageParametersFromEnv Getenv envVariableName).1.ImageTagPostfix) ∧
    ((container.GetImageParametersFromEnv Getenv envVariableName).1.GetFullImage =
        Getenv envVariableName ↔
      Getenv envVariableName =
        (container.GetImageParametersFromEnv Getenv envVariableName).1.ImageRegistry ++ "/" ++
        (container.GetImageParametersFromEnv Getenv envVariableName).1.ImageName ++ ":" ++
        (container.GetImageParametersFromEnv Getenv envVariableName).1.ImageTagPostfix ∨
      ':' ∈ (container.GetImageParametersFromEnv Getenv
        envVariableName).1.ImageTagPostfix.data) := by
  cases hspec : v1alpha1.imageReferenceSpec (Getenv envVariableName) with
  | none =>
    exact absurd haccepted
      (v1alpha1.GetImageParametersFromEnv_of_none Getenv container envVariableName hspec).2
  | some p =>
    obtain ⟨registry, name, tag⟩ := p
    rw [v1alpha1.GetImageParametersFromEnv_of_some Getenv container envVariableName
      registry name tag hspec]
    have hne : registry ++ "/" ++ name ++ ":" ++ tag ≠ registry ++ "/" ++ name ++ "@" ++ tag := by
      intro h
      have hd := congrArg String.data h
      simp only [String.data_append] at hd
      have := List.append_cancel_right hd
      have := List.append_cancel_left this
      revert this
      decide
    simp only [v1alpha1.Container.GetFullImage, strings.Contains, decide_eq_true_eq]
    rcases (v1alpha1.imageReferenceSpec_eq_some_iff _ _ _ _).1 hspec with
      ⟨hs, _, _⟩ | ⟨hs, _, _, hcolon⟩
    · refine ⟨Or.inl hs, ?_⟩
      by_cases hc : ':' ∈ tag.data
      · rw [if_pos hc]
        exact ⟨fun _ => Or.inr hc, fun _ => hs.symm⟩
      · rw [if_neg hc, hs]
        constructor
        · intro h; exact absurd h hne
        · rintro (h | h)
          · exact absurd h.symm hne
          · exact absurd h hc
    · have hc : ':' ∉ tag.data := fun h => hcolon (List.mem_append_right _ h)
      refine ⟨Or.inr hs, ?_⟩
      rw [if_neg hc]
      exact ⟨fun _ => Or.inl hs, fun _ => hs.symm⟩

/-- The theorem `GetFullImage_round_trip` at the reference `icr.io/cpopen/reporter@sha256:abcd`:
its digest holds a colon, and the parsed container gives the reference back. -/
theorem GetFullImage_round_trip_witness :
    (v1alpha1.Container.zero.GetImageParametersFromEnv
      (fun _ => "icr.io/cpopen/reporter@sha256:abcd") "IMAGE").1.GetFullImage =
        "icr.io/cpopen/reporter@sha256:abcd" :=
  (GetFullImage_round_trip (fun _ => "icr.io/cpopen/reporter@sha256:abcd")
    v1alpha1.Container.zero "IMAGE" (by decide)).2.mpr (Or.inr (by decide))

end Reporter

namespace Reporter

open deployments

/-- C15, as stated, fails. The custom resource sets all three image fields and the
environment variable is unset (its value is empty): `SetContainerFromEnv` returns an error
and the empty container, not the container of the custom resource. -/
theorem SetContainerFromEnv_fails_on_unset_env :
    (SetContainerFromEnv (fun _ => "")
      { v1alpha1.Container.zero with
          ImageRegistry := "icr.io/cpopen", ImageName := "reporter",
          ImageTagPostfix := "4.2.0" } "IMAGE").2 ≠ none ∧
    (SetContainerFromEnv (fun _ => "")
      { v1alpha1.Container.zero with
          ImageRegistry := "icr.io/cpopen", ImageName := "reporter",
          ImageTagPostfix := "4.2.0" } "IMAGE").1 = v1alpha1.Container.zero :=
  ⟨by decide, by decide⟩

/-- C15, amended. `SetContainerFromEnv` first parses the image reference held by the
environment variable. When the reference is accepted, the call succeeds and each of
`ImageName`, `ImageRegistry` and `ImageTagPostfix` that the container sets is kept, the empty
ones being taken from the parsed reference; the other fields are kept. When the reference is
rejected, the call fails with the parser's error and returns the empty container, whatever
the container sets. -/
theorem SetContainerFromEnv_per_field (Getenv : String → String)
    (container : v1alpha1.Container) (envVar : String) :
    ((v1alpha1.Container.zero.GetImageParametersFromEnv Getenv envVar).2 = none →
      SetContainerFromEnv Getenv container envVar =
        ({ container with
            ImageName :=
              if container.ImageName = "" then
                (v1alpha1.Container.zero.GetImageParametersFromEnv Getenv envVar).1.ImageName
              else container.ImageName,
            ImageRegistry :=
              if container.ImageRegistry = "" then
                (v1alpha1.Container.zero.GetImageParametersFromEnv Getenv envVar).1.ImageRegistry
              else container.ImageRegistry,
            ImageTagPostfix :=
              if container.ImageTagPostfix = "" then
                (v1alpha1.Container.zero.GetImageParametersFromEnv Getenv
                  envVar).1.ImageTagPostfix
              else container.ImageTagPostfix }, none)) ∧
    ((v1alpha1.Container.zero.GetImageParametersFromEnv Getenv envVar).2 ≠ none →
      SetContainerFromEnv Getenv container envVar =
        (v1alpha1.Container.zero,
          (v1alpha1.Container.zero.GetImageParametersFromEnv Getenv envVar).2)) := by
  cases hspec : v1alpha1.imageReferenceSpec (Getenv envVar) with
  | none =>
    obtain ⟨h1, h2⟩ :=
      v1alpha1.GetImageParametersFromEnv_of_none Getenv v1alpha1.Container.zero envVar hspec
    refine ⟨fun h => absurd h h2, fun _ => ?_⟩
    rcases hp : v1alpha1.Container.zero.GetImageParametersFromEnv Getenv envVar with ⟨temp, err⟩
    rw [hp] at h1 h2
    cases err with
    | none => exact absurd rfl h2
    | some e =>
      simp only at h1
      simp only [SetContainerFromEnv, hp, h1]
  | some p =>
    obtain ⟨registry, name, tag⟩ := p
    have hp := v1alpha1.GetImageParametersFromEnv_of_some Getenv v1alpha1.Container.zero
      envVar registry name tag hspec
    simp only [SetContainerFromEnv, hp]
    refine ⟨fun _ => ?_, fun h => absurd rfl h⟩
    by_cases h1 : container.ImageName = "" <;> by_cases h2 : container.ImageRegistry = "" <;>
      by_cases h3 : container.ImageTagPostfix = "" <;> simp [h1, h2, h3]

/-- The theorem `SetContainerFromEnv_per_field` at a container that sets only the registry,
with the variable holding `icr.io/cpopen/reporter:4.2.0`: the registry is kept, the name and
the tag come from the variable. -/
theorem SetContainerFromEnv_per_field_witness :
    SetContainerFromEnv (fun _ => "icr.io/cpopen/reporter:4.2.0")
        { v1alpha1.Container.zero with ImageRegistry := "my.registry" } "IMAGE" =
      ({ v1alpha1.Container.zero with
          ImageRegistry := "my.registry", ImageName := "reporter",
          ImageTagPostfix := "4.2.0" }, none) :=
  (SetContainerFromEnv_per_field (fun _ => "icr.io/cpopen/reporter:4.2.0")
    { v1alpha1.Container.zero with ImageRegistry := "my.registry" } "IMAGE").1 (by decide)

end Reporter

namespace Scanner

/-- C16, as stated, fails. The scanner's container sets only the CPU request (as in the
repository's test case `Requests provided`): `setContainerIfEmpty` keeps the requests as they
are, with no memory and no ephemeral-storage request, and fills the limits, which are nil,
with the default list. -/
theorem setContainerIfEmpty_keeps_partial_requests :
    (setContainerIfEmpty
      { SpecLabels := ∅, SpecScanNamespaces := [],
        SpecContainer := some
          { Resources := { Requests := some (GoMap.ofList [("cpu", 500)]), Limits := none },
            ImagePullPolicy := "", ImagePullSecrets := [],
            ImagePullPrefix := "" } }).SpecContainer =
      some
        { Resources :=
            { Requests := some (GoMap.ofList [("cpu", 500)]),
              Limits := some getDefaultContainerResourceLimits },
          ImagePullPolicy := defaultImagePullPolicy, ImagePullSecrets := [],
          ImagePullPrefix := "" } ∧
    (GoMap.ofList [("cpu", (500 : Int))]).lookup "memory" = none ∧
    getDefaultContainerResourceRequests.lookup "memory" = some 134217728 :=
  ⟨by decide, by decide, by decide⟩

/-- C16, amended. The scanner's `setContainerIfEmpty` defaults each resource list as a whole:
for a spec with a container, the requests become the default requests when they are nil and
are kept unchanged otherwise, likewise the limits, and the image pull policy becomes the
default when it is empty; the other fields are kept. A spec without a container gets the
default requests, limits and pull policy. Defaults per field are what the reporter's helpers
do: `SetResourceRequestCPUIfNotSet` on non-nil requests writes the value under `cpu` when no
non-zero CPU request is set, keeps the requests otherwise, and never touches another field. -/
theorem setContainerIfEmpty_per_list (scannerInstance : operatorv1.IBMLicenseServiceScanner)
    (reporterContainer : v1alpha1.Container) (requests : GoMap String Int) (value : Int)
    (hrequests : reporterContainer.Resources.Requests = some requests) :
    (∀ container, scannerInstance.SpecContainer = some container →
      setContainerIfEmpty scannerInstance =
        { scannerInstance with
          SpecContainer := some
            { container with
              Resources :=
                { Requests :=
                    some (container.Resources.Requests.getD getDefaultContainerResourceRequests),
                  Limits :=
                    some (container.Resources.Limits.getD getDefaultContainerResourceLimits) },
              ImagePullPolicy :=
                if container.ImagePullPolicy = "" then defaultImagePullPolicy
                else container.ImagePullPolicy } }) ∧
    (scannerInstance.SpecContainer = none →
      setContainerIfEmpty scannerInstance =
        { scannerInstance with
          SpecContainer := some
            { Resources :=
                { Requests := some getDefaultContainerResourceRequests,
                  Limits := some getDefaultContainerResourceLimits },
              ImagePullPolicy := defaultImagePullPolicy,
              ImagePullSecrets := [], ImagePullPrefix := "" } }) ∧
    reporterContainer.SetResourceRequestCPUIfNotSet value =
      some
        { reporterContainer with
          Resources :=
            { reporterContainer.Resources with
              Requests :=
                some (if (requests.lookup "cpu").getD 0 = 0 then requests.insert "cpu" value
                  else requests) } } := by
  refine ⟨?_, ?_, ?_⟩
  · intro container hcontainer
    obtain ⟨⟨limits, requests'⟩, policy, secrets, pre⟩ := container
    simp only [setContainerIfEmpty, hcontainer]
    cases requests' <;> cases limits <;> by_cases hp : policy = "" <;> simp [hp]
  · intro hcontainer
    simp only [setContainerIfEmpty, hcontainer]
  · obtain ⟨reg, name, tag, ⟨limits, requests'⟩, policy⟩ := reporterContainer
    simp only at hrequests
    subst hrequests
    simp only [v1alpha1.Container.SetResourceRequestCPUIfNotSet, v1alpha1.Container.quantity,
      v1alpha1.Container.assign, Option.getD_some, Option.map_some']
    by_cases h : (requests.lookup "cpu").getD 0 = 0
    · simp [h]
    · simp [h]

/-- The theorem `setContainerIfEmpty_per_list` at a scanner whose container sets only the
limits, to a list with the CPU limit alone: the limits are kept and the requests are the
default list. -/
theorem setContainerIfEmpty_per_list_witness :
    (setContainerIfEmpty
      { SpecLabels := ∅, SpecScanNamespaces := [],
        SpecContainer := some
          { Resources := { Requests := none, Limits := some (GoMap.ofList [("cpu", 500)]) },
            ImagePullPolicy := "Always", ImagePullSecrets := [],
            ImagePullPrefix := "" } }).SpecContainer =
      some
        { Resources :=
            { Requests := some getDefaultContainerResourceRequests,
              Limits := some (GoMap.ofList [("cpu", 500)]) },
          ImagePullPolicy := "Always", ImagePullSecrets := [], ImagePullPrefix := "" } :=
  congrArg operatorv1.IBMLicenseServiceScanner.SpecContainer
    ((setContainerIfEmpty_per_list
      { SpecLabels := ∅, SpecScanNamespaces := [],
        SpecContainer := some
          { Resources := { Requests := none, Limits := some (GoMap.ofList [("cpu", 500)]) },
            ImagePullPolicy := "Always", ImagePullSecrets := [], ImagePullPrefix := "" } }
      { v1alpha1.Container.zero with Resources := { Requests := some ∅, Limits := none } }
      ∅ 200 rfl).1
      { Resources := { Requests := none, Limits := some (GoMap.ofList [("cpu", 500)]) },
        ImagePullPolicy := "Always", ImagePullSecrets := [], ImagePullPrefix := "" } rfl)

end Scanner

namespace Reporter

/-- C17, as stated, fails. The custom resource sets the label `app` to `mine`; the pod labels
map `app` to the selector value `ibm-license-service-reporter-instance`, not to the user's
value. -/
theorem LabelsForPod_selector_label_wins :
    (GetSpecLabels { Example.reporter with SpecLabels := GoMap.ofList [("app", "mine")] }).lookup
      "app" = some "mine" ∧
    (LabelsForPod { Example.reporter with SpecLabels := GoMap.ofList [("app", "mine")] }).lookup
      "app" = some (GetDefaultResourceName Example.reporter.Name) ∧
    GetDefaultResourceName Example.reporter.Name ≠ "mine" :=
  ⟨by decide, by decide, by decide⟩

/-- C17, amended. Let the spec labels of a custom resource map the key `k` to `v`. The labels
for managed objects map `k` to `v`, in the reporter (`LabelsForMeta`) and in the scanner
(`GetBaseLabels`), also when `k` is one of the standard keys. The reporter's pod labels
(`LabelsForPod`) map `k` to the selector's value when `k` is one of the selector keys `app`,
`component` and `licensing_cr`, and to `v` otherwise. -/
theorem user_labels_win_except_selector (inst : IBMLicenseServiceReporter)
    (scanner : operatorv1.IBMLicenseServiceScanner) (Version Name k v : String)
    (hreporter : (GetSpecLabels inst).lookup k = some v)
    (hscanner : scanner.SpecLabels.lookup k = some v) :
    (LabelsForMeta inst).lookup k = some v ∧
    (Scanner.GetBaseLabels Version Name scanner).lookup k = some v ∧
    (LabelsForPod inst).lookup k =
      if k = "app" then some (GetDefaultResourceName inst.Name)
      else if k = "component" then some LicenseReporterComponentName
      else if k = "licensing_cr" then some inst.Name
      else some v := by
  have hmeta : (LabelsForMeta inst).lookup k = some v := by
    unfold LabelsForMeta
    rw [lookup_MergeMaps, hreporter]
    rfl
  refine ⟨hmeta, ?_, ?_⟩
  · unfold Scanner.GetBaseLabels
    simp only
    rw [lookup_foldl_insert _ scanner.SpecLabels.nodupKeys]
    have : List.dlookup k scanner.SpecLabels.entries = some v := hscanner
    rw [this]
    rfl
  · unfold LabelsForPod
    simp only
    rw [lookup_foldl_insert _ (LabelsForSelector inst.Name).nodupKeys, hmeta]
    have : List.dlookup k (LabelsForSelector inst.Name).entries =
        (LabelsForSelector inst.Name).lookup k := rfl
    rw [this]
    have hsel : LabelsForSelector inst.Name =
        (((∅ : GoMap String String).insert "licensing_cr" inst.Name).insert "component"
          LicenseReporterComponentName).insert "app" (GetDefaultResourceName inst.Name) := rfl
    rw [hsel]
    by_cases h1 : k = "app"
    · subst h1
      rw [AList.lookup_insert, if_pos rfl]
      rfl
    · by_cases h2 : k = "component"
      · subst h2
        rw [AList.lookup_insert_ne h1, AList.lookup_insert, if_neg h1, if_pos rfl]
        rfl
      · by_cases h3 : k = "licensing_cr"
        · subst h3
          rw [AList.lookup_insert_ne h1, AList.lookup_insert_ne h2, AList.lookup_insert,
            if_neg h1, if_neg h2, if_pos rfl]
          rfl
        · rw [AList.lookup_insert_ne h1, AList.lookup_insert_ne h2,
            AList.lookup_insert_ne h3, AList.lookup_empty, if_neg h1, if_neg h2, if_neg h3]
          rfl

/-- The theorem `user_labels_win_except_selector` at the key `app.kubernetes.io/name`, which
the reporter and the scanner set themselves and the user sets to `mine`: all three label maps
hold the user's value. -/
theorem user_labels_win_except_selector_witness :
    (LabelsForMeta
      { Example.reporter with
        SpecLabels := GoMap.ofList [("app.kubernetes.io/name", "mine")] }).lookup
      "app.kubernetes.io/name" = some "mine" ∧
    (Scanner.GetBaseLabels "4.2.0" "scanner"
      { SpecLabels := GoMap.ofList [("app.kubernetes.io/name", "mine")],
        SpecContainer := none, SpecScanNamespaces := [] }).lookup
      "app.kubernetes.io/name" = some "mine" ∧
    (LabelsForPod
      { Example.reporter with
        SpecLabels := GoMap.ofList [("app.kubernetes.io/name", "mine")] }).lookup
      "app.kubernetes.io/name" = some "mine" :=
  user_labels_win_except_selector
    { Example.reporter with SpecLabels := GoMap.ofList [("app.kubernetes.io/name", "mine")] }
    { SpecLabels := GoMap.ofList [("app.kubernetes.io/name", "mine")],
      SpecContainer := none, SpecScanNamespaces := [] }
    "4.2.0" "scanner" "app.kubernetes.io/name" "mine" (by decide) (by decide)

end Reporter

namespace Scanner

/-- C18: the code departs from the claim. For the namespace list `ns-*`, `ns-1` and a cluster
with the namespaces `ns-1` and `ns-2`, `getScanNamespaces` returns `ns-1` twice: the
namespaces matched by the wildcards and the plain entries are collected in two separate sets
and then concatenated. What holds for every input is that the result is in ascending order,
possibly with repetitions. -/
theorem getScanNamespaces_duplicate :
    getScanNamespaces ["ns-*", "ns-1"] (.ok ["ns-1", "ns-2"]) =
      (some ["ns-1", "ns-1", "ns-2"], none) ∧
    ¬ ((getScanNamespaces ["ns-*", "ns-1"] (.ok ["ns-1", "ns-2"])).1.getD []).Nodup ∧
    ∀ (namespaces : List String) (client : Except Err (List String)),
      ((getScanNamespaces namespaces client).1.getD []).Sorted (· ≤ ·) := by
  refine ⟨by decide, by decide, ?_⟩
  intro namespaces client
  have hmap : ∀ x : GoSlice String, ((x.map slices.Sort).getD []).Sorted (· ≤ ·) := by
    intro x
    cases x with
    | none => exact List.sorted_nil
    | some l => exact slices.Sort_sorted l
  unfold getScanNamespaces
  by_cases hlen : namespaces.length = 0
  · rw [if_pos hlen]; exact List.sorted_nil
  · rw [if_neg hlen]
    cases hsep : separateNamespaces namespaces [] ∅ with
    | error ns => exact List.sorted_nil
    | ok p =>
      obtain ⟨wildcards, set⟩ := p
      simp only
      rcases hw : (if wildcards.length > 0 then getNamespacesFromWildcards client wildcards
        else (none, none)) with ⟨scanNamespaces, err⟩
      cases err with
      | some e => exact List.sorted_nil
      | none => exact hmap _

end Scanner

namespace Scanner

/-- C19. Let `getScanNamespaces` accept the namespace list, the cluster's namespaces being
listed as `cluster`, names that are non-empty and hold no line feed (as every Kubernetes
name). A name occurs in the result iff it is an entry of the list without `*`, or a cluster
namespace that starts with the text before the trailing `*` of some entry `literal*`; the
text is compared character by character, so for a bare `*` every cluster namespace
qualifies. -/
theorem getScanNamespaces_membership (namespaces cluster : List String)
    (hnames : ∀ n ∈ cluster, n ≠ "" ∧ '\n' ∉ n.data)
    (haccepted : (getScanNamespaces namespaces (.ok cluster)).2 = none) (name : String) :
    name ∈ (getScanNamespaces namespaces (.ok cluster)).1.getD [] ↔
      (name ∈ namespaces ∧ '*' ∉ name.data) ∨
      (name ∈ cluster ∧ ∃ wildcard ∈ namespaces, ∃ literal : String,
        wildcard = literal ++ "*" ∧ '*' ∉ literal.data ∧ literal.data <+: name.data) := by
  by_cases hne : namespaces = []
  · subst hne
    simp [getScanNamespaces]
  · have hlen : ¬ namespaces.length = 0 := fun h => hne (List.length_eq_zero.1 h)
    cases hsep : separateNamespaces namespaces [] ∅ with
    | error ns =>
      simp [getScanNamespaces, hlen, hsep] at haccepted
    | ok p =>
      obtain ⟨wildcards, set⟩ := p
      obtain ⟨hgood, hw, hset⟩ := (separateNamespaces_spec namespaces [] ∅).2 _ _ hsep
      rw [getScanNamespaces_of_ok namespaces cluster wildcards set hne hsep]
      have hmap : ∀ x : GoSlice String, name ∈ (x.map slices.Sort).getD [] ↔ name ∈ x.getD [] := by
        intro x
        cases x with
        | none => rfl
        | some l => exact slices.mem_Sort l name
      have hwild : name ∈
          (if wildcards.length > 0 then (getNamespacesFromWildcards (.ok cluster) wildcards).1
            else none).getD [] ↔
          name ∈ cluster ∧ ∃ w ∈ wildcards,
            regexp.FindStringLiteralPrefix ⟨w.data.dropLast⟩ name ≠ "" := by
        by_cases hpos : wildcards.length > 0
        · rw [if_pos hpos]
          simp only [getNamespacesFromWildcards, getAllMapKeys_getD]
          rw [mem_keys_wildcards]
          simp
        · have : wildcards = [] := List.length_eq_zero.1 (by omega)
          rw [if_neg hpos, this]
          simp
      simp only
      rw [hmap, GoSlice.getD_append, List.mem_append, hwild, hset name, hw, List.nil_append]
      have hempty : name ∉ (∅ : GoMap String Unit).keys := by simp
      simp only [hempty, false_or]
      rw [or_comm]
      apply or_congr Iff.rfl
      apply and_congr_right
      intro hcluster
      obtain ⟨hn1, hn2⟩ := hnames name hcluster
      constructor
      · rintro ⟨w, hwmem, hfind⟩
        rw [List.mem_filter] at hwmem
        obtain ⟨hwns, hstar⟩ := hwmem
        have hstar' : '*' ∈ w.data := by simpa [strings.Contains] using hstar
        have hok := hgood w hwns
        have hlast : w.data.getLast? = some '*' := by
          by_contra h
          exact hok ⟨hstar', Or.inl h⟩
        have hcount : ¬ 1 < w.data.count '*' := fun h => hok ⟨hstar', Or.inr h⟩
        have hdata : w.data = w.data.dropLast ++ ['*'] :=
          (List.dropLast_append_getLast? _ hlast).symm
        refine ⟨w, hwns, ⟨w.data.dropLast⟩, ?_, ?_, ?_⟩
        · apply String.ext
          rw [String.data_append]
          exact hdata
        · intro hmem
          apply hcount
          rw [hdata, List.count_append]
          have : 0 < List.count '*' w.data.dropLast := List.count_pos_iff.2 hmem
          simp only [List.count_singleton_self]
          omega
        · exact (regexp.FindStringLiteralPrefix_ne_empty _ _ hn1 hn2).1 hfind
      · rintro ⟨w, hwns, literal, hwl, _, hprefix⟩
        have hdata : w.data = literal.data ++ ['*'] := by
          rw [hwl, String.data_append]
        refine ⟨w, List.mem_filter.2 ⟨hwns, ?_⟩, ?_⟩
        · simp [strings.Contains, hdata]
        · have hdrop : w.data.dropLast = literal.data := by
            rw [hdata, List.dropLast_concat]
          rw [hdrop]
          exact (regexp.FindStringLiteralPrefix_ne_empty _ _ hn1 hn2).2 hprefix

/-- The theorem `getScanNamespaces_membership` at the list `ns-*`, `default` and the cluster of
the repository's tests: `ns-2` occurs in the result, as a cluster namespace starting with
`ns-`. -/
theorem getScanNamespaces_membership_witness :
    "ns-2" ∈ (getScanNamespaces ["ns-*", "default"] (.ok Example.clusterNamespaces)).1.getD [] :=
  (getScanNamespaces_membership ["ns-*", "default"] Example.clusterNamespaces
    (by decide) (by decide) "ns-2").2
    (Or.inr ⟨by decide, "ns-*", by decide, "ns-", by decide, by decide,
      ⟨"2".data, by decide⟩⟩)

end Scanner

namespace Scanner

/-- C20, as stated, fails. The list `ns-*` holds no unsupported wildcard, and
`getScanNamespaces` fails on it when the namespaces of the cluster cannot be listed; on this
failure the returned list is nil. -/
theorem getScanNamespaces_fails_on_list_error :
    (∀ ns ∈ ["ns-*"], ¬ ('*' ∈ ns.data ∧
      (ns.data.getLast? ≠ some '*' ∨ 1 < ns.data.count '*'))) ∧
    getScanNamespaces ["ns-*"] (.error (.Status "InternalError")) =
      (none, some (.Errorf "could not obtain namespaces to scan, based on provided wildcards"
        (.Errorf "could not list namespaces from the cluster" (.Status "InternalError")))) :=
  ⟨by decide, by decide⟩

/-- C20, amended. Call an entry unsupported when it holds `*` and does not end with `*` or
holds more than one `*`. If the list has an unsupported entry, `getScanNamespaces` fails with
the error naming such an entry and returns an empty, non-nil list. If it has none but has an
entry with `*`, and listing the cluster's namespaces fails, `getScanNamespaces` fails with
that error wrapped and returns a nil list. In every other case (no unsupported entry, and no
entry with `*` or a successful listing) it succeeds. -/
theorem getScanNamespaces_failure (namespaces : List String)
    (client : Except Err (List String)) :
    ((∃ ns ∈ namespaces, '*' ∈ ns.data ∧
        (ns.data.getLast? ≠ some '*' ∨ 1 < ns.data.count '*')) →
      ∃ ns ∈ namespaces, ('*' ∈ ns.data ∧
          (ns.data.getLast? ≠ some '*' ∨ 1 < ns.data.count '*')) ∧
        getScanNamespaces namespaces client =
          (some [], some (.New ("unsupported wildcard detected: " ++ ns)))) ∧
    ((∀ ns ∈ namespaces, ¬ ('*' ∈ ns.data ∧
        (ns.data.getLast? ≠ some '*' ∨ 1 < ns.data.count '*'))) →
      (∃ ns ∈ namespaces, '*' ∈ ns.data) →
      ∀ err, client = .error err →
        getScanNamespaces namespaces client =
          (none, some (.Errorf "could not obtain namespaces to scan, based on provided wildcards"
            (.Errorf "could not list namespaces from the cluster" err)))) ∧
    ((∀ ns ∈ namespaces, ¬ ('*' ∈ ns.data ∧
        (ns.data.getLast? ≠ some '*' ∨ 1 < ns.data.count '*'))) →
      ((∀ ns ∈ namespaces, '*' ∉ ns.data) ∨ ∃ cluster, client = .ok cluster) →
      (getScanNamespaces namespaces client).2 = none) := by
  obtain ⟨herr, hok⟩ := separateNamespaces_spec namespaces [] ∅
  refine ⟨?_, ?_, ?_⟩
  · rintro ⟨bad, hbad, hshape⟩
    have hlen : ¬ namespaces.length = 0 := fun h => by
      rw [List.length_eq_zero.1 h] at hbad
      cases hbad
    cases hsep : separateNamespaces namespaces [] ∅ with
    | ok p =>
      obtain ⟨wildcards, set⟩ := p
      exact absurd hshape ((hok _ _ hsep).1 bad hbad)
    | error ns =>
      obtain ⟨h1, h2⟩ := herr ns hsep
      refine ⟨ns, h1, h2, ?_⟩
      simp only [getScanNamespaces, if_neg hlen, hsep]
  · intro hgood hwild err hclient
    obtain ⟨w, hw, hstar⟩ := hwild
    have hlen : ¬ namespaces.length = 0 := fun h => by
      rw [List.length_eq_zero.1 h] at hw
      cases hw
    cases hsep : separateNamespaces namespaces [] ∅ with
    | error ns =>
      obtain ⟨h1, h2⟩ := herr ns hsep
      exact absurd h2 (hgood ns h1)
    | ok p =>
      obtain ⟨wildcards, set⟩ := p
      obtain ⟨_, hwildcards, _⟩ := hok _ _ hsep
      have hmem : w ∈ wildcards := by
        rw [hwildcards, List.nil_append, List.mem_filter]
        exact ⟨hw, by simpa [strings.Contains] using hstar⟩
      have hpos : wildcards.length > 0 := List.length_pos_of_mem hmem
      subst hclient
      simp only [getScanNamespaces, if_neg hlen, hsep, if_pos hpos, getNamespacesFromWildcards]
  · intro hgood hcase
    by_cases hlen : namespaces.length = 0
    · simp only [getScanNamespaces, if_pos hlen]
    · cases hsep : separateNamespaces namespaces [] ∅ with
      | error ns =>
        obtain ⟨h1, h2⟩ := herr ns hsep
        exact absurd h2 (hgood ns h1)
      | ok p =>
        obtain ⟨wildcards, set⟩ := p
        obtain ⟨_, hwildcards, _⟩ := hok _ _ hsep
        by_cases hpos : wildcards.length > 0
        · rcases hcase with hplain | ⟨cluster, hclient⟩
          · obtain ⟨w, hw⟩ := List.exists_mem_of_length_pos hpos
            rw [hwildcards, List.nil_append, List.mem_filter] at hw
            have : '*' ∈ w.data := by simpa [strings.Contains] using hw.2
            exact absurd this (hplain w hw.1)
          · subst hclient
            simp only [getScanNamespaces, if_neg hlen, hsep, if_pos hpos,
              getNamespacesFromWildcards]
        · simp only [getScanNamespaces, if_neg hlen, hsep, if_neg hpos]

/-- The theorem `getScanNamespaces_failure` at the list `ns-*-2*` of the repository's tests:
the entry holds two asterisks, and the call fails with an empty, non-nil list. -/
theorem getScanNamespaces_failure_witness :
    ∃ ns ∈ ["ns-*-2*"], ('*' ∈ ns.data ∧
        (ns.data.getLast? ≠ some '*' ∨ 1 < ns.data.count '*')) ∧
      getScanNamespaces ["ns-*-2*"] (.ok Example.clusterNamespaces) =
        (some [], some (.New ("unsupported wildcard detected: " ++ ns))) :=
  (getScanNamespaces_failure ["ns-*-2*"] (.ok Example.clusterNamespaces)).1
    ⟨"ns-*-2*", by decide, by decide, Or.inr (by decide)⟩

end Scanner

namespace Scanner

/-- C21, as stated, fails. For the input `ns-[a-z]+*` and the cluster of the repository's
tests, `getScanNamespaces` returns no error; the result is nil, as no namespace of the cluster
starts with the text `ns-[a-z]+`. -/
theorem getScanNamespaces_accepts_regexp_syntax :
    getScanNamespaces ["ns-[a-z]+*"] (.ok Example.clusterNamespaces) = (none, none) := by
  decide

/-- C21, amended. An entry `literal*` whose text before the trailing `*` holds no `*` is
accepted whatever else the text holds, regular-expression syntax included: when the cluster's
namespaces are listed (names that are non-empty and hold no line feed), `getScanNamespaces`
returns no error, and its result holds exactly the cluster namespaces whose names start with
the text, taken literally. -/
theorem getScanNamespaces_literal_wildcard (literal : String) (cluster : List String)
    (hliteral : '*' ∉ literal.data)
    (hnames : ∀ n ∈ cluster, n ≠ "" ∧ '\n' ∉ n.data) :
    (getScanNamespaces [literal ++ "*"] (.ok cluster)).2 = none ∧
    ∀ name, name ∈ (getScanNamespaces [literal ++ "*"] (.ok cluster)).1.getD [] ↔
      name ∈ cluster ∧ literal.data <+: name.data := by
  have hdata : (literal ++ "*").data = literal.data ++ ['*'] := by
    rw [String.data_append]
    try rfl
  have hstar : '*' ∈ (literal ++ "*").data := by rw [hdata]; simp
  have hgood : ¬ ((literal ++ "*").data.getLast? ≠ some '*' ∨
      1 < (literal ++ "*").data.count '*') := by
    rw [hdata, List.getLast?_concat, List.count_append, List.count_eq_zero.2 hliteral]
    simp
  obtain ⟨herr, hok⟩ := separateNamespaces_spec [literal ++ "*"] [] ∅
  cases hsep : separateNamespaces [literal ++ "*"] [] ∅ with
  | error ns =>
    obtain ⟨hmem, _, hbad⟩ := herr ns hsep
    rw [List.mem_singleton] at hmem
    subst hmem
    exact absurd hbad hgood
  | ok p =>
    obtain ⟨wildcards, set⟩ := p
    obtain ⟨_, hw, hset⟩ := hok _ _ hsep
    have hc : strings.Contains (literal ++ "*") '*' = true := by
      simp [strings.Contains, hstar]
    have hw' : wildcards = [literal ++ "*"] := by
      rw [hw, List.nil_append, List.filter_cons, if_pos hc, List.filter_nil]
    subst hw'
    have hkeys : set.keys = [] := by
      apply List.eq_nil_iff_forall_not_mem.2
      intro k hk
      rcases (hset k).1 hk with h | ⟨h, h'⟩
      · simp at h
      · rw [List.mem_singleton] at h
        subst h
        exact h' hstar
    rw [getScanNamespaces_of_ok [literal ++ "*"] cluster _ set (by simp) hsep]
    refine ⟨rfl, fun name => ?_⟩
    have hpos : [literal ++ "*"].length > 0 := by simp
    have hmap : ∀ x : GoSlice String, name ∈ (x.map slices.Sort).getD [] ↔ name ∈ x.getD [] := by
      intro x
      cases x with
      | none => rfl
      | some l => exact slices.mem_Sort l name
    simp only
    rw [hmap, GoSlice.getD_append, hkeys, List.append_nil, if_pos hpos]
    simp only [getNamespacesFromWildcards, getAllMapKeys_getD]
    rw [mem_keys_wildcards]
    have hempty : name ∉ (∅ : GoMap String Unit).keys := by simp
    have hdrop : (literal ++ "*").data.dropLast = literal.data := by
      rw [hdata, List.dropLast_concat]
    simp only [hempty, false_or, List.mem_singleton, exists_eq_left, hdrop]
    apply and_congr_right
    intro hcluster
    obtain ⟨hn1, hn2⟩ := hnames name hcluster
    exact regexp.FindStringLiteralPrefix_ne_empty _ _ hn1 hn2

/-- The theorem `getScanNamespaces_literal_wildcard` at the text `ns-[a-z]+` and a cluster with
the namespaces `ns-[a-z]+1` and `ns-1`: the call succeeds and the first namespace, which
starts with the text, is in the result. -/
theorem getScanNamespaces_literal_wildcard_witness :
    (getScanNamespaces ["ns-[a-z]+" ++ "*"] (.ok ["ns-[a-z]+1", "ns-1"])).2 = none ∧
    "ns-[a-z]+1" ∈ (getScanNamespaces ["ns-[a-z]+" ++ "*"] (.ok ["ns-[a-z]+1", "ns-1"])).1.getD
      [] :=
  ⟨(getScanNamespaces_literal_wildcard "ns-[a-z]+" ["ns-[a-z]+1", "ns-1"] (by decide)
      (by decide)).1,
    ((getScanNamespaces_literal_wildcard "ns-[a-z]+" ["ns-[a-z]+1", "ns-1"] (by decide)
      (by decide)).2 "ns-[a-z]+1").2 ⟨by decide, ⟨"1".data, by decide⟩⟩⟩

end Scanner

namespace Reporter

open deployments

variable {σ S P : Type}

/-- C22. Let `parseOauth2ProxyArgs` succeed with the arguments `containerArgs`. Then the
redirect URL was resolved, and: the arguments that set one of the seven core setup flags are
exactly the seven core setup arguments with the operator's values, so each of these flags is
set exactly once; the arguments are the core setup, the arguments of the authentication
modes and, when OAuth is enabled and parameters are given, the user's contribution followed
by the true defaults; and the user's contribution is the same as without the parameters
whose flag is in the core-parameter table, so such a parameter contributes no argument. -/
theorem parseOauth2ProxyArgs_core_flags (config : IBMLicenseServiceReporterConfig σ S P)
    (getRoute : Except Err RouteSpec) (getIngress : Except Err IngressSpec)
    (spec : v1alpha1.IBMLicenseServiceReporterSpec) (containerArgs : List String)
    (hsuccess : parseOauth2ProxyArgs config getRoute getIngress spec =
      some (containerArgs, none)) :
    ∃ redirectUrl,
      getRedirectUrl config getRoute getIngress spec = some (redirectUrl, none) ∧
      containerArgs.filter (fun arg => flagName arg ∈ coreSetupFlags) =
        coreSetupArguments redirectUrl ∧
      (∀ flag ∈ coreSetupFlags,
        (containerArgs.filter (fun arg => flagName arg = flag)).length = 1) ∧
      containerArgs =
        coreSetupArguments redirectUrl ++
          modeArguments spec.Authentication.UseradminEnabled
            spec.Authentication.OAuth.Enabled ++
          (if spec.Authentication.OAuth.Enabled ∧ spec.Authentication.OAuth.Parameters ≠ [] then
            userArguments spec.Authentication.OAuth.Parameters ++
              defaultArguments spec.Authentication.OAuth.Parameters
          else []) ∧
      userArguments spec.Authentication.OAuth.Parameters =
        userArguments (spec.Authentication.OAuth.Parameters.filter fun param =>
          (getCoreParams.lookup (flagName param)).isNone) := by
  obtain ⟨redirectUrl, hurl, hargs⟩ :=
    parseOauth2ProxyArgs_success config getRoute getIngress spec containerArgs hsuccess
  have hfilter := filter_coreSetupFlags redirectUrl spec
  rw [← hargs] at hfilter
  refine ⟨redirectUrl, hurl, hfilter, ?_, hargs, ?_⟩
  · intro flag hflag
    have hsub : containerArgs.filter (fun arg => flagName arg = flag) =
        (coreSetupArguments redirectUrl).filter (fun arg => flagName arg = flag) := by
      rw [← hfilter, List.filter_filter]
      apply List.filter_congr
      intro arg _
      by_cases h : flagName arg = flag
      · simp [h, hflag]
      · simp [h]
    rw [hsub]
    have hredirect := flagName_redirect redirectUrl
    have h1 : flagName "--https-address=:8888" = "--https-address" := by decide
    have h2 : flagName "--proxy-prefix=/license-service-reporter/oauth2" = "--proxy-prefix" := by
      decide
    have h3 : flagName "--upstream=http://localhost:3001/" = "--upstream" := by decide
    have h4 : flagName "--tls-cert-file=/etc/tls/private/tls.crt" = "--tls-cert-file" := by
      decide
    have h5 : flagName "--tls-key-file=/etc/tls/private/tls.key" = "--tls-key-file" := by
      decide
    have h6 : flagName "--htpasswd-file=/opt/oauth2-proxy/htpasswd" = "--htpasswd-file" := by
      decide
    simp only [coreSetupFlags, List.mem_cons, List.mem_singleton, List.not_mem_nil,
      or_false] at hflag
    rcases hflag with h | h | h | h | h | h | h <;> subst h <;>
      simp [coreSetupArguments, List.filter, h1, h2, h3, h4, h5, h6, hredirect]
  · unfold userArguments
    rw [List.filterMap_filter]
    apply List.filterMap_congr
    intro param _
    cases hl : getCoreParams.lookup (flagName param) <;> simp [Option.guard, hl]

/-- The theorem `parseOauth2ProxyArgs_core_flags` at an OAuth spec whose parameters try to set
the core flag `--upstream`: the call succeeds, and the arguments that set a core setup flag
are the operator's seven. -/
theorem parseOauth2ProxyArgs_core_flags_witness :
    ∃ redirectUrl,
      getRedirectUrl (Cluster.config (S := Unit) Example.reporter false true)
        Example.consoleRoute Example.notFound
        (Example.specWithRoute
          { UseradminEnabled := false,
            OAuth := { Enabled := true, Parameters := ["--upstream=http://evil/"] } }) =
        some (redirectUrl, none) ∧
      ["--https-address=:8888", "--proxy-prefix=/license-service-reporter/oauth2",
        "--upstream=http://localhost:3001/", "--tls-cert-file=/etc/tls/private/tls.crt",
        "--tls-key-file=/etc/tls/private/tls.key",
        "--htpasswd-file=/opt/oauth2-proxy/htpasswd",
        "--redirect-url=https://reporter.apps.example.com/oauth2/callback",
        "--display-htpasswd-form=false",
        "--custom-templates-dir=/opt/oauth2-proxy/templates/oauth_useradmin",
        "--email-domain=*"].filter (fun arg => flagName arg ∈ coreSetupFlags) =
        coreSetupArguments redirectUrl :=
  (parseOauth2ProxyArgs_core_flags (Cluster.config (S := Unit) Example.reporter false true)
    Example.consoleRoute Example.notFound
    (Example.specWithRoute
      { UseradminEnabled := false,
        OAuth := { Enabled := true, Parameters := ["--upstream=http://evil/"] } })
    ["--https-address=:8888", "--proxy-prefix=/license-service-reporter/oauth2",
      "--upstream=http://localhost:3001/", "--tls-cert-file=/etc/tls/private/tls.crt",
      "--tls-key-file=/etc/tls/private/tls.key",
      "--htpasswd-file=/opt/oauth2-proxy/htpasswd",
      "--redirect-url=https://reporter.apps.example.com/oauth2/callback",
      "--display-htpasswd-form=false",
      "--custom-templates-dir=/opt/oauth2-proxy/templates/oauth_useradmin",
      "--email-domain=*"] (by decide)).imp fun _ h => ⟨h.1, h.2.1⟩

end Reporter

namespace Reporter

open deployments

variable {σ S P : Type}

/-- C23. Let `parseOauth2ProxyArgs` succeed with the arguments `containerArgs`. If OAuth is
enabled, the parameter list is not empty and no parameter sets `--email-domain`, the
arguments that set `--email-domain` are the single argument `--email-domain=*`. If OAuth is
enabled and some parameter sets `--email-domain`, they are exactly the user's parameters that
set it, and the default is not added. If OAuth is disabled or the parameter list is empty,
no argument sets `--email-domain`. -/
theorem parseOauth2ProxyArgs_email_domain (config : IBMLicenseServiceReporterConfig σ S P)
    (getRoute : Except Err RouteSpec) (getIngress : Except Err IngressSpec)
    (spec : v1alpha1.IBMLicenseServiceReporterSpec) (containerArgs : List String)
    (hsuccess : parseOauth2ProxyArgs config getRoute getIngress spec =
      some (containerArgs, none)) :
    (spec.Authentication.OAuth.Enabled = true → spec.Authentication.OAuth.Parameters ≠ [] →
      (∀ param ∈ spec.Authentication.OAuth.Parameters, flagName param ≠ "--email-domain") →
      containerArgs.filter (fun arg => flagName arg = "--email-domain") =
        ["--email-domain=*"]) ∧
    (spec.Authentication.OAuth.Enabled = true →
      (∃ param ∈ spec.Authentication.OAuth.Parameters, flagName param = "--email-domain") →
      containerArgs.filter (fun arg => flagName arg = "--email-domain") =
        spec.Authentication.OAuth.Parameters.filter
          (fun param => flagName param = "--email-domain")) ∧
    (spec.Authentication.OAuth.Enabled = false ∨ spec.Authentication.OAuth.Parameters = [] →
      containerArgs.filter (fun arg => flagName arg = "--email-domain") = []) := by
  obtain ⟨redirectUrl, _, hargs⟩ :=
    parseOauth2ProxyArgs_success config getRoute getIngress spec containerArgs hsuccess
  have hfilter := filter_emailDomain redirectUrl spec
  rw [← hargs] at hfilter
  rw [hfilter]
  refine ⟨?_, ?_, ?_⟩
  · intro henabled hne hnone
    have hex : ¬ ∃ param ∈ spec.Authentication.OAuth.Parameters,
        flagName param = "--email-domain" := by
      rintro ⟨p, hp, h⟩
      exact hnone p hp h
    have hnil : spec.Authentication.OAuth.Parameters.filter
        (fun param => flagName param = "--email-domain") = [] := by
      rw [List.filter_eq_nil_iff]
      intro p hp
      simpa using hnone p hp
    rw [if_pos ⟨henabled, hne⟩, hnil, defaultArguments, if_neg hex]
    rfl
  · intro henabled hex
    have hne : spec.Authentication.OAuth.Parameters ≠ [] := by
      obtain ⟨p, hp, _⟩ := hex
      exact List.ne_nil_of_mem hp
    rw [if_pos ⟨henabled, hne⟩, defaultArguments, if_pos hex, List.append_nil]
  · intro h
    have hc : ¬ (spec.Authentication.OAuth.Enabled = true ∧
        spec.Authentication.OAuth.Parameters ≠ []) := by
      rintro ⟨h1, h2⟩
      rcases h with h | h
      · rw [h] at h1; cases h1
      · exact h2 h
    rw [if_neg hc]

/-- The theorem `parseOauth2ProxyArgs_email_domain` at the OAuth spec of the repository's
test, with the single parameter `--any-param-to-invoke-defaults=a`: the default
`--email-domain=*` is the one argument that sets the flag. -/
theorem parseOauth2ProxyArgs_email_domain_witness :
    ["--https-address=:8888", "--proxy-prefix=/license-service-reporter/oauth2",
      "--upstream=http://localhost:3001/", "--tls-cert-file=/etc/tls/private/tls.crt",
      "--tls-key-file=/etc/tls/private/tls.key",
      "--htpasswd-file=/opt/oauth2-proxy/htpasswd",
      "--redirect-url=https://reporter.apps.example.com/oauth2/callback",
      "--display-htpasswd-form=false",
      "--custom-templates-dir=/opt/oauth2-proxy/templates/oauth_useradmin",
      "--any-param-to-invoke-defaults=a",
      "--email-domain=*"].filter (fun arg => flagName arg = "--email-domain") =
      ["--email-domain=*"] :=
  (parseOauth2ProxyArgs_email_domain (Cluster.config (S := Unit) Example.reporter false true)
    Example.consoleRoute Example.notFound
    (Example.specWithRoute
      { UseradminEnabled := false,
        OAuth := { Enabled := true, Parameters := ["--any-param-to-invoke-defaults=a"] } })
    ["--https-address=:8888", "--proxy-prefix=/license-service-reporter/oauth2",
      "--upstream=http://localhost:3001/", "--tls-cert-file=/etc/tls/private/tls.crt",
      "--tls-key-file=/etc/tls/private/tls.key",
      "--htpasswd-file=/opt/oauth2-proxy/htpasswd",
      "--redirect-url=https://reporter.apps.example.com/oauth2/callback",
      "--display-htpasswd-form=false",
      "--custom-templates-dir=/opt/oauth2-proxy/templates/oauth_useradmin",
      "--any-param-to-invoke-defaults=a", "--email-domain=*"] (by decide)).1
    rfl (by decide) (by decide)

end Reporter

namespace Reporter

open deployments

variable {σ S P : Type}

/-- C24, as stated, fails. With OAuth enabled and the redirect URL resolved from the console
route, the parameter `--cookie-secret=abc=`, whose value holds `=`, makes
`parseOauth2ProxyArgs` fail; and the parameter `foo=bar`, which is not of the form
`--param=value`, is accepted and passed on. -/
theorem parseOauth2ProxyArgs_rejects_equals_in_value :
    parseOauth2ProxyArgs (Cluster.config (S := Unit) Example.reporter false true)
        Example.consoleRoute Example.notFound
        (Example.specWithRoute
          { UseradminEnabled := false,
            OAuth := { Enabled := true, Parameters := ["--cookie-secret=abc="] } }) =
      some ([], some (.New
        "parameter --cookie-secret=abc= has wrong format. It should be --param=value")) ∧
    (parseOauth2ProxyArgs (Cluster.config (S := Unit) Example.reporter false true)
        Example.consoleRoute Example.notFound
        (Example.specWithRoute
          { UseradminEnabled := false,
            OAuth := { Enabled := true, Parameters := ["foo=bar"] } })).map
      (fun result => (decide ("foo=bar" ∈ result.1), result.2)) = some (true, none) :=
  ⟨by decide, by decide⟩

/-- C24, amended. With OAuth enabled and the redirect URL resolved, `parseOauth2ProxyArgs`
fails exactly when some user parameter does not hold the character `=` exactly once; it then
returns an empty argument list and the error that names such a parameter. When every
parameter holds `=` exactly once the call succeeds, whatever the parameters are otherwise
(a leading `--` is not required), with the arguments that the specification describes. -/
theorem parseOauth2ProxyArgs_format (config : IBMLicenseServiceReporterConfig σ S P)
    (getRoute : Except Err RouteSpec) (getIngress : Except Err IngressSpec)
    (spec : v1alpha1.IBMLicenseServiceReporterSpec) (redirectUrl : String)
    (hurl : getRedirectUrl config getRoute getIngress spec = some (redirectUrl, none))
    (henabled : spec.Authentication.OAuth.Enabled = true) :
    ((∃ param ∈ spec.Authentication.OAuth.Parameters, param.data.count '=' ≠ 1) →
      ∃ param ∈ spec.Authentication.OAuth.Parameters, param.data.count '=' ≠ 1 ∧
        parseOauth2ProxyArgs config getRoute getIngress spec =
          some ([], some (.New ("parameter " ++ param ++
            " has wrong format. It should be --param=value")))) ∧
    ((∀ param ∈ spec.Authentication.OAuth.Parameters, param.data.count '=' = 1) →
      parseOauth2ProxyArgs config getRoute getIngress spec =
        some (oauth2ProxyArgsSpec redirectUrl spec, none)) :=
  ⟨parseOauth2ProxyArgs_error config getRoute getIngress spec redirectUrl hurl henabled,
    fun hformat =>
      parseOauth2ProxyArgs_ok config getRoute getIngress spec redirectUrl hurl
        fun _ => hformat⟩

/-- The theorem `parseOauth2ProxyArgs_format` at the parameters `--scope=openid` and
`--cookie-secret=abc=`: the second one holds `=` twice, and the call fails with an empty
argument list. -/
theorem parseOauth2ProxyArgs_format_witness :
    ∃ param ∈ ["--scope=openid", "--cookie-secret=abc="], param.data.count '=' ≠ 1 ∧
      parseOauth2ProxyArgs (Cluster.config (S := Unit) Example.reporter false true)
          Example.consoleRoute Example.notFound
          (Example.specWithRoute
            { UseradminEnabled := false,
              OAuth :=
                { Enabled := true,
                  Parameters := ["--scope=openid", "--cookie-secret=abc="] } }) =
        some ([], some (.New ("parameter " ++ param ++
          " has wrong format. It should be --param=value"))) :=
  (parseOauth2ProxyArgs_format (Cluster.config (S := Unit) Example.reporter false true)
    Example.consoleRoute Example.notFound
    (Example.specWithRoute
      { UseradminEnabled := false,
        OAuth :=
          { Enabled := true, Parameters := ["--scope=openid", "--cookie-secret=abc="] } })
    "https://reporter.apps.example.com/oauth2/callback" (by decide) rfl).1
    ⟨"--cookie-secret=abc=", by decide, by decide⟩

end Reporter

namespace Reporter

open deployments

variable {σ S P : Type}

/-- C25, as stated, fails. The Route API is available and routes are enabled, and the console
route is not in the cluster: `getRedirectUrl` returns an error, not a URL. -/
theorem getRedirectUrl_missing_route :
    getRedirectUrl (Cluster.config (S := Unit) Example.reporter false true)
        Example.notFound Example.notFound
        (Example.specWithRoute
          { UseradminEnabled := true, OAuth := { Enabled := false, Parameters := [] } }) =
      some ("", some (.New ("cannot parse oauth2-proxy parameters due to missing " ++
        "ibm-lsr-console route: could not retrieve route ibm-lsr-console: not found"))) := by
  decide

/-- C25, amended. The redirect URL is resolved in this order. If the Route API is available
and routes are enabled, whatever the ingress settings are: the URL is `https://`, the host
and the path of the console route, and `/oauth2/callback`, or an error when the route cannot
be retrieved. Otherwise, if ingress is enabled: an error when `IngressOptions` is unset, and
when `CommonOptions` is set the URL
`https://<host>/license-service-reporter/oauth2/callback` for its host, or an error when it
has no host. Otherwise: the URL built in the same way from the host of the first rule of the
console ingress in the cluster, or an error when that ingress cannot be retrieved, has no
rule, or its first rule has no host. -/
theorem getRedirectUrl_precedence (config : IBMLicenseServiceReporterConfig σ S P)
    (getRoute : Except Err RouteSpec) (getIngress : Except Err IngressSpec)
    (spec : v1alpha1.IBMLicenseServiceReporterSpec) :
    (config.IsRouteAPI = true ∧ spec.IsRouteEnabled = true →
      (∀ route, getRoute = .ok route →
        getRedirectUrl config getRoute getIngress spec =
          some ("https://" ++ route.Host ++ route.Path ++ "/oauth2/callback", none)) ∧
      (∀ err, getRoute = .error err →
        ∃ e, getRedirectUrl config getRoute getIngress spec = some ("", some e))) ∧
    (¬ (config.IsRouteAPI = true ∧ spec.IsRouteEnabled = true) → spec.IngressEnabled = true →
      (spec.IngressOptions = none →
        ∃ e, getRedirectUrl config getRoute getIngress spec = some ("", some e)) ∧
      (∀ ingressOptions commonOptions, spec.IngressOptions = some ingressOptions →
        ingressOptions.CommonOptions = some commonOptions →
        (∀ host, commonOptions.Host = some host →
          getRedirectUrl config getRoute getIngress spec =
            some ("https://" ++ host ++ "/license-service-reporter" ++ "/oauth2/callback",
              none)) ∧
        (commonOptions.Host = none →
          ∃ e, getRedirectUrl config getRoute getIngress spec = some ("", some e)))) ∧
    (¬ (config.IsRouteAPI = true ∧ spec.IsRouteEnabled = true) →
      spec.IngressEnabled = false →
      (∀ err, getIngress = .error err →
        ∃ e, getRedirectUrl config getRoute getIngress spec = some ("", some e)) ∧
      (∀ consoleIngress, getIngress = .ok consoleIngress →
        (consoleIngress.Rules = [] ∨ (consoleIngress.Rules.head?.map IngressRule.Host) = some "" →
          ∃ e, getRedirectUrl config getRoute getIngress spec = some ("", some e)) ∧
        (∀ rule rest, consoleIngress.Rules = rule :: rest → rule.Host ≠ "" →
          getRedirectUrl config getRoute getIngress spec =
            some ("https://" ++ rule.Host ++ "/license-service-reporter" ++ "/oauth2/callback",
              none)))) := by
  refine ⟨?_, ?_, ?_⟩
  · rintro ⟨hapi, hroute⟩
    refine ⟨fun route hget => ?_, fun err hget => ?_⟩
    · simp [getRedirectUrl, hapi, hroute, hget, routes.GetExistingRoute]
    · simp only [getRedirectUrl, hapi, hroute, hget, routes.GetExistingRoute, Bool.and_self,
        if_true]
      exact ⟨_, rfl⟩
  · intro hnot hingress
    have hcond : ¬ (config.IsRouteAPI && spec.IsRouteEnabled) = true := by
      simpa using hnot
    refine ⟨fun hopts => ?_, fun ingressOptions commonOptions hopts hcommon => ⟨?_, ?_⟩⟩
    · simp only [getRedirectUrl, if_neg hcond, hingress, if_true, hopts]
      exact ⟨_, rfl⟩
    · intro host hhost
      simp only [getRedirectUrl, if_neg hcond, hingress, if_true, hopts, hcommon, hhost]
      rfl
    · intro hhost
      simp only [getRedirectUrl, if_neg hcond, hingress, if_true, hopts, hcommon, hhost]
      exact ⟨_, rfl⟩
  · intro hnot hingress
    have hcond : ¬ (config.IsRouteAPI && spec.IsRouteEnabled) = true := by
      simpa using hnot
    have hfalse : ¬ (false = true) := by decide
    refine ⟨fun err hget => ?_, fun consoleIngress hget => ⟨?_, ?_⟩⟩
    · simp only [getRedirectUrl, if_neg hcond, hingress, if_neg hfalse, hget,
        ingress.GetExistingIngress]
      exact ⟨_, rfl⟩
    · intro hrules
      cases hr : consoleIngress.Rules with
      | nil =>
        simp only [getRedirectUrl, if_neg hcond, hingress, if_neg hfalse, hget,
          ingress.GetExistingIngress, hr]
        exact ⟨_, rfl⟩
      | cons rule rest =>
        rw [hr] at hrules
        have hhost : rule.Host = "" := by
          rcases hrules with h | h
          · cases h
          · simpa using h
        simp only [getRedirectUrl, if_neg hcond, hingress, if_neg hfalse, hget,
          ingress.GetExistingIngress, hr, hhost, if_true]
        exact ⟨_, rfl⟩
    · intro rule rest hr hhost
      simp only [getRedirectUrl, if_neg hcond, hingress, if_neg hfalse, hget,
        ingress.GetExistingIngress, hr, if_neg hhost]
      rfl

/-- The theorem `getRedirectUrl_precedence` with the Route API available and routes enabled,
while ingress is enabled as well with a host of its own: the URL is built from the console
route. -/
theorem getRedirectUrl_precedence_witness :
    getRedirectUrl (Cluster.config (S := Unit) Example.reporter false true)
        Example.consoleRoute Example.notFound
        { Example.specWithIngress (some
            { CommonOptions := some { Host := some "ingress.example.com",
                                      IngressClassName := none },
              ApiOptions := none, ConsoleOptions := none }) with
          RouteEnabled := some true } =
      some ("https://" ++ "reporter.apps.example.com" ++ "" ++ "/oauth2/callback", none) :=
  ((getRedirectUrl_precedence (Cluster.config (S := Unit) Example.reporter false true)
    Example.consoleRoute Example.notFound
    { Example.specWithIngress (some
        { CommonOptions := some { Host := some "ingress.example.com",
                                  IngressClassName := none },
          ApiOptions := none, ConsoleOptions := none }) with
      RouteEnabled := some true }).1 ⟨rfl, rfl⟩).1
    { Host := "reporter.apps.example.com", Path := "" } rfl

end Reporter

namespace Reporter

open secrets

/-- C26: the code departs from the claim. The cluster stores the database secret with the
expected type, the four data keys and the labels built without spec labels; the custom
resource now has the spec label `team = a`. The found labels fall short of the expected ones
by that label only (merging the spec labels into them satisfies the expected labels), and
`IsDatabaseSecretInDesiredState` reports neither the desired state nor that a patch
suffices: the branch notes that a patch suffices in a variable and returns before the
variable is read. `ReconcileDatabaseSecret` then issues no `Patch` but an `Update` with the
expected secret, whose `POSTGRES_PASSWORD` is the newly generated one. -/
theorem IsDatabaseSecretInDesiredState_labels_drift :
    (GetDatabaseSecret (.ok "Zk3pQ9xA") (.ok "postgres") Example.reporterWithSpecLabel).toOption.map
      (fun expectedSecret =>
        (MapHasAllPairsFromOther Example.databaseSecret.GetLabels expectedSecret.GetLabels,
          MapHasAllPairsFromOther
            (MergeMaps Example.databaseSecret.GetLabels
              (GetSpecLabels Example.reporterWithSpecLabel))
            expectedSecret.GetLabels,
          IsDatabaseSecretInDesiredState (P := MergePatch)
            (Cluster.config Example.reporterWithSpecLabel false false)
            Example.databaseSecret expectedSecret))
      = some (false, true, (⟨false, false⟩, none)) ∧
    (ReconcileDatabaseSecret (.ok "Zk3pQ9xA") (.ok "postgres")
      (Cluster.config Example.reporterWithSpecLabel false false)
      (Example.clusterWith Example.databaseSecret)).err = none ∧
    (ReconcileDatabaseSecret (.ok "Zk3pQ9xA") (.ok "postgres")
      (Cluster.config Example.reporterWithSpecLabel false false)
      (Example.clusterWith Example.databaseSecret)).calls.map Call.isPatch = [false, false] ∧
    (ReconcileDatabaseSecret (.ok "Zk3pQ9xA") (.ok "postgres")
      (Cluster.config Example.reporterWithSpecLabel false false)
      (Example.clusterWith Example.databaseSecret)).calls.map Call.isUpdate = [false, true] ∧
    ((ReconcileDatabaseSecret (.ok "Zk3pQ9xA") (.ok "postgres")
      (Cluster.config Example.reporterWithSpecLabel false false)
      (Example.clusterWith Example.databaseSecret)).state.objects.lookup
        ⟨DatabaseConfigSecretName, "test"⟩).map
      (fun stored => stored.Body.StringData.lookup PostgresPasswordKey)
      = some (some "Zk3pQ9xA") :=
  ⟨by decide, by decide, by decide, by decide, by decide⟩

end Reporter

namespace Scanner

open ScannerCronJob

/-- C27: the code departs from the claim. `suspendsEqual` and `expiresEqual` compare the two
pointer fields with `==`, that is by address: they return true iff both fields are nil or
both hold the same address, whatever the values. The expected cron job gets its two flags
from `ptr.To` in `Init`, and the cron job read from the cluster has its own copies: for the
cron job that `Init` builds and an actual cron job equal to it in every value, both
comparisons return false and `MarkShouldUpdate` sets `ShouldUpdate`, although labels,
annotations, schedule, volumes and containers are found equal. -/
theorem suspendsEqual_compares_addresses :
    (∀ j : BaseReconcilableResource CronJobSpec,
      (suspendsEqual j = true ↔
        j.ActualResource.Body.Suspend.map Pointer.addr =
          j.ExpectedResource.Body.Suspend.map Pointer.addr) ∧
      (expiresEqual j = true ↔
        j.ActualResource.Body.StartingDeadlineSeconds.map Pointer.addr =
          j.ExpectedResource.Body.StartingDeadlineSeconds.map Pointer.addr)) ∧
    (Example.expectedCronJob []).map
      (fun expected =>
        ((Example.actualCronJob expected).Body.Suspend.map Pointer.val,
          expected.Body.Suspend.map Pointer.val,
          (Example.actualCronJob expected).Body.StartingDeadlineSeconds.map Pointer.val,
          expected.Body.StartingDeadlineSeconds.map Pointer.val))
      = some (some false, some false, some 3600, some 3600) ∧
    (Example.expectedCronJob []).map
      (fun expected =>
        (suspendsEqual ⟨ScannerCronJobName, expected, Example.actualCronJob expected⟩,
          expiresEqual ⟨ScannerCronJobName, expected, Example.actualCronJob expected⟩))
      = some (false, false) ∧
    (Example.expectedCronJob []).map
      (fun expected =>
        (BaseReconcilableResource.labelsEqual
            ⟨ScannerCronJobName, expected, Example.actualCronJob expected⟩,
          BaseReconcilableResource.annotationsEqual
            ⟨ScannerCronJobName, expected, Example.actualCronJob expected⟩,
          schedulesEqual ⟨ScannerCronJobName, expected, Example.actualCronJob expected⟩,
          volumesEqual ⟨ScannerCronJobName, expected, Example.actualCronJob expected⟩,
          containersEqual expected.Body.Containers
            (Example.actualCronJob expected).Body.Containers,
          containersEqual expected.Body.InitContainers
            (Example.actualCronJob expected).Body.InitContainers))
      = some (true, true, true, true, true, true) ∧
    (Example.expectedCronJob []).map
      (fun expected =>
        MarkShouldUpdate ⟨ScannerCronJobName, expected, Example.actualCronJob expected⟩
          { ShouldCreate := false, ShouldUpdate := false })
      = some { ShouldCreate := false, ShouldUpdate := true } := by
  refine ⟨fun j => ⟨?_, ?_⟩, by decide, by decide, by decide, by decide⟩
  · simp [suspendsEqual, Pointer.equal]
  · simp [expiresEqual, Pointer.equal]

end Scanner

namespace Reporter

open ingress deployments

/-- C28: the code departs from the claim. With ingress enabled and `IngressOptions` unset,
`GetApiIngress` and `GetConsoleIngress` panic: they read `ApiOptions` and `ConsoleOptions`
through the nil `IngressOptions` before `getIngress`, which tests `IngressOptions` for nil,
is entered. With `IngressOptions` set and `CommonOptions` unset, both panic inside
`getIngress`, and so does the ingress branch of `getRedirectUrl`, which tests
`IngressOptions` for nil and then reads the host through the nil `CommonOptions`. For every
spec, the two builders return an ingress iff `IngressOptions` and its `CommonOptions` are
both set. -/
theorem GetApiIngress_panics_on_unset_options :
    GetApiIngress Example.reporter (Example.specWithIngress none) = none ∧
    GetConsoleIngress Example.reporter (Example.specWithIngress none) = none ∧
    GetApiIngress Example.reporter
      (Example.specWithIngress (some
        { CommonOptions := none,
          ApiOptions := some { Path := some "/api", Annotations := ∅, TLS := [] },
          ConsoleOptions := none })) = none ∧
    getRedirectUrl (Cluster.config (S := Unit) Example.reporter false false)
      Example.notFound Example.notFound
      (Example.specWithIngress (some
        { CommonOptions := none,
          ApiOptions := some { Path := some "/api", Annotations := ∅, TLS := [] },
          ConsoleOptions := none })) = none ∧
    ∀ (inst : IBMLicenseServiceReporter) (spec : v1alpha1.IBMLicenseServiceReporterSpec),
      ((GetApiIngress inst spec).isSome = true ↔
        ∃ ingressOptions commonOptions, spec.IngressOptions = some ingressOptions ∧
          ingressOptions.CommonOptions = some commonOptions) ∧
      ((GetConsoleIngress inst spec).isSome = true ↔
        ∃ ingressOptions commonOptions, spec.IngressOptions = some ingressOptions ∧
          ingressOptions.CommonOptions = some commonOptions) := by
  refine ⟨by decide, by decide, by decide, by decide, fun inst spec => ?_⟩
  cases hopts : spec.IngressOptions with
  | none => simp [GetApiIngress, GetConsoleIngress, hopts]
  | some ingressOptions =>
    cases hcommon : ingressOptions.CommonOptions with
    | none => simp [GetApiIngress, GetConsoleIngress, getIngress, hopts, hcommon]
    | some commonOptions =>
      simp [GetApiIngress, GetConsoleIngress, getIngress, hopts, hcommon]

end Reporter

namespace Reporter

/-- C29. `UnorderedEqualSlice a b` returns true iff every element occurs equally often in `a`
and in `b`, that is iff `a` and `b` are equal as multisets. Hence it is reflexive and
symmetric, and its answer does not change when either argument is reordered. -/
theorem UnorderedEqualSlice_multiset {T : Type} [DecidableEq T] (a b : List T) :
    (UnorderedEqualSlice a b = true ↔ ∀ x, a.count x = b.count x) ∧
    UnorderedEqualSlice a a = true ∧
    UnorderedEqualSlice a b = UnorderedEqualSlice b a ∧
    (∀ a' b' : List T, a'.Perm a → b'.Perm b →
      UnorderedEqualSlice a' b' = UnorderedEqualSlice a b) := by
  have hiff : ∀ a b : List T, UnorderedEqualSlice a b = true ↔ ∀ x, a.count x = b.count x := by
    intro a b
    rw [UnorderedEqualSlice_iff, ← List.perm_iff_count]
    constructor
    · rintro ⟨hlen, hcount⟩
      have hsub : b.Subperm a := List.subperm_ext_iff.2 fun x _ => hcount x
      exact (hsub.perm_of_length_le (le_of_eq hlen)).symm
    · intro hperm
      exact ⟨hperm.length_eq, fun x => le_of_eq (hperm.count_eq x).symm⟩
  refine ⟨hiff a b, (hiff a a).2 fun _ => rfl, ?_, ?_⟩
  · rw [Bool.eq_iff_iff, hiff, hiff]
    exact ⟨fun h x => (h x).symm, fun h x => (h x).symm⟩
  · intro a' b' ha hb
    rw [Bool.eq_iff_iff, hiff, hiff]
    constructor
    · intro h x
      rw [← ha.count_eq x, ← hb.count_eq x]; exact h x
    · intro h x
      rw [ha.count_eq x, hb.count_eq x]; exact h x

/-- The theorem `UnorderedEqualSlice_multiset` at two argument lists of a container: swapping
the two arguments of the first list does not change the answer. -/
theorem UnorderedEqualSlice_multiset_witness :
    UnorderedEqualSlice ["--port=8080", "--verbose"] ["--verbose", "--port=8080"] =
      UnorderedEqualSlice ["--verbose", "--port=8080"] ["--verbose", "--port=8080"] :=
  (UnorderedEqualSlice_multiset ["--verbose", "--port=8080"] ["--verbose", "--port=8080"]).2.2.2
    ["--port=8080", "--verbose"] ["--verbose", "--port=8080"]
    (List.Perm.swap _ _ _) (List.Perm.refl _)

end Reporter

namespace Scanner

/-- C30: the code departs from the claim. The scanner has one registry that authenticates
with Vault and names the same secret `vault-access` as certificate and as service account.
`Init` succeeds, and the pod volume list of the cron job holds the name `vault-access` twice:
the certificates and the service accounts are collected in two separate sets, and a volume is
appended for each member of either. Every volume mount of the operand container and of the
init container names a volume of the list in this run. -/
theorem Init_duplicate_volume_names :
    (Example.expectedCronJob [Example.vaultRegistry "vault-access" "vault-access"]).map
      (fun cronJob => cronJob.Body.Volumes.map Volume.Name)
      = some ["sender", "auth", "temp", "vault-auth", "vault-script", "vault-access",
          "vault-access"] ∧
    (Example.expectedCronJob [Example.vaultRegistry "vault-access" "vault-access"]).map
      (fun cronJob => decide (cronJob.Body.Volumes.map Volume.Name).Nodup) = some false ∧
    (Example.expectedCronJob [Example.vaultRegistry "vault-access" "vault-access"]).map
      (fun cronJob =>
        (cronJob.Body.Containers ++ cronJob.Body.InitContainers).all fun container =>
          container.VolumeMounts.all fun volumeMount =>
            decide (volumeMount.Name ∈ cronJob.Body.Volumes.map Volume.Name))
      = some true :=
  ⟨by decide, by decide, by decide⟩

end Scanner
